import Mathlib

/-!
# Verification of the LumaFlow multi-resolution rendering core

Shallow embedding of the rendering/caching engine of the LumaFlow timeline
editor, together with proofs checking the natural-language specification
against the code.

The embedding covers:

* `src/utils/tile_cache.py` — `TileCache`, an LRU key→image store backed by a
  Python `OrderedDict`, modelled here as an insertion-ordered association
  list whose head is the oldest (least recently used) entry.
* `src/ui/timeline_widget.py` — `RenderWorker.process_data`,
  `RenderWorker._aggregate_data` and
  `RenderWorker._calculate_frame_importance_vectorized`, the keyframe
  importance scorer and LOD aggregator.
* `src/ui/audio_texture_worker.py` — `AudioTextureWorker.render_tile`, the
  spectrogram tile renderer with its staleness check.
* `src/ui/audio_visualization_item.py` — `AudioVisualizationItem`, the tile
  orchestrator (level selection, visible tile ids, cache keys, pending set).

Machine floats of the source are modelled as exact rationals; the only
genuinely inexact primitive, `np.sqrt`, is abstracted as an explicit function
parameter `sqrtFn : ℚ → ℚ`, and concrete evaluations instantiate it at
`qSqrt` (exact integer square root), choosing inputs on which IEEE-754
square root is itself exact so that the model and the program agree bit for
bit on those runs.
-/

namespace LumaFlow

/-! ## TileCache (`src/utils/tile_cache.py`)

The Python class stores entries in an `OrderedDict`; iteration order is
insertion/recency order, `popitem(last=False)` removes the oldest entry and
`move_to_end` moves an entry to the newest position.  We model the dict as a
`List (κ × ι)` with the oldest entry first and the most recently used entry
last.  Keys in the list are unique (an invariant of any dict). -/

structure TileCache (κ : Type) (ι : Type) where
  entries : List (κ × ι)
  maxSize : Nat

namespace TileCache

variable {κ ι : Type} [DecidableEq κ]

/-- `TileCache.__init__`: empty cache with the given capacity. -/
def empty (maxSize : Nat) : TileCache κ ι := ⟨[], maxSize⟩

/-- The value stored for `key`, if any (plain dict access, no recency
update). -/
def lookup (c : TileCache κ ι) (key : κ) : Option ι :=
  (c.entries.find? (fun e => e.1 = key)).map Prod.snd

/-- `TileCache.size`: `len(self._cache)`. -/
def size (c : TileCache κ ι) : Nat := c.entries.length

/-- `TileCache.contains`: `key in self._cache`. -/
def containsKey (c : TileCache κ ι) (key : κ) : Bool :=
  (c.entries.find? (fun e => e.1 = key)).isSome

/-- `TileCache.get`: on a hit, `move_to_end(key)` and return the stored
image; on a miss return `None`.  Returns the possibly reordered cache along
with the result. -/
def get (c : TileCache κ ι) (key : κ) : Option ι × TileCache κ ι :=
  match c.entries.find? (fun e => e.1 = key) with
  | some kv =>
      (some kv.2,
       { c with entries := c.entries.filter (fun e => ¬ (e.1 = key)) ++ [(key, kv.2)] })
  | none => (none, c)

/-- `TileCache.put`: if the key exists, `move_to_end` and overwrite the
value; otherwise, if `len(cache) >= max_size`, `popitem(last=False)` (drop
the oldest entry, the list head) and append the new entry at the newest
position. -/
def put (c : TileCache κ ι) (key : κ) (img : ι) : TileCache κ ι :=
  if (c.entries.find? (fun e => e.1 = key)).isSome then
    { c with entries := c.entries.filter (fun e => ¬ (e.1 = key)) ++ [(key, img)] }
  else
    let base := if c.maxSize ≤ c.entries.length then c.entries.tail else c.entries
    { c with entries := base ++ [(key, img)] }

/-- `TileCache.clear`. -/
def clear (c : TileCache κ ι) : TileCache κ ι := { c with entries := [] }

/-- Put a whole list of key/image pairs in order. -/
def putList (c : TileCache κ ι) (kvs : List (κ × ι)) : TileCache κ ι :=
  kvs.foldl (fun acc kv => put acc kv.1 kv.2) c

end TileCache

/-! ## Cache keys and level parsing
(`src/ui/audio_visualization_item.py` / `src/ui/audio_texture_worker.py`)

Python strings are modelled as `List Char`.  `_make_cache_key` builds
`f"{video_path}_{channel_mode}_{colormap}_{tile_id}_{level}"`; the worker
recovers the level with `int(cache_key.split('_')[-1])`. -/

/-- The character Python's `str` uses for a decimal digit. -/
def digitChar (d : ℕ) : Char :=
  if d = 0 then '0' else if d = 1 then '1' else if d = 2 then '2'
  else if d = 3 then '3' else if d = 4 then '4' else if d = 5 then '5'
  else if d = 6 then '6' else if d = 7 then '7' else if d = 8 then '8'
  else if d = 9 then '9' else '?'

/-- Fuelled accumulator loop for the decimal representation of a natural
number (most significant digit first). -/
def natReprAux : ℕ → ℕ → List Char → List Char
  | 0, _, acc => acc
  | fuel + 1, n, acc =>
      if n < 10 then digitChar n :: acc
      else natReprAux fuel (n / 10) (digitChar (n % 10) :: acc)

/-- Python's `str(n)` for a natural number. -/
def natRepr (n : ℕ) : List Char := natReprAux (n + 1) n []

/-- Python's `str.split(sep)` on character lists: `"" → [""]`,
`"a_b" → ["a","b"]`, `"_b" → ["","b"]`. -/
def pySplit (sep : Char) : List Char → List (List Char)
  | [] => [[]]
  | c :: cs =>
      if c = sep then [] :: pySplit sep cs
      else
        match pySplit sep cs with
        | [] => [[c]]
        | h :: t => (c :: h) :: t

/-- The numeric value of a decimal digit character, if it is one. -/
def digitVal? (c : Char) : Option ℕ :=
  if 48 ≤ c.toNat ∧ c.toNat ≤ 57 then some (c.toNat - 48) else none

/-- Value of a nonempty all-digit string; `none` models the `ValueError`
Python's `int()` raises otherwise. -/
def digitsToNat? (cs : List Char) : Option ℕ :=
  match cs with
  | [] => none
  | _ =>
      cs.foldl
        (fun acc c =>
          match acc, digitVal? c with
          | some a, some d => some (10 * a + d)
          | _, _ => none)
        (some 0)

/-- Python's `int(s)` on a trimmed string: optional minus sign followed by
decimal digits; `none` models a `ValueError`. -/
def pyParseInt : List Char → Option ℤ
  | '-' :: rest => (digitsToNat? rest).map (fun n => -(n : ℤ))
  | cs => (digitsToNat? cs).map (fun n => (n : ℤ))

/-- `AudioVisualizationItem._make_cache_key`: the f-string
`f"{video_path}_{channel_mode}_{colormap}_{tile_id}_{level}"`. -/
def makeCacheKey (videoPath channelMode colormapName : List Char)
    (tileId : ℕ) (level : ℕ) : List Char :=
  videoPath ++ '_' :: channelMode ++ '_' :: colormapName ++ '_' ::
    natRepr tileId ++ '_' :: natRepr level

/-- `AudioTextureWorker.render_tile`'s level recovery:
`int(cache_key.split('_')[-1])` (Python `[-1]` on the never-empty result of
`split`). -/
def parseKeyLevel (key : List Char) : Option ℤ :=
  pyParseInt ((pySplit '_' key).getLastD [])

/-- `AudioTextureWorker.LEVELS_DOWNSAMPLE`. -/
def LEVELS_DOWNSAMPLE : List ℕ := [1, 16, 128]

/-- Python list indexing with negative-index wraparound; `none` models an
`IndexError`. -/
def pyListGet (l : List ℕ) (i : ℤ) : Option ℕ :=
  if 0 ≤ i then l.get? i.toNat
  else if -(l.length : ℤ) ≤ i then l.get? (l.length - (-i).toNat) else none

/-- `ds_factor = self.LEVELS_DOWNSAMPLE[level] if level <
len(self.LEVELS_DOWNSAMPLE) else 1` in `render_tile`. -/
def dsFactorForLevel (level : ℤ) : Option ℕ :=
  if level < (LEVELS_DOWNSAMPLE.length : ℤ) then pyListGet LEVELS_DOWNSAMPLE level
  else some 1

/-! ## Spectrogram tile renderer (`src/ui/audio_texture_worker.py`)

`AudioTextureWorker.render_tile` checks staleness, recovers the level from
the cache key, binary-searches the slice on the time axis, decimates,
normalizes from dB and maps through a colormap.  The matplotlib colormap is
an injected pure function (spec §6); machine floats are exact rationals. -/

/-- The read-only `AudioData` value consumed by the renderer: mel
spectrogram in dB (`spectrogram[freq_bin][time_frame]`) with its parallel
time axis in milliseconds. -/
structure AudioData where
  spectrogram : List (List ℚ)
  times_ms : List ℚ
  video_path : List Char
  channel_mode : List Char
  duration_ms : ℚ

/-- `np.searchsorted(times, x, side='left')` on a sorted axis: the number
of entries strictly below `x`. -/
def searchsortedLeft (l : List ℚ) (x : ℚ) : ℕ :=
  l.countP (fun t => t < x)

/-- `np.searchsorted(times, x, side='right')` on a sorted axis: the number
of entries at or below `x`. -/
def searchsortedRight (l : List ℚ) (x : ℚ) : ℕ :=
  l.countP (fun t => t ≤ x)

/-- Keep every `ds`-th element, starting with the first (`l[::ds]`). -/
def everyNth (ds : ℕ) (l : List ℚ) : List ℚ :=
  (l.enum.filter (fun p => p.1 % ds = 0)).map Prod.snd

/-- Python `l[s:e:ds]` for `0 ≤ s`, `0 ≤ e`, `1 ≤ ds`. -/
def pySliceStep (l : List ℚ) (s e ds : ℕ) : List ℚ :=
  everyNth ds ((l.drop s).take (e - s))

/-- A rendered tile: RGB rows (one per frequency bin), plus the
`width`/`height` the worker passes to `QImage`. -/
structure Tile where
  width : ℕ
  height : ℕ
  pixels : List (List (ℚ × ℚ × ℚ))

/-- `AudioTextureWorker.render_tile`.  Returns `none` whenever the Python
code emits nothing: stale request (`now - request_time > 5.0`), level parse
or lookup failure (exception swallowed by the `except` block), empty slice
(`e_idx <= s_idx`) or empty decimated tile (`tile_data.size == 0`). -/
def renderTile (audio : AudioData) (cacheKey : List Char)
    (startMs endMs : ℚ) (cmap : ℚ → ℚ × ℚ × ℚ) (requestTime now : ℚ) :
    Option Tile :=
  if 5 < now - requestTime then none
  else
    match parseKeyLevel cacheKey with
    | none => none
    | some level =>
      match dsFactorForLevel level with
      | none => none
      | some dsFactor =>
        let sIdx := searchsortedLeft audio.times_ms startMs
        let eIdx := searchsortedRight audio.times_ms endMs
        if eIdx ≤ sIdx then none
        else
          let tileData := audio.spectrogram.map
            (fun row => pySliceStep row sIdx eIdx dsFactor)
          if (tileData.map List.length).sum = 0 then none
          else
            let normData := tileData.map
              (fun row => row.map (fun db => min (max (db + 80) 0 / 80) 1))
            let rgbData := normData.map (fun row => row.map cmap)
            some { width := (rgbData.headI).length,
                   height := rgbData.length,
                   pixels := rgbData }

/-! ## Tile orchestrator (`src/ui/audio_visualization_item.py`)

`AudioVisualizationItem.paint` clamps the viewport to the data range,
computes `ms_per_pixel`, selects a LOD level, and enumerates the visible
tile indices at that level's tile duration. -/

/-- `AudioVisualizationItem.LEVEL_TILE_DURATIONS`. -/
def LEVEL_TILE_DURATIONS : List ℚ := [5000, 80000, 1280000]

/-- `AudioVisualizationItem._get_level_for_zoom`. -/
def getLevelForZoom (msPerPixel : ℚ) : ℕ :=
  if msPerPixel < 50 then 0
  else if msPerPixel < 800 then 1
  else 2

/-- `LEVEL_TILE_DURATIONS[level]` (levels are always 0..2 here). -/
def tileDuration (level : ℕ) : ℚ := LEVEL_TILE_DURATIONS.getD level 0

/-- Python `range(a, b)` over integers. -/
def pyRange (a b : ℤ) : List ℤ :=
  (List.range (b - a).toNat).map (fun i : ℕ => a + (i : ℤ))

/-- `AudioVisualizationItem._get_visible_tile_ids`:
`range(max(0, int(x_min // dur)), min(int(duration // dur) + 1,
int(x_max // dur) + 1))`. -/
def getVisibleTileIds (xMin xMax : ℚ) (level : ℕ) (durationMs : ℚ) :
    List ℤ :=
  let dur := tileDuration level
  let startTile := max 0 ⌊xMin / dur⌋
  let endTile := min (⌊durationMs / dur⌋ + 1) (⌊xMax / dur⌋ + 1)
  pyRange startTile endTile

/-- Viewport part of `AudioVisualizationItem.paint`: clamp the view range
to the data, bail out on an empty range or non-positive pixel width,
otherwise pick the level from `ms_per_pixel` and list the visible tiles. -/
def requiredTiles (xRangeMin xRangeMax pxWidth durationMs : ℚ) :
    Option (ℕ × List ℤ) :=
  let xMin := max 0 xRangeMin
  let xMax := min durationMs xRangeMax
  if xMax ≤ xMin then none
  else if pxWidth ≤ 0 then none
  else
    let msPerPixel := (xMax - xMin) / pxWidth
    let level := getLevelForZoom msPerPixel
    some (level, getVisibleTileIds xMin xMax level durationMs)

/-! ## The pending-set protocol
(`AudioVisualizationItem.paint` / `on_tile_ready` with
`AudioTextureWorker.render_tile`)

The orchestrator keeps `_pending_tiles`, adds a key when it dispatches a
render request from `paint`'s cache-miss branch, and removes it in
`on_tile_ready` — which only runs when the worker emits `texture_ready`,
i.e. on success.  A dropped request (stale or empty slice) emits nothing. -/

/-- Orchestrator-side state: the shared tile cache plus
`AudioVisualizationItem._pending_tiles`. -/
structure OrchestratorState where
  cache : TileCache (List Char) Tile
  pending : List (List Char)

/-- A dispatched render request, as carried by the `request_tile` signal
`(audio_data, cache_key, start_ms, end_ms, colormap, request_time)` (the
colormap name is resolved worker-side to a function). -/
structure RenderRequest where
  audio : AudioData
  cacheKey : List Char
  startMs : ℚ
  endMs : ℚ
  requestTime : ℚ

/-- One iteration of the tile loop in `AudioVisualizationItem.paint` for a
single cache key: a cache hit draws the tile (recency refreshed by `get`);
a miss draws the placeholder and, when the key is not already pending, adds
it to the pending set and dispatches a render request stamped `now`. -/
def paintTile (s : OrchestratorState) (key : List Char) (audio : AudioData)
    (tileStart tileEnd now : ℚ) : OrchestratorState × Option RenderRequest :=
  match s.cache.get key with
  | (some _, cache') => ({ s with cache := cache' }, none)
  | (none, cache') =>
      if key ∈ s.pending then ({ s with cache := cache' }, none)
      else ({ cache := cache', pending := key :: s.pending },
            some ⟨audio, key, tileStart, tileEnd, now⟩)

/-- The worker side: `render_tile` evaluated at wall clock `now`; `none`
when the request is dropped (stale, bad key or empty slice) — in that case
`texture_ready` is never emitted. -/
def workerStep (req : RenderRequest) (cmap : ℚ → ℚ × ℚ × ℚ) (now : ℚ) :
    Option (List Char × Tile) :=
  (renderTile req.audio req.cacheKey req.startMs req.endMs cmap
    req.requestTime now).map (fun t => (req.cacheKey, t))

/-- `AudioVisualizationItem.on_tile_ready`: store the tile, then
`_pending_tiles.discard(cache_key)`. -/
def onTileReady (s : OrchestratorState) (key : List Char) (img : Tile) :
    OrchestratorState :=
  { cache := s.cache.put key img, pending := s.pending.erase key }

/-- Delivery of a worker outcome to the orchestrator: a successful tile
triggers `on_tile_ready`; a dropped request delivers nothing, so no handler
runs at all. -/
def deliver (s : OrchestratorState) (result : Option (List Char × Tile)) :
    OrchestratorState :=
  match result with
  | some (key, img) => onTileReady s key img
  | none => s

/-! ## Keyframes and the importance scorer
(`src/ui/timeline_widget.py`, `RenderWorker`)

A keyframe row carries `frame_time_ms`, ten channels of `chN_red/green/
blue` (integers 0–15) and an optional `marker`.  The scorer
`_calculate_frame_importance_vectorized` builds the score series in stages,
exactly as the pandas code does.  `np.sqrt` on machine floats is abstracted
as the parameter `sqrtFn`; all other arithmetic is exact rationals. -/

/-- One row of the keyframe DataFrame. -/
structure Keyframe where
  frame_time_ms : ℚ
  chans : Fin 10 → ℤ × ℤ × ℤ
  marker : Option (List Char)

instance : Inhabited Keyframe := ⟨⟨0, fun _ => (0, 0, 0), none⟩⟩

/-- `df[rgb_cols].sum(axis=1)` for one row: the sum of all 30 RGB values. -/
def totalBrightness (f : Keyframe) : ℤ :=
  (List.ofFn (fun i : Fin 10 =>
    (f.chans i).1 + (f.chans i).2.1 + (f.chans i).2.2)).sum

/-- Row `i` of a keyframe list (defaulting, used only in range). -/
def kfAt (frames : List Keyframe) (i : ℕ) : Keyframe := frames.getD i default

/-- Total brightness of row `i`. -/
def tbAt (frames : List Keyframe) (i : ℕ) : ℤ := totalBrightness (kfAt frames i)

/-- `total_brightness.shift(1).fillna(total_brightness)`: edge-hold
previous-row brightness. -/
def prevTb (frames : List Keyframe) (i : ℕ) : ℤ :=
  if i = 0 then tbAt frames i else tbAt frames (i - 1)

/-- `total_brightness.shift(-1).fillna(total_brightness)`: edge-hold
next-row brightness. -/
def nextTb (frames : List Keyframe) (i : ℕ) : ℤ :=
  if i + 1 = frames.length then tbAt frames i else tbAt frames (i + 1)

/-- `np.minimum(99.0, total_brightness / 4.5)`. -/
def baseBrightnessScore (frames : List Keyframe) (i : ℕ) : ℚ :=
  min 99 ((tbAt frames i : ℚ) / 4.5)

/-- `np.minimum(100.0, max(|Δprev|, |Δnext|) / 4.5)`. -/
def brightnessJumpScore (frames : List Keyframe) (i : ℕ) : ℚ :=
  min 100 (((max (tbAt frames i - prevTb frames i).natAbs
    (tbAt frames i - nextTb frames i).natAbs : ℕ) : ℚ) / 4.5)

/-- Per-channel Euclidean RGB distance between two rows, summed over the 10
channels (`sqrt(dr² + dg² + db²)` per channel, through `sqrtFn`). -/
def colorDistTo (sqrtFn : ℚ → ℚ) (f g : Keyframe) : ℚ :=
  (List.ofFn (fun ch : Fin 10 =>
    sqrtFn ((((f.chans ch).1 - (g.chans ch).1) ^ 2
      + ((f.chans ch).2.1 - (g.chans ch).2.1) ^ 2
      + ((f.chans ch).2.2 - (g.chans ch).2.2) ^ 2 : ℤ) : ℚ))).sum

/-- Distance to the previous row; `shift(1)` makes row 0's distance NaN,
zeroed by the final `fillna(0)`. -/
def colorDistPrev (sqrtFn : ℚ → ℚ) (frames : List Keyframe) (i : ℕ) : ℚ :=
  if i = 0 then 0
  else colorDistTo sqrtFn (kfAt frames i) (kfAt frames (i - 1))

/-- Distance to the next row; `shift(-1)` makes the last row's distance
NaN, zeroed by the final `fillna(0)`. -/
def colorDistNext (sqrtFn : ℚ → ℚ) (frames : List Keyframe) (i : ℕ) : ℚ :=
  if i + 1 = frames.length then 0
  else colorDistTo sqrtFn (kfAt frames i) (kfAt frames (i + 1))

/-- `np.minimum(500.0, max_color_change * 2)`. -/
def colorChangeScore (sqrtFn : ℚ → ℚ) (frames : List Keyframe) (i : ℕ) : ℚ :=
  min 500
    (max (colorDistPrev sqrtFn frames i) (colorDistNext sqrtFn frames i) * 2)

/-- `RenderWorker._calculate_frame_importance_vectorized`, built in the
same four stages as the pandas code: zero-initialised scores, blackout rows
set to 1000, base brightness added to non-blackout rows, brightness-jump
and color-change scores added to all rows. -/
def importanceScores (sqrtFn : ℚ → ℚ) (frames : List Keyframe) : List ℚ :=
  let n := frames.length
  let s1 := (List.range n).map
    (fun i => if tbAt frames i = 0 then (1000 : ℚ) else 0)
  let s2 := (List.range n).map
    (fun i => s1.getD i 0 +
      (if tbAt frames i = 0 then 0 else baseBrightnessScore frames i))
  let s3 := (List.range n).map
    (fun i => s2.getD i 0 + brightnessJumpScore frames i)
  (List.range n).map (fun i => s3.getD i 0 + colorChangeScore sqrtFn frames i)

/-- Score of row `i`. -/
def scoreAt (sqrtFn : ℚ → ℚ) (frames : List Keyframe) (i : ℕ) : ℚ :=
  (importanceScores sqrtFn frames).getD i 0

/-- Exact integer square root on rationals: the concrete stand-in for
IEEE-754 `np.sqrt` in concrete runs.  Every concrete theorem below applies
it only to perfect squares of naturals, on which IEEE-754 square root is
itself exact, so model and program agree bit for bit there. -/
def qSqrt (q : ℚ) : ℚ := (Nat.sqrt q.num.toNat : ℚ)

/-! ## The LOD aggregator (`RenderWorker._aggregate_data`) -/

/-- The aggregator's output unit: the copied source row (whose
`frame_time_ms` has been overwritten with the block's displayed start time)
plus the computed `width` column. -/
structure RenderBlock where
  kf : Keyframe
  width : ℚ

instance : Inhabited RenderBlock := ⟨⟨default, 0⟩⟩

/-- A block's displayed start time. -/
def blockStart (b : RenderBlock) : ℚ := b.kf.frame_time_ms

/-- `widths = starts.diff().shift(-1)` followed by an assignment of the
final width: pairwise gaps to the next start, then the supplied last
width. -/
def diffWidths (starts : List ℚ) (lastW : ℚ) : List ℚ :=
  starts.zipWith (fun a b => b - a) starts.tail ++ [lastW]

/-- Attach the width column to rows: one block per row, widths from
`diffWidths`. -/
def mkBlocks (rows : List Keyframe) (lastW : ℚ) : List RenderBlock :=
  (rows.zip (diffWidths (rows.map Keyframe.frame_time_ms) lastW)).map
    (fun p => ⟨p.1, p.2⟩)

/-- Insertion into a sorted list (ascending). -/
def insertSorted (x : ℚ) : List ℚ → List ℚ
  | [] => [x]
  | y :: ys => if x ≤ y then x :: y :: ys else y :: insertSorted x ys

/-- Insertion sort, ascending. -/
def sortQ (l : List ℚ) : List ℚ := l.foldr insertSorted []

/-- `pandas.Series.median` on the non-NaN values: `none` for an empty
series, otherwise the middle element (odd length) or the mean of the two
middle elements (even length). -/
def pandasMedian (l : List ℚ) : Option ℚ :=
  match l with
  | [] => none
  | _ =>
      let s := sortQ l
      let n := l.length
      if n % 2 = 1 then some (s.getD (n / 2) 0)
      else some ((s.getD (n / 2 - 1) 0 + s.getD (n / 2) 0) / 2)

/-- `full_df['frame_time_ms'].diff().median()`: the median inter-frame
interval of the full dataset (the leading NaN of `diff()` is dropped by
`median`). -/
def medianDiff (fullTimes : List ℚ) : Option ℚ :=
  pandasMedian (fullTimes.zipWith (fun a b => b - a) fullTimes.tail)

/-- The raw-mode last width: the gap to the first keyframe of the full
dataset strictly after `lastT`, else the median inter-frame interval, else
the 50 ms default. -/
def rawLastWidth (fullTimes : List ℚ) (lastT : ℚ) : ℚ :=
  match fullTimes.find? (fun t => lastT < t) with
  | some nt => nt - lastT
  | none =>
      match medianDiff fullTimes with
      | some m => m
      | none => 50

/-- `pandas.Series.min` of a nonempty column. -/
def pandasMin (l : List ℚ) : ℚ :=
  match l with
  | [] => 0
  | x :: xs => xs.foldl min x

/-- `pandas.Series.max` of a nonempty column. -/
def pandasMax (l : List ℚ) : ℚ :=
  match l with
  | [] => 0
  | x :: xs => xs.foldl max x

/-- `np.linspace(a, b, n + 1)` as exact rationals. -/
def linspace (a b : ℚ) (n : ℕ) : List ℚ :=
  (List.range (n + 1)).map (fun j : ℕ => a + (b - a) * j / n)

/-- `pd.cut(t, bins=edges, labels=False, right=False, include_lowest=True)`
for one value: the index `k` with `edges[k] ≤ t < edges[k+1]`, i.e. the
number of edges at or below `t`, minus one; out of range (in particular
`t = edges.last`, since intervals are right-open) is NaN, modelled as
`none`. -/
def cutBin (edges : List ℚ) (numBins : ℕ) (t : ℚ) : Option ℕ :=
  if edges.countP (fun e => e ≤ t) = 0 ∨
      numBins < edges.countP (fun e => e ≤ t) then none
  else some (edges.countP (fun e => e ≤ t) - 1)

/-- One step of the first-of-max scan underlying pandas `idxmax`: replace
the running best index only on a strictly larger score. -/
def idxmaxStep (scores : List ℚ) (acc : Option ℕ) (i : ℕ) : Option ℕ :=
  match acc with
  | none => some i
  | some j => if scores.getD j 0 < scores.getD i 0 then some i else some j

/-- `groupby('time_bin')['importance_score'].idxmax()` for one group:
pandas returns the first index attaining the group's maximum score. -/
def idxmaxFrom (scores : List ℚ) (idxs : List ℕ) : Option ℕ :=
  idxs.foldl (idxmaxStep scores) none

/-- The most important frame of bin `k` (`bin_to_frame_map`): `idxmax` over
the rows whose `time_bin` is `k` (rows with NaN bin were dropped). -/
def binToFrame (scores : List ℚ) (ts : List ℚ) (edges : List ℚ)
    (numBins k : ℕ) : Option ℕ :=
  idxmaxFrom scores
    ((List.range ts.length).filter
      (fun i => cutBin edges numBins (ts.getD i 0) = some k))

/-- One iteration of the emission loop (`for i in range(num_bins)`): emit
bin `k`'s frame unless it equals `last_frame_index`. -/
def emitStep (b2f : ℕ → Option ℕ) (st : List (ℕ × ℕ) × Option ℕ) (k : ℕ) :
    List (ℕ × ℕ) × Option ℕ :=
  match b2f k with
  | some fi => if st.2 = some fi then st else (st.1 ++ [(k, fi)], some fi)
  | none => st

/-- The emission loop: the list of `(bin, frame index)` pairs emitted, in
bin order. -/
def emitBins (b2f : ℕ → Option ℕ) (numBins : ℕ) : List (ℕ × ℕ) :=
  ((List.range numBins).foldl (emitStep b2f) ([], none)).1

/-- `_aggregate_data`'s result: the code returns `(DataFrame, bool)`, but
three shapes of DataFrame occur: empty, the degenerate `df.head(1)` (which
has no `width` column), and proper width-carrying blocks. -/
inductive AggResult where
  | empty : AggResult
  | degenerate (k : Keyframe) : AggResult
  | blocks (bs : List RenderBlock) (isRaw : Bool) : AggResult

/-- `RenderWorker._aggregate_data(df, num_bins, full_df)`.  Raw mode when
`num_bins >= len(df)`: one block per row with gap widths and the
`rawLastWidth` rule.  Otherwise: score rows, drop the `max_time ≤ min_time`
degenerate case, cut `[min_time, max_time]` into `num_bins` right-open
bins, pick each bin's first-idxmax row, emit in bin order with bin left
edges as start times, widths by `diff().shift(-1)` with the final width
`max_time - last start` (the `fillna(max_time - min_time)` can only hit the
final width, which is always assigned first, so it is inert). -/
def aggregateData (sqrtFn : ℚ → ℚ) (dfv : List Keyframe) (numBins : ℕ)
    (full : List Keyframe) : AggResult :=
  if dfv.isEmpty ∨ numBins = 0 then .empty
  else if dfv.length ≤ numBins then
    .blocks
      (mkBlocks dfv
        (rawLastWidth (full.map Keyframe.frame_time_ms)
          ((dfv.map Keyframe.frame_time_ms).getLastD 0)))
      true
  else
    let scores := importanceScores sqrtFn dfv
    let ts := dfv.map Keyframe.frame_time_ms
    let minT := pandasMin ts
    let maxT := pandasMax ts
    if maxT ≤ minT then .degenerate (dfv.headD default)
    else
      let edges := linspace minT maxT numBins
      let b2f := binToFrame scores ts edges numBins
      let emitted := emitBins b2f numBins
      let rows := emitted.map
        (fun p => { kfAt dfv p.2 with frame_time_ms := edges.getD p.1 0 })
      match rows, dfv.filter (fun f => (cutBin edges numBins
          f.frame_time_ms).isSome) with
      | [], [] => .empty
      | [], f :: _ => .blocks (mkBlocks [{ f with frame_time_ms := minT }]
          (maxT - minT)) false
      | r :: rs, _ =>
          .blocks
            (mkBlocks (r :: rs)
              (maxT - ((r :: rs).map Keyframe.frame_time_ms).getLastD 0))
            false

/-! ## The render pipeline (`RenderWorker.process_data`) -/

/-- Python `int(q)` (truncation toward zero). -/
def pyTrunc (q : ℚ) : ℤ := if 0 ≤ q then ⌊q⌋ else -⌊-q⌋

/-- Overwrite the width of the final block
(`df_final.iloc[-1, get_loc('width')] = w`). -/
def setLastWidth (bs : List RenderBlock) (w : ℚ) : List RenderBlock :=
  match bs with
  | [] => []
  | b :: rest =>
      (b :: rest).dropLast ++ [⟨((b :: rest).getLastD default).kf, w⟩]

/-- Step 1/2 of `process_data`: the visible slice
`df.iloc[start_idx:end_idx]` with
`start_idx = searchsorted(x_min, 'right') - 1` clamped at 0 (one lead-in
keyframe) and `end_idx = min(searchsorted(x_max, 'right') + 1, len)` (one
lead-out keyframe). -/
def sliceVisible (df : List Keyframe) (xMin xMax : ℚ) : List Keyframe :=
  (df.drop (searchsortedRight (df.map Keyframe.frame_time_ms) xMin - 1)).take
    (min (searchsortedRight (df.map Keyframe.frame_time_ms) xMax + 1)
        (df.map Keyframe.frame_time_ms).length
      - (searchsortedRight (df.map Keyframe.frame_time_ms) xMin - 1))

/-- Step 3 of `process_data` ("color hold"): if the lead-in keyframe's
stored time precedes the viewport, clamp its displayed time to `x_min`. -/
def clampHead (dfv : List Keyframe) (xMin : ℚ) : List Keyframe :=
  match dfv with
  | [] => []
  | f :: rest =>
      (if f.frame_time_ms < xMin then { f with frame_time_ms := xMin }
       else f) :: rest

/-- Step 4 of `process_data` ("color extension"): overwrite the final
block's width with the gap to the first full-dataset keyframe strictly
after the final block's start; if none exists, extend the final block to
the viewport's right edge when it falls short of it. -/
def fixLastWidth (times : List ℚ) (xMax : ℚ) (bs : List RenderBlock) :
    List RenderBlock :=
  if searchsortedRight times ((bs.map blockStart).getLastD 0) <
      times.length then
    setLastWidth bs
      (times.getD (searchsortedRight times ((bs.map blockStart).getLastD 0)) 0
        - (bs.map blockStart).getLastD 0)
  else if (bs.map blockStart).getLastD 0 +
      (bs.map RenderBlock.width).getLastD 0 < xMax then
    setLastWidth bs (xMax - (bs.map blockStart).getLastD 0)
  else bs

/-- `RenderWorker.process_data(df, (x_min, x_max), view_width_pixels)`:
slice one lead-in and one lead-out keyframe around the viewport, clamp the
lead-in's displayed time up to `x_min` ("color hold"), aggregate with
`num_bins = min(len(visible), int(view_width_pixels / 6))`, then fix the
final block's width against the full dataset ("color extension").  The
degenerate aggregation result has no `width` column, so step 4 raises a
`KeyError` which the worker's `except` swallows, emitting an empty payload
(and `is_raw_data = False`). -/
def processData (sqrtFn : ℚ → ℚ) (df : List Keyframe) (xMin xMax : ℚ)
    (viewWidthPixels : ℚ) : List RenderBlock × Bool :=
  if df.isEmpty then ([], false)
  else
    let dfv2 := clampHead (sliceVisible df xMin xMax) xMin
    if dfv2.isEmpty then ([], false)
    else
      let numBins : ℤ :=
        min (dfv2.length : ℤ) (pyTrunc (viewWidthPixels / 6))
      if numBins ≤ 0 then ([], false)
      else
        match aggregateData sqrtFn dfv2 numBins.toNat df with
        | .empty => ([], false)
        | .degenerate _ => ([], false)
        | .blocks bs isRaw =>
            (fixLastWidth (df.map Keyframe.frame_time_ms) xMax bs, isRaw)

/-! ### Concrete keyframe fixtures used by the concrete theorems -/

/-- A blackout row: all 30 RGB values are 0. -/
def exDark : Keyframe := ⟨10, fun _ => (0, 0, 0), none⟩

/-- A row with every channel at `(0, 0, 9)` — brightness 90, and every
per-channel squared distance to `exDark` is `81 = 9²`, a perfect square, so
`qSqrt` agrees with IEEE-754 square root on all roots taken. -/
def exNavy : Keyframe := ⟨0, fun _ => (0, 0, 9), none⟩

/-- Two keyframes: a lit frame followed by a blackout. -/
def exPair : List Keyframe := [exNavy, exDark]

/-! ### More concrete fixtures, and concrete C2 runs -/

/-- Like `exNavy` but at `t = 1`. -/
def exB2 : Keyframe := ⟨1, fun _ => (0, 0, 9), none⟩

/-- A blackout at `t = 2`. -/
def exC2 : Keyframe := ⟨2, fun _ => (0, 0, 0), none⟩

/-- Three keyframes whose *last* one is a blackout sitting exactly at
`max_time`. -/
def exTriple : List Keyframe := [exNavy, exB2, exC2]

/-- The spec's end-to-end scenario blackout at `t = 5000`. -/
def exMid : Keyframe := ⟨5000, fun _ => (0, 0, 0), none⟩

/-- The scenario's trailing keyframe at `t = 5001`. -/
def exEnd : Keyframe := ⟨5001, fun _ => (0, 0, 9), none⟩

/-- The spec's end-to-end scenario: keyframes at `t = 0, 5000, 5001` with
the middle one all-zero. -/
def exScenario : List Keyframe := [exNavy, exMid, exEnd]

/-!
### Claim C7 — coverage of the visible range
-/

/-- A third all-`(0,0,9)` keyframe far to the right, used by the C7
counterexample. -/
def exFar : Keyframe := ⟨100, fun _ => (0, 0, 9), none⟩

/-- Keyframes at `t = 0, 1, 100`, identically colored: every importance
score ties, so binning keeps only the first frame. -/
def exTripleB : List Keyframe := [exNavy, exB2, exFar]

/-!
### Claim C9 — the pipeline never mutates the caller's data

Pandas frames are heap objects: `df.iloc[...] = v` mutates in place while
`df.copy()` allocates.  To state the frame effect we model a heap of
keyframe-sequence objects and re-run the pipeline with its object
operations (copies and in-place writes) explicit.
-/

/-- A store of keyframe-sequence objects; a reference is an index. -/
abbrev Heap := List (List Keyframe)

/-- Read the object at reference `r` (dangling references read as empty). -/
def hread (h : Heap) (r : ℕ) : List Keyframe := h.getD r []

/-- Allocate a fresh object initialised with `v` (`DataFrame.copy()`),
returning the new heap and the fresh reference. -/
def halloc (h : Heap) (v : List Keyframe) : Heap × ℕ := (h ++ [v], h.length)

/-- Overwrite the object at reference `r` (in-place mutation). -/
def hwrite (h : Heap) (r : ℕ) (v : List Keyframe) : Heap := h.set r v

/-- `_aggregate_data(df, num_bins, full_df)` with its object operations
explicit: both branches copy their input (`df_agg = df.copy()` in raw mode,
`df = df.copy()` in binned mode) before touching it, and the binned
branch's `dropna(subset=['time_bin'], inplace=True)` writes to that local
copy.  Row-level `.loc[...].copy()` updates act on fresh row copies and
stay pure. -/
def aggregateDataHeap (sqrtFn : ℚ → ℚ) (h : Heap) (rdf rfull : ℕ)
    (numBins : ℕ) : Heap × AggResult :=
  if (hread h rdf).isEmpty ∨ numBins = 0 then (h, .empty)
  else if (hread h rdf).length ≤ numBins then
    let h1 := (halloc h (hread h rdf)).1
    let ragg := (halloc h (hread h rdf)).2
    (h1, .blocks
      (mkBlocks (hread h1 ragg)
        (rawLastWidth ((hread h1 rfull).map Keyframe.frame_time_ms)
          (((hread h1 ragg).map Keyframe.frame_time_ms).getLastD 0)))
      true)
  else
    let h1 := (halloc h (hread h rdf)).1
    let rloc := (halloc h (hread h rdf)).2
    let scores := importanceScores sqrtFn (hread h1 rloc)
    let ts := (hread h1 rloc).map Keyframe.frame_time_ms
    let minT := pandasMin ts
    let maxT := pandasMax ts
    if maxT ≤ minT then (h1, .degenerate ((hread h1 rloc).headD default))
    else
      let edges := linspace minT maxT numBins
      let h2 := hwrite h1 rloc ((hread h1 rloc).filter
        (fun f => (cutBin edges numBins f.frame_time_ms).isSome))
      let b2f := binToFrame scores ts edges numBins
      let emitted := emitBins b2f numBins
      let rows := emitted.map
        (fun p => { kfAt (hread h1 rloc) p.2 with
          frame_time_ms := edges.getD p.1 0 })
      match rows, hread h2 rloc with
      | [], [] => (h2, .empty)
      | [], f :: _ => (h2, .blocks
          (mkBlocks [{ f with frame_time_ms := minT }] (maxT - minT)) false)
      | r :: rs, _ =>
          (h2, .blocks
            (mkBlocks (r :: rs)
              (maxT - ((r :: rs).map Keyframe.frame_time_ms).getLastD 0))
            false)

/-- `process_data` with its object operations explicit: `times` is captured
from the source object up front, the visible slice is copied
(`df.iloc[start_idx:end_idx].copy()`), the lead-in clamp
(`df_visible.iloc[0, ...] = x_min`) writes to that copy, and step 4 writes
to the aggregation's own result frame. -/
def processDataHeap (sqrtFn : ℚ → ℚ) (h : Heap) (rsrc : ℕ)
    (xMin xMax px : ℚ) : Heap × (List RenderBlock × Bool) :=
  let times := (hread h rsrc).map Keyframe.frame_time_ms
  if (hread h rsrc).isEmpty then (h, ([], false))
  else
    let h1 := (halloc h (sliceVisible (hread h rsrc) xMin xMax)).1
    let rv := (halloc h (sliceVisible (hread h rsrc) xMin xMax)).2
    if (hread h1 rv).isEmpty then (h1, ([], false))
    else
      let h2 := hwrite h1 rv (clampHead (hread h1 rv) xMin)
      let numBins : ℤ := min ((hread h2 rv).length : ℤ) (pyTrunc (px / 6))
      if numBins ≤ 0 then (h2, ([], false))
      else
        match aggregateDataHeap sqrtFn h2 rv rsrc numBins.toNat with
        | (h3, AggResult.empty) => (h3, ([], false))
        | (h3, AggResult.degenerate _) => (h3, ([], false))
        | (h3, AggResult.blocks bs isRaw) =>
            (h3, (fixLastWidth times xMax bs, isRaw))

namespace TileCache

variable {κ ι : Type} [DecidableEq κ]

/-- A key absent from the key column is never found. -/
theorem find?_eq_none_of_not_mem {l : List (κ × ι)} {k : κ}
    (h : k ∉ l.map Prod.fst) : l.find? (fun e => e.1 = k) = none := by
  apply List.find?_eq_none.mpr
  intro e he
  simp only [decide_eq_true_eq]
  intro hek
  exact h (hek ▸ List.mem_map_of_mem Prod.fst he)

/-- Filtering away an absent key changes nothing. -/
theorem filter_ne_eq_self_of_not_mem {l : List (κ × ι)} {k : κ}
    (h : k ∉ l.map Prod.fst) : l.filter (fun e => ¬ (e.1 = k)) = l := by
  apply List.filter_eq_self.mpr
  intro e he
  simp only [decide_eq_true_eq]
  intro hek
  exact h (hek ▸ List.mem_map_of_mem Prod.fst he)

/-- With unique keys, filtering away one present key drops exactly one
entry. -/
theorem length_filter_ne_of_nodup {l : List (κ × ι)} {k : κ}
    (hnd : (l.map Prod.fst).Nodup) (hk : k ∈ l.map Prod.fst) :
    (l.filter (fun e => ¬ (e.1 = k))).length + 1 = l.length := by
  induction l with
  | nil => simp at hk
  | cons e rest ih =>
      simp only [List.map_cons, List.nodup_cons] at hnd
      rcases List.mem_cons.mp hk with h1 | h2
      · have hek : e.1 = k := h1.symm
        have hrest : k ∉ rest.map Prod.fst := hek ▸ hnd.1
        have hfr : rest.filter (fun x => ¬ (x.1 = k)) = rest :=
          filter_ne_eq_self_of_not_mem hrest
        rw [List.filter_cons, if_neg (by simp [hek]), hfr, List.length_cons]
      · have hne : ¬ (e.1 = k) := fun hek => hnd.1 (hek ▸ h2)
        have hih := ih hnd.2 h2
        rw [List.filter_cons, if_pos (by simpa using hne), List.length_cons,
          List.length_cons]
        omega

/-- Putting a list of fresh distinct keys while there is room appends them
in order (no eviction). -/
theorem putList_entries_of_fresh (c : TileCache κ ι) (kvs : List (κ × ι))
    (hnd : ((c.entries ++ kvs).map Prod.fst).Nodup)
    (hlen : c.entries.length + kvs.length ≤ c.maxSize) :
    (putList c kvs).entries = c.entries ++ kvs ∧
      (putList c kvs).maxSize = c.maxSize := by
  induction kvs generalizing c with
  | nil => simp [putList]
  | cons kv rest ih =>
      have hfresh : kv.1 ∉ c.entries.map Prod.fst := by
        intro hmem
        have : (c.entries.map Prod.fst ++ kv.1 :: rest.map Prod.fst).Nodup := by
          simpa using hnd
        rcases List.nodup_append.mp this with ⟨-, -, hdisj⟩
        exact hdisj hmem (List.mem_cons_self _ _)
      have hnofind := find?_eq_none_of_not_mem hfresh
      have hroom : ¬ (c.maxSize ≤ c.entries.length) := by
        simp only [List.length_cons] at hlen; omega
      have hput : (put c kv.1 kv.2).entries = c.entries ++ [kv] := by
        simp [put, hnofind, hroom]
      have hmax : (put c kv.1 kv.2).maxSize = c.maxSize := by
        simp [put, hnofind, hroom]
      have hstep : putList c (kv :: rest) = putList (put c kv.1 kv.2) rest := by
        simp [putList]
      rw [hstep]
      have hnd' : (((put c kv.1 kv.2).entries ++ rest).map Prod.fst).Nodup := by
        rw [hput]
        simpa using hnd
      have hlen' : (put c kv.1 kv.2).entries.length + rest.length ≤
          (put c kv.1 kv.2).maxSize := by
        rw [hput, hmax]
        simp only [List.length_append, List.length_cons, List.length_nil]
          at hlen ⊢
        omega
      obtain ⟨h1, h2⟩ := ih (put c kv.1 kv.2) hnd' hlen'
      refine ⟨?_, by rw [h2, hmax]⟩
      rw [h1, hput, List.append_assoc]
      rfl

/-- `find?` skips a prefix on which it fails. -/
theorem find?_append_of_none {l₁ l₂ : List (κ × ι)} {p : (κ × ι) → Bool}
    (h : l₁.find? p = none) : (l₁ ++ l₂).find? p = l₂.find? p := by
  induction l₁ with
  | nil => rfl
  | cons e rest ih =>
      rw [List.find?_cons] at h
      rcases hpe : p e with - | -
      · rw [List.cons_append, List.find?_cons, hpe]
        exact ih (by rwa [hpe] at h)
      · rw [hpe] at h; exact absurd h (by simp)

/-- Putting `C + 1` distinct fresh keys into an empty cache of capacity
`C ≥ 1` retains exactly the last `C` of them, in insertion order: the single
evicted entry is the least recently used one (the first inserted). -/
theorem putList_empty_overflow (C : ℕ) (kvs : List (κ × ι)) (hC : 1 ≤ C)
    (hlen : kvs.length = C + 1) (hnd : (kvs.map Prod.fst).Nodup) :
    (putList (empty C) kvs).entries = kvs.tail := by
  have hne : kvs ≠ [] := by intro h; rw [h] at hlen; simp at hlen
  have hsplit := List.dropLast_append_getLast hne
  set front := kvs.dropLast with hfront
  set last := kvs.getLast hne with hlast
  have hflen : front.length = C := by
    have hfl : front.length = kvs.length - 1 := by
      rw [hfront]; exact List.length_dropLast kvs
    omega
  have hfnd : ((TileCache.empty C (ι := ι)).entries ++ front).map Prod.fst
      |>.Nodup := by
    have hfn : front.map Prod.fst |>.Nodup := by
      have hsub : front.Sublist kvs := by
        rw [hfront]; exact List.dropLast_sublist kvs
      exact List.Nodup.sublist (hsub.map Prod.fst) hnd
    simpa [TileCache.empty]
  have hstep : putList (empty C) kvs =
      put (putList (empty C) front) last.1 last.2 := by
    conv_lhs => rw [← hsplit]
    rw [putList, List.foldl_append]
    rfl
  obtain ⟨hfrontEntries, hfrontMax⟩ := putList_entries_of_fresh (empty C) front
    hfnd (by simp [TileCache.empty, hflen])
  have hlastFresh : last.1 ∉ front.map Prod.fst := by
    intro hmem
    have hnd' : ((front ++ [last]).map Prod.fst).Nodup := by rw [hsplit]; exact hnd
    rw [List.map_append] at hnd'
    rcases List.nodup_append.mp hnd' with ⟨-, -, hdisj⟩
    exact hdisj hmem (by simp)
  have hfind : (putList (empty C) front).entries.find?
      (fun e => e.1 = last.1) = none := by
    rw [hfrontEntries]
    simp only [TileCache.empty, List.nil_append]
    exact find?_eq_none_of_not_mem hlastFresh
  have hfull : (putList (empty C) front).maxSize ≤
      (putList (empty C) front).entries.length := by
    rw [hfrontMax, hfrontEntries]
    simp [TileCache.empty, hflen]
  rw [hstep, put, hfind]
  simp only [Option.isSome_none, Bool.false_eq_true, if_false, if_pos hfull]
  rw [hfrontEntries]
  simp only [TileCache.empty, List.nil_append]
  -- front is nonempty since C ≥ 1
  rcases hf : front with - | ⟨f0, frest⟩
  · rw [hf] at hflen; simp at hflen; omega
  · have : kvs.tail = frest ++ [last] := by
      conv_lhs => rw [← hsplit]
      rw [hf]
      rfl
    rw [this]
    rfl

end TileCache

/-!
### Claim C3 — strict LRU behaviour of the tile cache
-/

open TileCache in
/-- Claim C3: `TileCache` is a strict LRU of constructor-supplied capacity
`C`.  (1) Putting `C + 1` distinct keys into an empty cache leaves exactly
the last `C` of them, in order — exactly `C` entries remain and the evicted
key is the least recently used (the first inserted).  (2) `get` on a hit
moves the entry to the most-recently-used (last) position, (3) so it
survives the eviction caused by the next `put` of a fresh key at capacity.
(4) `put` on an existing key keeps the size (no eviction), stores the new
value and moves the entry to the most-recently-used position, keeping every
other key present. -/
theorem C3_tileCache_strict_lru (ι : Type) (C : ℕ) (kvs : List (String × ι))
    (hC : 1 ≤ C) (hlen : kvs.length = C + 1) (hnd : (kvs.map Prod.fst).Nodup)
    (c : TileCache String ι) (k knew : String) (v vnew w : ι)
    (hk : c.lookup k = some v) (hcnd : (c.entries.map Prod.fst).Nodup)
    (hcap : c.maxSize = c.entries.length) (h2 : 2 ≤ c.entries.length)
    (hnew : knew ∉ c.entries.map Prod.fst) :
    ((putList (empty C) kvs).entries = kvs.tail
      ∧ (putList (empty C) kvs).size = C)
    ∧ ((c.get k).2.entries.getLast? = some (k, v))
    ∧ (k ∈ (((c.get k).2).put knew vnew).entries.map Prod.fst)
    ∧ ((c.put k w).size = c.size ∧ (c.put k w).lookup k = some w ∧
        (c.put k w).entries.getLast? = some (k, w) ∧
        ∀ k', k' ∈ c.entries.map Prod.fst →
          k' ∈ (c.put k w).entries.map Prod.fst) := by
  -- facts about the hit entry
  have hfind : ∃ kv, c.entries.find? (fun e => e.1 = k) = some kv ∧
      kv.1 = k ∧ kv.2 = v := by
    unfold TileCache.lookup at hk
    rcases hfound : c.entries.find? (fun e => e.1 = k) with - | kv
    · rw [hfound] at hk; simp at hk
    · rw [hfound] at hk
      have hp := List.find?_some hfound
      simp only [decide_eq_true_eq] at hp
      exact ⟨kv, hfound, hp, by simpa using hk⟩
  obtain ⟨kv, hfound, hkv1, hkv2⟩ := hfind
  have hkmem : k ∈ c.entries.map Prod.fst := by
    have := List.mem_of_find?_eq_some hfound
    exact hkv1 ▸ List.mem_map_of_mem Prod.fst this
  -- the filtered list: with unique keys it drops exactly the hit entry
  have hfilter_len := length_filter_ne_of_nodup hcnd hkmem
  have hfilter_ne : c.entries.filter (fun e => ¬ (e.1 = k)) ≠ [] := by
    intro hnil
    rw [hnil] at hfilter_len
    simp only [List.length_nil] at hfilter_len
    omega
  have hget2 : (c.get k).2.entries =
      c.entries.filter (fun e => ¬ (e.1 = k)) ++ [(k, kv.2)] := by
    rw [TileCache.get, hfound]
  refine ⟨⟨putList_empty_overflow C kvs hC hlen hnd, ?_⟩, ?_, ?_, ?_⟩
  · rw [TileCache.size, putList_empty_overflow C kvs hC hlen hnd,
      List.length_tail, hlen]
    omega
  · rw [hget2, hkv2, List.getLast?_concat]
  · -- the refreshed key survives the next eviction at capacity
    have hget2max : (c.get k).2.maxSize = c.maxSize := by
      rw [TileCache.get, hfound]
    have hknewne : knew ∉ ((c.get k).2.entries.map Prod.fst) := by
      rw [hget2]
      intro hmem
      rw [List.map_append] at hmem
      rcases List.mem_append.mp hmem with hl | hr
      · obtain ⟨e, he, hek⟩ := List.mem_map.mp hl
        exact hnew (hek ▸ List.mem_map_of_mem Prod.fst
          ((List.filter_sublist _).subset he))
      · simp only [List.map_cons, List.map_nil, List.mem_singleton] at hr
        exact hnew (hr ▸ hkmem)
    have hnofind := find?_eq_none_of_not_mem hknewne
    rw [TileCache.put, hnofind]
    simp only [Option.isSome_none, Bool.false_eq_true, if_false]
    have hbase : (k, kv.2) ∈
        (if (c.get k).2.maxSize ≤ (c.get k).2.entries.length
          then (c.get k).2.entries.tail else (c.get k).2.entries) := by
      split
      · rw [hget2]
        cases hfl : c.entries.filter (fun e => ¬ (e.1 = k)) with
        | nil => exact absurd hfl hfilter_ne
        | cons f0 frest => simp
      · rw [hget2]
        exact List.mem_append.mpr (Or.inr (by simp))
    exact List.mem_map.mpr
      ⟨(k, kv.2), List.mem_append.mpr (Or.inl hbase), rfl⟩
  · -- put on an existing key
    have hput : (c.put k w).entries =
        c.entries.filter (fun e => ¬ (e.1 = k)) ++ [(k, w)] := by
      rw [TileCache.put, hfound]
      simp
    refine ⟨?_, ?_, ?_, ?_⟩
    · rw [TileCache.size, TileCache.size, hput, List.length_append]
      simp only [List.length_cons, List.length_nil]
      omega
    · rw [TileCache.lookup, hput]
      have hnone : (c.entries.filter (fun e => ¬ (e.1 = k))).find?
          (fun e => e.1 = k) = none := by
        apply List.find?_eq_none.mpr
        intro e he
        have := (List.mem_filter.mp he).2
        simpa using this
      rw [find?_append_of_none hnone]
      simp
    · rw [hput, List.getLast?_concat]
    · intro k' hk'
      rw [hput, List.map_append]
      rcases eq_or_ne k' k with rfl | hne
      · exact List.mem_append.mpr (Or.inr (by simp))
      · obtain ⟨e, he, hek⟩ := List.mem_map.mp hk'
        refine List.mem_append.mpr (Or.inl ?_)
        refine List.mem_map.mpr ⟨e, ?_, hek⟩
        exact List.mem_filter.mpr ⟨he, by simpa using hek ▸ hne⟩

/-- Concrete witness for C3: capacity 2, inserting keys a, b, c evicts a;
a cache at capacity holding x (older) and y, after `get x`, survives the
eviction caused by putting fresh key z; putting on existing key x keeps the
size. -/
theorem C3_tileCache_strict_lru_witness :
    (2 ≤ (⟨[("x", 1), ("y", 2)], 2⟩ : TileCache String ℕ).entries.length)
    ∧ (((TileCache.putList (TileCache.empty 2)
          [("a", (1 : ℕ)), ("b", 2), ("c", 3)]).entries
            = [("b", 2), ("c", 3)]
        ∧ (TileCache.putList (TileCache.empty 2)
          [("a", (1 : ℕ)), ("b", 2), ("c", 3)]).size = 2)
      ∧ (((⟨[("x", 1), ("y", 2)], 2⟩ : TileCache String ℕ).get
            "x").2.entries.getLast? = some ("x", 1))
      ∧ ("x" ∈ ((((⟨[("x", 1), ("y", 2)], 2⟩ : TileCache String ℕ).get
            "x").2).put "z" 7).entries.map Prod.fst)
      ∧ (((⟨[("x", 1), ("y", 2)], 2⟩ : TileCache String ℕ).put "x" 9).size
            = (⟨[("x", 1), ("y", 2)], 2⟩ : TileCache String ℕ).size
          ∧ ((⟨[("x", 1), ("y", 2)], 2⟩ : TileCache String ℕ).put
              "x" 9).lookup "x" = some 9
          ∧ ((⟨[("x", 1), ("y", 2)], 2⟩ : TileCache String ℕ).put
              "x" 9).entries.getLast? = some ("x", 9)
          ∧ ∀ k', k' ∈ (⟨[("x", 1), ("y", 2)], 2⟩ :
                TileCache String ℕ).entries.map Prod.fst →
              k' ∈ ((⟨[("x", 1), ("y", 2)], 2⟩ :
                TileCache String ℕ).put "x" 9).entries.map Prod.fst)) :=
  ⟨by decide,
   C3_tileCache_strict_lru ℕ 2 [("a", 1), ("b", 2), ("c", 3)] (by decide)
     (by decide) (by decide) ⟨[("x", 1), ("y", 2)], 2⟩ "x" "z" 1 7 9
     (by decide) (by decide) (by decide) (by decide) (by decide)⟩

/-- Every character `natRepr` produces is a decimal digit character. -/
theorem natReprAux_chars (fuel n : ℕ) (acc : List Char) :
    ∀ c ∈ natReprAux fuel n acc, (∃ d, d < 10 ∧ c = digitChar d) ∨ c ∈ acc := by
  induction fuel generalizing n acc with
  | zero => intro c hc; exact Or.inr hc
  | succ fuel ih =>
      intro c hc
      rw [natReprAux] at hc
      split at hc
      · rcases List.mem_cons.mp hc with h | h
        · exact Or.inl ⟨n, by omega, h⟩
        · exact Or.inr h
      · rcases ih (n / 10) (digitChar (n % 10) :: acc) c hc with h | h
        · exact Or.inl h
        · rcases List.mem_cons.mp h with h' | h'
          · exact Or.inl ⟨n % 10, Nat.mod_lt _ (by omega), h'⟩
          · exact Or.inr h'

/-- Digit characters are never an underscore. -/
theorem digitChar_ne_underscore (d : ℕ) : digitChar d ≠ '_' := by
  rw [digitChar]
  split_ifs <;> decide

/-- `str(n)` contains no underscore. -/
theorem underscore_not_mem_natRepr (n : ℕ) : '_' ∉ natRepr n := by
  intro hmem
  rcases natReprAux_chars (n + 1) n [] '_' hmem with ⟨d, -, hd⟩ | h
  · exact digitChar_ne_underscore d hd.symm
  · simp at h

/-- `split` never returns an empty list of components. -/
theorem pySplit_ne_nil (sep : Char) (l : List Char) : pySplit sep l ≠ [] := by
  induction l with
  | nil => simp [pySplit]
  | cons c cs ih =>
      rw [pySplit]
      split
      · simp
      · cases h : pySplit sep cs with
        | nil => exact absurd h ih
        | cons h' t => simp

/-- Splitting a separator-free string yields that string as the single
component. -/
theorem pySplit_of_not_mem (sep : Char) (l : List Char) (h : sep ∉ l) :
    pySplit sep l = [l] := by
  induction l with
  | nil => rfl
  | cons c cs ih =>
      have hcs : sep ∉ cs := fun hm => h (List.mem_cons_of_mem _ hm)
      have hc : ¬ (c = sep) := fun hc => h (hc ▸ List.mem_cons_self _ _)
      rw [pySplit, if_neg hc, ih hcs]

/-- A string containing the separator splits into at least two
components. -/
theorem two_le_length_pySplit (sep : Char) (l : List Char) (h : sep ∈ l) :
    2 ≤ (pySplit sep l).length := by
  induction l with
  | nil => simp at h
  | cons c cs ih =>
      rw [pySplit]
      split
      · have := List.length_pos.mpr (pySplit_ne_nil sep cs)
        simp only [List.length_cons]
        omega
      · have hcs : sep ∈ cs := by
          rcases List.mem_cons.mp h with h' | h'
          · exact absurd h'.symm (by assumption)
          · exact h'
        cases hps : pySplit sep cs with
        | nil => exact absurd hps (pySplit_ne_nil sep cs)
        | cons h' t =>
            have := ih hcs
            rw [hps] at this
            simp only [List.length_cons] at this ⊢
            omega

/-- The last component of a split only depends on the text after the last
separator: prepending `xs ++ [sep]` never changes it. -/
theorem getLastD_pySplit_append (sep : Char) (xs ys : List Char) :
    (pySplit sep (xs ++ sep :: ys)).getLastD [] =
      (pySplit sep ys).getLastD [] := by
  induction xs with
  | nil =>
      rw [List.nil_append, pySplit, if_pos rfl]
      cases h : pySplit sep ys with
      | nil => exact absurd h (pySplit_ne_nil sep ys)
      | cons h' t => simp
  | cons c cs ih =>
      rw [List.cons_append, pySplit]
      split
      · cases h : pySplit sep (cs ++ sep :: ys) with
        | nil => exact absurd h (pySplit_ne_nil sep _)
        | cons h' t =>
            rw [h] at ih
            simpa using ih
      · cases h : pySplit sep (cs ++ sep :: ys) with
        | nil => exact absurd h (pySplit_ne_nil sep _)
        | cons h' t =>
            have hlen := two_le_length_pySplit sep (cs ++ sep :: ys)
              (by simp)
            rw [h] at hlen ih
            cases t with
            | nil => simp at hlen
            | cons t0 ts => simpa using ih

/-!
### Claim C10 — cache-key/level round trip
-/

/-- Claim C10: for every nonempty audio identity, channel mode and colormap
name containing no underscore, every tile index and every level in
`{0, 1, 2}`, parsing the orchestrator's cache key the way the renderer does
(taking the last underscore-separated component as an integer) recovers
exactly the level used to build the key, and the renderer hence applies the
decimation factor (1, 16 or 128) of that level. -/
theorem C10_cache_key_level_roundtrip
    (videoPath channelMode colormapName : List Char)
    (hvp : videoPath ≠ []) (hcm : channelMode ≠ []) (hcn : colormapName ≠ [])
    (hvpu : '_' ∉ videoPath) (hcmu : '_' ∉ channelMode)
    (hcnu : '_' ∉ colormapName) (tileId level : ℕ) (hlev : level ≤ 2) :
    parseKeyLevel (makeCacheKey videoPath channelMode colormapName tileId
        level) = some (level : ℤ)
    ∧ dsFactorForLevel (level : ℤ) = LEVELS_DOWNSAMPLE.get? level
    ∧ (level = 0 → dsFactorForLevel (level : ℤ) = some 1)
    ∧ (level = 1 → dsFactorForLevel (level : ℤ) = some 16)
    ∧ (level = 2 → dsFactorForLevel (level : ℤ) = some 128) := by
  have hparse : parseKeyLevel (makeCacheKey videoPath channelMode
      colormapName tileId level) = some (level : ℤ) := by
    rw [parseKeyLevel, makeCacheKey]
    simp only [List.cons_append, List.append_assoc]
    rw [getLastD_pySplit_append '_' videoPath
      (channelMode ++ '_' :: (colormapName ++ '_' ::
        (natRepr tileId ++ '_' :: natRepr level)))]
    rw [getLastD_pySplit_append '_' channelMode
      (colormapName ++ '_' :: (natRepr tileId ++ '_' :: natRepr level))]
    rw [getLastD_pySplit_append '_' colormapName
      (natRepr tileId ++ '_' :: natRepr level)]
    rw [getLastD_pySplit_append '_' (natRepr tileId) (natRepr level)]
    rw [pySplit_of_not_mem '_' (natRepr level)
      (underscore_not_mem_natRepr level)]
    interval_cases level <;> decide
  refine ⟨hparse, ?_, ?_, ?_, ?_⟩ <;> interval_cases level <;> decide

/-- Concrete witness for C10: identity "v", mode "mix", colormap "inferno",
tile 7, level 2 round-trips and selects decimation 128. -/
theorem C10_cache_key_level_roundtrip_witness :
    ((2 : ℕ) ≤ 2)
    ∧ parseKeyLevel (makeCacheKey ['v'] ['m', 'i', 'x']
        ['i', 'n', 'f', 'e', 'r', 'n', 'o'] 7 2) = some (2 : ℤ)
    ∧ dsFactorForLevel ((2 : ℕ) : ℤ) = LEVELS_DOWNSAMPLE.get? 2
    ∧ ((2 : ℕ) = 0 → dsFactorForLevel ((2 : ℕ) : ℤ) = some 1)
    ∧ ((2 : ℕ) = 1 → dsFactorForLevel ((2 : ℕ) : ℤ) = some 16)
    ∧ ((2 : ℕ) = 2 → dsFactorForLevel ((2 : ℕ) : ℤ) = some 128) :=
  ⟨by decide,
   C10_cache_key_level_roundtrip ['v'] ['m', 'i', 'x']
     ['i', 'n', 'f', 'e', 'r', 'n', 'o'] (by decide) (by decide) (by decide)
     (by decide) (by decide) (by decide) 7 2 (by decide)⟩

/-- A decimated slice keeps its first element, so it is nonempty whenever
the undecimated slice is. -/
theorem everyNth_ne_nil (ds : ℕ) (l : List ℚ) (h : l ≠ []) :
    everyNth ds l ≠ [] := by
  cases l with
  | nil => exact absurd rfl h
  | cons x xs =>
      rw [everyNth, List.enum_cons]
      simp only [List.filter_cons]
      rw [if_pos (by simp)]
      simp

/-!
### Claim C4 — staleness policy of the tile renderer
-/

/-- Claim C4: a tile render request older than 5 seconds is dropped with no
output; a request at most 5 seconds old whose requested slice is nonempty
(with a parseable level and a rectangular, nonempty spectrogram) produces
an output tile. -/
theorem C4_render_staleness (audio : AudioData) (cacheKey : List Char)
    (startMs endMs : ℚ) (cmap : ℚ → ℚ × ℚ × ℚ) (requestTime now : ℚ)
    (level : ℤ) (ds : ℕ)
    (hparse : parseKeyLevel cacheKey = some level)
    (hds : dsFactorForLevel level = some ds)
    (hspec : audio.spectrogram ≠ [])
    (hrect : ∀ row ∈ audio.spectrogram, row.length = audio.times_ms.length)
    (hslice : searchsortedLeft audio.times_ms startMs <
      searchsortedRight audio.times_ms endMs) :
    (5 < now - requestTime →
      renderTile audio cacheKey startMs endMs cmap requestTime now = none)
    ∧ (now - requestTime ≤ 5 →
      (renderTile audio cacheKey startMs endMs cmap requestTime now).isSome) := by
  constructor
  · intro hstale
    rw [renderTile, if_pos hstale]
  · intro hfresh
    rw [renderTile, if_neg (by linarith), hparse]
    simp only [hds]
    rw [if_neg (by omega)]
    have hsize : ((audio.spectrogram.map
        (fun row => pySliceStep row (searchsortedLeft audio.times_ms startMs)
          (searchsortedRight audio.times_ms endMs) ds)).map List.length).sum
        ≠ 0 := by
      cases hsp : audio.spectrogram with
      | nil => exact absurd hsp hspec
      | cons row rest =>
          have hrow : row.length = audio.times_ms.length :=
            hrect row (hsp ▸ List.mem_cons_self _ _)
          have hle : searchsortedRight audio.times_ms endMs ≤
              audio.times_ms.length := List.countP_le_length _
          have hslice_ne : (row.drop (searchsortedLeft audio.times_ms startMs)).take
              (searchsortedRight audio.times_ms endMs -
                searchsortedLeft audio.times_ms startMs) ≠ [] := by
            intro hnil
            have := congrArg List.length hnil
            rw [List.length_take, List.length_drop, hrow] at this
            simp only [List.length_nil] at this
            omega
          have hne : pySliceStep row (searchsortedLeft audio.times_ms startMs)
              (searchsortedRight audio.times_ms endMs) ds ≠ [] :=
            everyNth_ne_nil ds _ hslice_ne
          simp only [List.map_cons, List.sum_cons]
          intro hzero
          exact hne (List.eq_nil_of_length_eq_zero (by omega))
    rw [if_neg hsize]
    simp

/-- Concrete witness for C4: a request issued at `t0 = 0` evaluated at
`now = 6` produces no output; evaluated at `now = 4` it produces a tile. -/
theorem C4_render_staleness_witness :
    (renderTile ⟨[[-80, -40, 0]], [0, 1000, 2000], ['v'], ['m'], 2000⟩
        (makeCacheKey ['v'] ['m'] ['c'] 0 0) 0 2000 (fun q => (q, q, q)) 0 6
      = none)
    ∧ (renderTile ⟨[[-80, -40, 0]], [0, 1000, 2000], ['v'], ['m'], 2000⟩
        (makeCacheKey ['v'] ['m'] ['c'] 0 0) 0 2000 (fun q => (q, q, q)) 0 4).isSome := by
  constructor
  · exact (C4_render_staleness ⟨[[-80, -40, 0]], [0, 1000, 2000], ['v'], ['m'], 2000⟩
      (makeCacheKey ['v'] ['m'] ['c'] 0 0) 0 2000 (fun q => (q, q, q)) 0 6
      0 1 (by decide) (by decide) (by decide)
      (by intro row hrow; simp at hrow; simp [hrow]) (by decide)).1 (by norm_num)
  · exact (C4_render_staleness ⟨[[-80, -40, 0]], [0, 1000, 2000], ['v'], ['m'], 2000⟩
      (makeCacheKey ['v'] ['m'] ['c'] 0 0) 0 2000 (fun q => (q, q, q)) 0 4
      0 1 (by decide) (by decide) (by decide)
      (by intro row hrow; simp at hrow; simp [hrow]) (by decide)).2 (by norm_num)

theorem pyRange_mem (a b i : ℤ) : i ∈ pyRange a b ↔ a ≤ i ∧ i < b := by
  rw [pyRange]
  constructor
  · intro hmem
    obtain ⟨j, hj, hji⟩ := List.mem_map.mp hmem
    rw [List.mem_range] at hj
    omega
  · intro ⟨h1, h2⟩
    refine List.mem_map.mpr ⟨(i - a).toNat, List.mem_range.mpr (by omega), by omega⟩

theorem tileDuration_pos (level : ℕ) (h : level ≤ 2) :
    0 < tileDuration level := by
  interval_cases level <;> norm_num [tileDuration, LEVEL_TILE_DURATIONS]

theorem getLevelForZoom_le_two (msPerPixel : ℚ) :
    getLevelForZoom msPerPixel ≤ 2 := by
  rw [getLevelForZoom]
  split_ifs <;> omega

/-!
### Claim C5 — level selection and visible tile indices
-/

/-- Claim C5: for a viewport `[x_min, x_max]` inside `[0, duration]` and a
positive pixel width, the orchestrator selects level 0 when
`ms_per_pixel < 50`, level 1 when `50 ≤ ms_per_pixel < 800`, level 2
otherwise, with tile durations 5000, 80000 and 1280000 ms; and the tile
index list is exactly the (nonnegative) integer indices of tiles at that
duration overlapping the viewport. -/
theorem C5_level_selection_and_tiles (xMin xMax pxWidth durationMs : ℚ)
    (h0 : 0 ≤ xMin) (h1 : xMin < xMax) (h2 : xMax ≤ durationMs)
    (hpx : 0 < pxWidth) :
    requiredTiles xMin xMax pxWidth durationMs =
      some (getLevelForZoom ((xMax - xMin) / pxWidth),
        getVisibleTileIds xMin xMax
          (getLevelForZoom ((xMax - xMin) / pxWidth)) durationMs)
    ∧ ((xMax - xMin) / pxWidth < 50 →
        getLevelForZoom ((xMax - xMin) / pxWidth) = 0)
    ∧ (50 ≤ (xMax - xMin) / pxWidth → (xMax - xMin) / pxWidth < 800 →
        getLevelForZoom ((xMax - xMin) / pxWidth) = 1)
    ∧ (800 ≤ (xMax - xMin) / pxWidth →
        getLevelForZoom ((xMax - xMin) / pxWidth) = 2)
    ∧ tileDuration 0 = 5000 ∧ tileDuration 1 = 80000
    ∧ tileDuration 2 = 1280000
    ∧ (∀ level : ℕ, level ≤ 2 → ∀ i : ℤ,
        i ∈ getVisibleTileIds xMin xMax level durationMs ↔
          (0 ≤ i ∧ (i : ℚ) * tileDuration level ≤ xMax
            ∧ xMin < ((i : ℚ) + 1) * tileDuration level)) := by
  have hclampMin : max 0 xMin = xMin := max_eq_right h0
  have hclampMax : min durationMs xMax = xMax := min_eq_right h2
  refine ⟨?_, ?_, ?_, ?_, by norm_num [tileDuration, LEVEL_TILE_DURATIONS],
    by norm_num [tileDuration, LEVEL_TILE_DURATIONS],
    by norm_num [tileDuration, LEVEL_TILE_DURATIONS], ?_⟩
  · rw [requiredTiles]
    simp only [hclampMin, hclampMax]
    rw [if_neg (by linarith), if_neg (by linarith)]
  · intro hmspp
    rw [getLevelForZoom, if_pos hmspp]
  · intro hge hlt
    rw [getLevelForZoom, if_neg (by linarith), if_pos hlt]
  · intro hge
    rw [getLevelForZoom, if_neg (by linarith), if_neg (by linarith)]
  · intro level hlevel i
    have hdur := tileDuration_pos level hlevel
    simp only [getVisibleTileIds]
    rw [pyRange_mem]
    have hmono : ⌊xMax / tileDuration level⌋ ≤
        ⌊durationMs / tileDuration level⌋ :=
      Int.floor_le_floor ((div_le_div_right hdur).mpr h2)
    have hmin : min (⌊durationMs / tileDuration level⌋ + 1)
        (⌊xMax / tileDuration level⌋ + 1) =
        ⌊xMax / tileDuration level⌋ + 1 := min_eq_right (by omega)
    rw [hmin]
    constructor
    · intro ⟨hlo, hhi⟩
      have hi0 : 0 ≤ i := le_trans (le_max_left 0 _) hlo
      have hif : ⌊xMin / tileDuration level⌋ ≤ i :=
        le_trans (le_max_right 0 _) hlo
      refine ⟨hi0, ?_, ?_⟩
      · have : (i : ℚ) ≤ xMax / tileDuration level :=
          Int.le_floor.mp (by omega)
        exact (le_div_iff hdur).mp this
      · have h1' : xMin / tileDuration level <
            (⌊xMin / tileDuration level⌋ : ℚ) + 1 :=
          Int.lt_floor_add_one _
        have h2' : ((⌊xMin / tileDuration level⌋ : ℚ) + 1) ≤ (i : ℚ) + 1 := by
          have : (⌊xMin / tileDuration level⌋ : ℚ) ≤ (i : ℚ) := by
            exact_mod_cast hif
          linarith
        have h3' : xMin / tileDuration level < (i : ℚ) + 1 := lt_of_lt_of_le h1' h2'
        calc xMin = xMin / tileDuration level * tileDuration level := by
              field_simp
          _ < ((i : ℚ) + 1) * tileDuration level := by
              exact mul_lt_mul_of_pos_right h3' hdur
    · intro ⟨hi0, hiu, hil⟩
      constructor
      · refine max_le hi0 ?_
        have hlt : xMin / tileDuration level < (i : ℚ) + 1 :=
          (div_lt_iff hdur).mpr hil
        have : ⌊xMin / tileDuration level⌋ < i + 1 :=
          Int.floor_lt.mpr (by push_cast; linarith)
        omega
      · have : i ≤ ⌊xMax / tileDuration level⌋ :=
          Int.le_floor.mpr ((le_div_iff hdur).mpr hiu)
        omega

/-- Concrete witness for C5 (the spec's end-to-end scenario): a 100000 ms
track viewed over `[0, 2000]` at 1000 px gives `ms_per_pixel = 2`, level 0,
tile duration 5000 ms and exactly tile index 0. -/
theorem C5_level_selection_and_tiles_witness :
    ((0 : ℚ) < 1000)
    ∧ (requiredTiles 0 2000 1000 100000 =
        some (getLevelForZoom ((2000 - 0) / 1000),
          getVisibleTileIds 0 2000 (getLevelForZoom ((2000 - 0) / 1000))
            100000)
      ∧ ((2000 - (0 : ℚ)) / 1000 < 50 → getLevelForZoom ((2000 - 0) / 1000) = 0)
      ∧ (50 ≤ (2000 - (0 : ℚ)) / 1000 → (2000 - (0 : ℚ)) / 1000 < 800 →
          getLevelForZoom ((2000 - 0) / 1000) = 1)
      ∧ (800 ≤ (2000 - (0 : ℚ)) / 1000 → getLevelForZoom ((2000 - 0) / 1000) = 2)
      ∧ tileDuration 0 = 5000 ∧ tileDuration 1 = 80000
      ∧ tileDuration 2 = 1280000
      ∧ (∀ level : ℕ, level ≤ 2 → ∀ i : ℤ,
          i ∈ getVisibleTileIds 0 2000 level 100000 ↔
            (0 ≤ i ∧ (i : ℚ) * tileDuration level ≤ 2000
              ∧ 0 < ((i : ℚ) + 1) * tileDuration level)))
    ∧ getLevelForZoom ((2000 - 0) / 1000) = 0
    ∧ getVisibleTileIds 0 2000 0 100000 = [0] :=
  ⟨by norm_num,
   C5_level_selection_and_tiles 0 2000 1000 100000 (by norm_num)
     (by norm_num) (by norm_num) (by norm_num),
   by norm_num [getLevelForZoom],
   by norm_num [getVisibleTileIds, tileDuration, LEVEL_TILE_DURATIONS,
     pyRange, List.range_succ]⟩

/-!
### Claim C8 — pending set tracks in-flight renders
-/

/-- Counterexample to claim C8: dispatch a request for key
`K = makeCacheKey "v" "m" "c" 0 0` at `t0 = 0` (K enters the pending set),
let the worker evaluate it at `now = 6` — stale, so the request is dropped
and `texture_ready` is never emitted — and deliver that (non-)outcome.  K
is still in the pending set afterwards, contradicting the claim that an
entry is removed when a drop outcome is delivered. -/
theorem C8_pending_counterexample :
    (deliver
      (paintTile ⟨TileCache.empty 200, []⟩ (makeCacheKey ['v'] ['m'] ['c'] 0 0)
        ⟨[[0]], [0], ['v'], ['m'], 5000⟩ 0 5000 0).1
      (workerStep ⟨⟨[[0]], [0], ['v'], ['m'], 5000⟩,
        makeCacheKey ['v'] ['m'] ['c'] 0 0, 0, 5000, 0⟩
        (fun q => (q, q, q)) 6)).pending
      = [makeCacheKey ['v'] ['m'] ['c'] 0 0] := by
  have hworker : workerStep ⟨⟨[[0]], [0], ['v'], ['m'], 5000⟩,
      makeCacheKey ['v'] ['m'] ['c'] 0 0, 0, 5000, 0⟩
      (fun q => (q, q, q)) 6 = none := by
    rw [workerStep, renderTile, if_pos (by norm_num)]
    rfl
  rw [hworker]
  rw [paintTile]
  rfl

/-- Claim C8, amended: a pending entry is created when a render request is
dispatched (cache miss, key not already pending — duplicate dispatch is
suppressed), and removed only when a successful tile is delivered via
`on_tile_ready`; a dropped request (e.g. stale by more than 5 seconds)
delivers no outcome, so its key stays in the pending set. -/
theorem C8_pending_set_amended (s : OrchestratorState) (key : List Char)
    (audio : AudioData) (tileStart tileEnd now : ℚ) (img : Tile)
    (req : RenderRequest) (cmap : ℚ → ℚ × ℚ × ℚ) (nowW : ℚ) :
    ((s.cache.get key).1 = none → key ∉ s.pending →
      (paintTile s key audio tileStart tileEnd now).2 =
          some ⟨audio, key, tileStart, tileEnd, now⟩
        ∧ (paintTile s key audio tileStart tileEnd now).1.pending =
          key :: s.pending)
    ∧ (key ∈ s.pending →
        (paintTile s key audio tileStart tileEnd now).2 = none)
    ∧ ((onTileReady s key img).pending = s.pending.erase key)
    ∧ (5 < nowW - req.requestTime →
        deliver s (workerStep req cmap nowW) = s ∧
        (key ∈ s.pending →
          key ∈ (deliver s (workerStep req cmap nowW)).pending)) := by
  refine ⟨?_, ?_, rfl, ?_⟩
  · intro hmiss hnp
    rw [paintTile]
    rcases hget : s.cache.get key with ⟨r, cache'⟩
    rcases r with - | t
    · simp only []
      rw [if_neg hnp]
      exact ⟨rfl, rfl⟩
    · rw [hget] at hmiss
      simp at hmiss
  · intro hp
    rw [paintTile]
    rcases hget : s.cache.get key with ⟨r, cache'⟩
    rcases r with - | t
    · simp only []
      rw [if_pos hp]
    · rfl
  · intro hstale
    have hdrop : workerStep req cmap nowW = none := by
      rw [workerStep, renderTile, if_pos hstale]
      rfl
    rw [hdrop]
    exact ⟨rfl, fun h => h⟩

/-- Concrete witness for the amended C8: fresh key K on an empty cache is
dispatched and becomes pending; `on_tile_ready` removes it; a stale request
(6 s old) delivers nothing and K stays pending. -/
theorem C8_pending_set_amended_witness :
    ((((⟨TileCache.empty 200, [makeCacheKey ['v'] ['m'] ['c'] 0 0]⟩ :
          OrchestratorState).cache.get (makeCacheKey ['v'] ['m'] ['c'] 0 0)).1
        = none)
      ∧ (5 : ℚ) < 6 - 0)
    ∧ (makeCacheKey ['v'] ['m'] ['c'] 0 0 ∈
        (⟨TileCache.empty 200, [makeCacheKey ['v'] ['m'] ['c'] 0 0]⟩ :
          OrchestratorState).pending →
        (paintTile ⟨TileCache.empty 200, [makeCacheKey ['v'] ['m'] ['c'] 0 0]⟩
          (makeCacheKey ['v'] ['m'] ['c'] 0 0)
          ⟨[[0]], [0], ['v'], ['m'], 5000⟩ 0 5000 0).2 = none)
    ∧ ((onTileReady ⟨TileCache.empty 200, [makeCacheKey ['v'] ['m'] ['c'] 0 0]⟩
        (makeCacheKey ['v'] ['m'] ['c'] 0 0)
        ⟨0, 0, []⟩).pending =
        [makeCacheKey ['v'] ['m'] ['c'] 0 0].erase
          (makeCacheKey ['v'] ['m'] ['c'] 0 0))
    ∧ ((5 : ℚ) < 6 - 0 →
        deliver ⟨TileCache.empty 200, [makeCacheKey ['v'] ['m'] ['c'] 0 0]⟩
          (workerStep ⟨⟨[[0]], [0], ['v'], ['m'], 5000⟩,
            makeCacheKey ['v'] ['m'] ['c'] 0 0, 0, 5000, 0⟩
            (fun q => (q, q, q)) 6)
          = ⟨TileCache.empty 200, [makeCacheKey ['v'] ['m'] ['c'] 0 0]⟩ ∧
        (makeCacheKey ['v'] ['m'] ['c'] 0 0 ∈
          (⟨TileCache.empty 200, [makeCacheKey ['v'] ['m'] ['c'] 0 0]⟩ :
            OrchestratorState).pending →
          makeCacheKey ['v'] ['m'] ['c'] 0 0 ∈
            (deliver ⟨TileCache.empty 200,
              [makeCacheKey ['v'] ['m'] ['c'] 0 0]⟩
              (workerStep ⟨⟨[[0]], [0], ['v'], ['m'], 5000⟩,
                makeCacheKey ['v'] ['m'] ['c'] 0 0, 0, 5000, 0⟩
                (fun q => (q, q, q)) 6)).pending)) :=
  ⟨⟨rfl, by norm_num⟩,
   (C8_pending_set_amended ⟨TileCache.empty 200,
      [makeCacheKey ['v'] ['m'] ['c'] 0 0]⟩
      (makeCacheKey ['v'] ['m'] ['c'] 0 0) ⟨[[0]], [0], ['v'], ['m'], 5000⟩
      0 5000 0 ⟨0, 0, []⟩
      ⟨⟨[[0]], [0], ['v'], ['m'], 5000⟩, makeCacheKey ['v'] ['m'] ['c'] 0 0,
        0, 5000, 0⟩
      (fun q => (q, q, q)) 6).2.1,
   (C8_pending_set_amended ⟨TileCache.empty 200,
      [makeCacheKey ['v'] ['m'] ['c'] 0 0]⟩
      (makeCacheKey ['v'] ['m'] ['c'] 0 0) ⟨[[0]], [0], ['v'], ['m'], 5000⟩
      0 5000 0 ⟨0, 0, []⟩
      ⟨⟨[[0]], [0], ['v'], ['m'], 5000⟩, makeCacheKey ['v'] ['m'] ['c'] 0 0,
        0, 5000, 0⟩
      (fun q => (q, q, q)) 6).2.2.1,
   (C8_pending_set_amended ⟨TileCache.empty 200,
      [makeCacheKey ['v'] ['m'] ['c'] 0 0]⟩
      (makeCacheKey ['v'] ['m'] ['c'] 0 0) ⟨[[0]], [0], ['v'], ['m'], 5000⟩
      0 5000 0 ⟨0, 0, []⟩
      ⟨⟨[[0]], [0], ['v'], ['m'], 5000⟩, makeCacheKey ['v'] ['m'] ['c'] 0 0,
        0, 5000, 0⟩
      (fun q => (q, q, q)) 6).2.2.2⟩

/-!
### Claim C1 — the blackout rule
-/

theorem getD_map_range (f : ℕ → ℚ) (n i : ℕ) (h : i < n) :
    ((List.range n).map f).getD i 0 = f i := by
  rw [List.getD_eq_getElem?_getD, List.getElem?_map, List.getElem?_range h]
  rfl

/-- Closed form of the staged score computation: the blackout branch
replaces only the base-brightness partial; the jump and color partials are
added to every row. -/
theorem scoreAt_closed_form (sqrtFn : ℚ → ℚ) (frames : List Keyframe)
    (i : ℕ) (hi : i < frames.length) :
    scoreAt sqrtFn frames i =
      (if tbAt frames i = 0 then (1000 : ℚ) else baseBrightnessScore frames i)
      + brightnessJumpScore frames i + colorChangeScore sqrtFn frames i := by
  simp only [scoreAt, importanceScores, getD_map_range _ _ _ hi]
  split_ifs <;> ring

/-- Claim C1, amended: a blackout keyframe's score is `1000` plus the
brightness-jump and color-shape-change partial scores — only the
base-brightness partial is suppressed for blackout rows, so the score is at
least 1000 (whenever the color partial is nonnegative, as it is for any
genuine square root) but not exactly 1000 in general. -/
theorem C1_blackout_score_amended (sqrtFn : ℚ → ℚ) (frames : List Keyframe)
    (i : ℕ) (hi : i < frames.length) (hb : tbAt frames i = 0) :
    scoreAt sqrtFn frames i =
      1000 + brightnessJumpScore frames i + colorChangeScore sqrtFn frames i
    ∧ 0 ≤ brightnessJumpScore frames i
    ∧ (0 ≤ colorChangeScore sqrtFn frames i →
        1000 ≤ scoreAt sqrtFn frames i) := by
  have hcf := scoreAt_closed_form sqrtFn frames i hi
  rw [if_pos hb] at hcf
  have hjump : 0 ≤ brightnessJumpScore frames i := by
    rw [brightnessJumpScore]
    have h45 : (0 : ℚ) ≤ ((max (tbAt frames i - prevTb frames i).natAbs
        (tbAt frames i - nextTb frames i).natAbs : ℕ) : ℚ) / 4.5 := by
      positivity
    exact le_min (by norm_num) h45
  refine ⟨hcf, hjump, ?_⟩
  intro hc
  rw [hcf]
  linarith

/-- `qSqrt 81 = 9` (as IEEE-754 square root also computes exactly). -/
theorem qSqrt_81 : qSqrt 81 = 9 := by
  rw [qSqrt]
  norm_num [Rat.num_ofNat]
  norm_num [show Int.toNat 81 = 9 * 9 from rfl, Nat.sqrt_eq]

/-- Counterexample to claim C1 as stated: in `exPair`, the blackout frame
(all 30 RGB values sum to 0) scores 1200, not exactly 1000 — the
brightness-jump partial (20) and the color-change partial (180) are added
to the blackout score. -/
theorem C1_blackout_score_counterexample :
    tbAt exPair 1 = 0 ∧ scoreAt qSqrt exPair 1 = 1200 ∧
      scoreAt qSqrt exPair 1 ≠ 1000 := by
  have htb : tbAt exPair 1 = 0 := by decide
  have hscore : scoreAt qSqrt exPair 1 = 1200 := by
    have hcf := scoreAt_closed_form qSqrt exPair 1 (by decide)
    rw [if_pos htb] at hcf
    have hjump : brightnessJumpScore exPair 1 = 20 := by
      have h1 : tbAt exPair 1 = 0 := by decide
      have h2 : prevTb exPair 1 = 90 := by decide
      have h3 : nextTb exPair 1 = 0 := by decide
      rw [brightnessJumpScore, h1, h2, h3]
      norm_num
    have hcolor : colorChangeScore qSqrt exPair 1 = 180 := by
      have hprev : colorDistPrev qSqrt exPair 1 = 90 := by
        rw [colorDistPrev]
        rw [if_neg (by norm_num)]
        show colorDistTo qSqrt (kfAt exPair 1) (kfAt exPair 0) = 90
        have hk1 : kfAt exPair 1 = exDark := rfl
        have hk0 : kfAt exPair 0 = exNavy := rfl
        rw [hk1, hk0, colorDistTo]
        simp only [exDark, exNavy, List.ofFn_succ, List.ofFn_zero]
        norm_num [qSqrt_81]
      have hnext : colorDistNext qSqrt exPair 1 = 0 := by
        rw [colorDistNext, if_pos (by decide)]
      rw [colorChangeScore, hprev, hnext]
      norm_num
    rw [hcf, hjump, hcolor]
    norm_num
  exact ⟨htb, hscore, by rw [hscore]; norm_num⟩

/-- Concrete witness for the amended C1 at the blackout row of `exPair`. -/
theorem C1_blackout_score_amended_witness :
    (1 < exPair.length ∧ tbAt exPair 1 = 0)
    ∧ (scoreAt qSqrt exPair 1 =
        1000 + brightnessJumpScore exPair 1 + colorChangeScore qSqrt exPair 1
      ∧ 0 ≤ brightnessJumpScore exPair 1
      ∧ (0 ≤ colorChangeScore qSqrt exPair 1 →
          1000 ≤ scoreAt qSqrt exPair 1)) :=
  ⟨⟨by decide, by decide⟩,
   C1_blackout_score_amended qSqrt exPair 1 (by decide) (by decide)⟩

/-!
### Block-building lemmas (shared by C2, C6 and C7)
-/

theorem getD_of_lt {α : Type} (l : List α) (d : α) (i : ℕ)
    (h : i < l.length) : l.getD i d = l[i] := by
  rw [List.getD_eq_getElem?_getD, List.getElem?_eq_getElem h]
  rfl

theorem getLastD_eq_getD {α : Type} (l : List α) (d : α) :
    l.getLastD d = l.getD (l.length - 1) d := by
  rw [List.getLastD_eq_getLast?, List.getLast?_eq_getElem?,
    List.getD_eq_getElem?_getD]

theorem diffWidths_length (starts : List ℚ) (w : ℚ) (h : starts ≠ []) :
    (diffWidths starts w).length = starts.length := by
  have := List.length_pos.mpr h
  rw [diffWidths, List.length_append, List.length_zipWith, List.length_tail]
  simp only [List.length_cons, List.length_nil]
  omega

theorem diffWidths_getD_interior (starts : List ℚ) (w : ℚ) (i : ℕ)
    (hi : i + 1 < starts.length) :
    (diffWidths starts w).getD i 0 = starts.getD (i + 1) 0 - starts.getD i 0 := by
  have hlen : i < (starts.zipWith (fun a b => b - a) starts.tail).length := by
    rw [List.length_zipWith, List.length_tail]
    omega
  rw [diffWidths, List.getD_append _ _ _ _ hlen, getD_of_lt _ _ _ hlen,
    List.getElem_zipWith, List.getElem_tail,
    getD_of_lt _ _ _ (by omega), getD_of_lt _ _ _ (by omega)]

theorem diffWidths_getD_last (starts : List ℚ) (w : ℚ) (h : starts ≠ []) :
    (diffWidths starts w).getD (starts.length - 1) 0 = w := by
  have hpos := List.length_pos.mpr h
  have hlen : (starts.zipWith (fun a b => b - a) starts.tail).length =
      starts.length - 1 := by
    rw [List.length_zipWith, List.length_tail]
    omega
  rw [diffWidths, List.getD_append_right _ _ _ _ (by omega), hlen]
  simp

theorem map_time_getD (rows : List Keyframe) (i : ℕ) (hi : i < rows.length) :
    (rows.map Keyframe.frame_time_ms).getD i 0 =
      (rows.getD i default).frame_time_ms := by
  rw [getD_of_lt _ _ _ (by simpa), List.getElem_map, getD_of_lt _ _ _ hi]

theorem mkBlocks_length (rows : List Keyframe) (w : ℚ) (h : rows ≠ []) :
    (mkBlocks rows w).length = rows.length := by
  have hmap : rows.map Keyframe.frame_time_ms ≠ [] := by
    simpa using h
  rw [mkBlocks, List.length_map, List.length_zip,
    diffWidths_length _ _ hmap, List.length_map, min_self]

theorem mkBlocks_getD (rows : List Keyframe) (w : ℚ) (i : ℕ)
    (hi : i < rows.length) :
    (mkBlocks rows w).getD i default =
      ⟨rows.getD i default,
        (diffWidths (rows.map Keyframe.frame_time_ms) w).getD i 0⟩ := by
  have hne : rows ≠ [] := by
    intro h
    rw [h] at hi
    simp at hi
  have hmap : rows.map Keyframe.frame_time_ms ≠ [] := by simpa using hne
  have hdw : (diffWidths (rows.map Keyframe.frame_time_ms) w).length =
      rows.length := by
    rw [diffWidths_length _ _ hmap, List.length_map]
  have hzip : i < (rows.zip (diffWidths (rows.map Keyframe.frame_time_ms)
      w)).length := by
    rw [List.length_zip, hdw, min_self]
    exact hi
  rw [mkBlocks, getD_of_lt _ _ _ (by rwa [List.length_map]),
    List.getElem_map, List.getElem_zip, getD_of_lt _ _ _ hi,
    getD_of_lt _ _ _ (by omega)]

/-- Interior contiguity of `mkBlocks` output: every non-final block ends
exactly where the next one starts. -/
theorem mkBlocks_contiguous (rows : List Keyframe) (w : ℚ) (i : ℕ)
    (hi : i + 1 < rows.length) :
    blockStart ((mkBlocks rows w).getD i default)
      + ((mkBlocks rows w).getD i default).width
      = blockStart ((mkBlocks rows w).getD (i + 1) default) := by
  rw [mkBlocks_getD _ _ _ (by omega), mkBlocks_getD _ _ _ hi,
    diffWidths_getD_interior _ _ _ (by simpa),
    map_time_getD _ _ (by omega), map_time_getD _ _ (by omega)]
  rw [blockStart, blockStart]
  ring

/-- Raw-mode specification of the aggregator, shared by the C2 and C6
developments: one block per visible row, gap widths, `rawLastWidth` final
width, and the `rawLastWidth` case rules. -/
theorem aggregateData_raw_spec (sqrtFn : ℚ → ℚ) (dfv full : List Keyframe)
    (numBins : ℕ) (hne : dfv ≠ []) (hbins : dfv.length ≤ numBins) :
    ∃ bs, aggregateData sqrtFn dfv numBins full = .blocks bs true
      ∧ bs.length = dfv.length
      ∧ (∀ i, i < dfv.length →
          ((bs.getD i default).kf = dfv.getD i default))
      ∧ (∀ i, i + 1 < dfv.length → (bs.getD i default).width =
          (dfv.getD (i + 1) default).frame_time_ms -
            (dfv.getD i default).frame_time_ms)
      ∧ ((bs.getD (dfv.length - 1) default).width =
          rawLastWidth (full.map Keyframe.frame_time_ms)
            ((dfv.map Keyframe.frame_time_ms).getLastD 0))
      ∧ (∀ (fullTs : List ℚ) (lastT nt : ℚ),
          fullTs.find? (fun t => lastT < t) = some nt →
            rawLastWidth fullTs lastT = nt - lastT)
      ∧ (∀ (fullTs : List ℚ) (lastT : ℚ),
          fullTs.find? (fun t => lastT < t) = none →
            (∀ m, medianDiff fullTs = some m →
              rawLastWidth fullTs lastT = m)
            ∧ (medianDiff fullTs = none → rawLastWidth fullTs lastT = 50)) := by
  have hpos := List.length_pos.mpr hne
  have hnb : numBins ≠ 0 := by omega
  have hmap : dfv.map Keyframe.frame_time_ms ≠ [] := by simpa using hne
  refine ⟨mkBlocks dfv
      (rawLastWidth (full.map Keyframe.frame_time_ms)
        ((dfv.map Keyframe.frame_time_ms).getLastD 0)), ?_, ?_, ?_, ?_, ?_,
      ?_, ?_⟩
  · rw [aggregateData, if_neg (by simp [List.isEmpty_iff, hne, hnb]),
      if_pos hbins]
  · exact mkBlocks_length _ _ hne
  · intro i hi
    rw [mkBlocks_getD _ _ _ hi]
  · intro i hi
    rw [mkBlocks_getD _ _ _ (by omega),
      diffWidths_getD_interior _ _ _ (by simpa),
      map_time_getD _ _ (by omega), map_time_getD _ _ (by omega)]
  · have h2 := diffWidths_getD_last (dfv.map Keyframe.frame_time_ms)
      (rawLastWidth (full.map Keyframe.frame_time_ms)
        ((dfv.map Keyframe.frame_time_ms).getLastD 0)) hmap
    rw [List.length_map] at h2
    rw [mkBlocks_getD _ _ _ (by omega)]
    exact h2
  · intro fullTs lastT nt hfind
    rw [rawLastWidth, hfind]
  · intro fullTs lastT hfind
    constructor
    · intro m hm
      rw [rawLastWidth, hfind, hm]
    · intro hm
      rw [rawLastWidth, hfind, hm]

/-!
### Claim C6 — raw mode emits one block per visible keyframe
-/

/-- Claim C6: for a nonempty visible slice whose length is at most
`target_bin_count`, the aggregator skips binning: it returns raw mode
(flag `true`) with exactly one block per visible keyframe, each block
keeping its source row, interior widths equal to the gap to the next
keyframe, and the final width given by the `rawLastWidth` rule — the gap to
the first full-dataset keyframe beyond the last visible one, else the
median inter-frame interval of the full dataset, else 50 ms. -/
theorem C6_raw_mode (sqrtFn : ℚ → ℚ) (dfv full : List Keyframe)
    (numBins : ℕ) (hne : dfv ≠ []) (hbins : dfv.length ≤ numBins) :
    ∃ bs, aggregateData sqrtFn dfv numBins full = .blocks bs true
      ∧ bs.length = dfv.length
      ∧ (∀ i, i < dfv.length →
          ((bs.getD i default).kf = dfv.getD i default))
      ∧ (∀ i, i + 1 < dfv.length → (bs.getD i default).width =
          (dfv.getD (i + 1) default).frame_time_ms -
            (dfv.getD i default).frame_time_ms)
      ∧ ((bs.getD (dfv.length - 1) default).width =
          rawLastWidth (full.map Keyframe.frame_time_ms)
            ((dfv.map Keyframe.frame_time_ms).getLastD 0))
      ∧ (∀ (fullTs : List ℚ) (lastT nt : ℚ),
          fullTs.find? (fun t => lastT < t) = some nt →
            rawLastWidth fullTs lastT = nt - lastT)
      ∧ (∀ (fullTs : List ℚ) (lastT : ℚ),
          fullTs.find? (fun t => lastT < t) = none →
            (∀ m, medianDiff fullTs = some m →
              rawLastWidth fullTs lastT = m)
            ∧ (medianDiff fullTs = none → rawLastWidth fullTs lastT = 50)) :=
  aggregateData_raw_spec sqrtFn dfv full numBins hne hbins

/-- Concrete witness for C6: `exPair` (2 keyframes) aggregated with
`target_bin_count = 5` stays in raw mode. -/
theorem C6_raw_mode_witness :
    (exPair ≠ [] ∧ exPair.length ≤ 5)
    ∧ ∃ bs, aggregateData qSqrt exPair 5 exPair = .blocks bs true
      ∧ bs.length = exPair.length
      ∧ (∀ i, i < exPair.length →
          ((bs.getD i default).kf = exPair.getD i default))
      ∧ (∀ i, i + 1 < exPair.length → (bs.getD i default).width =
          (exPair.getD (i + 1) default).frame_time_ms -
            (exPair.getD i default).frame_time_ms)
      ∧ ((bs.getD (exPair.length - 1) default).width =
          rawLastWidth (exPair.map Keyframe.frame_time_ms)
            ((exPair.map Keyframe.frame_time_ms).getLastD 0))
      ∧ (∀ (fullTs : List ℚ) (lastT nt : ℚ),
          fullTs.find? (fun t => lastT < t) = some nt →
            rawLastWidth fullTs lastT = nt - lastT)
      ∧ (∀ (fullTs : List ℚ) (lastT : ℚ),
          fullTs.find? (fun t => lastT < t) = none →
            (∀ m, medianDiff fullTs = some m →
              rawLastWidth fullTs lastT = m)
            ∧ (medianDiff fullTs = none → rawLastWidth fullTs lastT = 50)) :=
  ⟨⟨by simp [exPair], by simp [exPair]⟩,
   C6_raw_mode qSqrt exPair exPair 5 (by simp [exPair]) (by simp [exPair])⟩

/-!
### idxmax and emission-loop lemmas (for C2)
-/

theorem idxmaxStep_none (scores : List ℚ) (i : ℕ) :
    idxmaxStep scores none i = some i := rfl

theorem idxmaxStep_some (scores : List ℚ) (a i : ℕ) :
    idxmaxStep scores (some a) i =
      if scores.getD a 0 < scores.getD i 0 then some i else some a := rfl

/-- Combined invariant of the `idxmax` fold: the result comes from the list
(or the accumulator) and its score dominates everything seen. -/
theorem idxmax_fold_spec (scores : List ℚ) :
    ∀ (idxs : List ℕ) (acc : Option ℕ) (r : ℕ),
      idxs.foldl (idxmaxStep scores) acc = some r →
      (r ∈ idxs ∨ acc = some r)
      ∧ (∀ j ∈ idxs, scores.getD j 0 ≤ scores.getD r 0)
      ∧ (∀ a, acc = some a → scores.getD a 0 ≤ scores.getD r 0) := by
  intro idxs
  induction idxs with
  | nil =>
      intro acc r h
      simp only [List.foldl_nil] at h
      exact ⟨Or.inr h, by simp, fun a ha => by rw [ha] at h; simp at h; rw [h]⟩
  | cons i rest ih =>
      intro acc r h
      rw [List.foldl_cons] at h
      rcases acc with - | a
      · rw [idxmaxStep_none] at h
        obtain ⟨hmem', hge', haccge'⟩ := ih (some i) r h
        have hi_le : scores.getD i 0 ≤ scores.getD r 0 := haccge' i rfl
        refine ⟨?_, ?_, ?_⟩
        · rcases hmem' with hr | hr
          · exact Or.inl (List.mem_cons_of_mem _ hr)
          · exact Or.inl (by simp at hr; rw [hr]; exact List.mem_cons_self _ _)
        · intro j hj
          rcases List.mem_cons.mp hj with hj | hj
          · rw [hj]; exact hi_le
          · exact hge' j hj
        · intro a ha
          exact absurd ha (by simp)
      · rw [idxmaxStep_some] at h
        by_cases hlt : scores.getD a 0 < scores.getD i 0
        · rw [if_pos hlt] at h
          obtain ⟨hmem', hge', haccge'⟩ := ih (some i) r h
          have hi_le : scores.getD i 0 ≤ scores.getD r 0 := haccge' i rfl
          refine ⟨?_, ?_, ?_⟩
          · rcases hmem' with hr | hr
            · exact Or.inl (List.mem_cons_of_mem _ hr)
            · exact Or.inl
                (by simp at hr; rw [hr]; exact List.mem_cons_self _ _)
          · intro j hj
            rcases List.mem_cons.mp hj with hj | hj
            · rw [hj]; exact hi_le
            · exact hge' j hj
          · intro b hb
            have hba : b = a := by simpa using hb.symm
            rw [hba]
            exact le_trans (le_of_lt hlt) hi_le
        · rw [if_neg hlt] at h
          obtain ⟨hmem', hge', haccge'⟩ := ih (some a) r h
          have ha_le : scores.getD a 0 ≤ scores.getD r 0 := haccge' a rfl
          have hi_le : scores.getD i 0 ≤ scores.getD r 0 :=
            le_trans (le_of_not_lt hlt) ha_le
          refine ⟨?_, ?_, ?_⟩
          · rcases hmem' with hr | hr
            · exact Or.inl (List.mem_cons_of_mem _ hr)
            · exact Or.inr hr
          · intro j hj
            rcases List.mem_cons.mp hj with hj | hj
            · rw [hj]; exact hi_le
            · exact hge' j hj
          · intro b hb
            have hba : b = a := by simpa using hb.symm
            rw [hba]
            exact ha_le

/-- The `idxmax` fold never loses a `some` accumulator. -/
theorem idxmax_fold_isSome (scores : List ℚ) :
    ∀ (idxs : List ℕ) (acc : Option ℕ), acc.isSome →
      (idxs.foldl (idxmaxStep scores) acc).isSome := by
  intro idxs
  induction idxs with
  | nil => intro acc h; simpa using h
  | cons i rest ih =>
      intro acc h
      rw [List.foldl_cons]
      rcases acc with - | a
      · simp at h
      · rw [idxmaxStep_some]
        by_cases hlt : scores.getD a 0 < scores.getD i 0
        · rw [if_pos hlt]; exact ih (some i) rfl
        · rw [if_neg hlt]; exact ih (some a) rfl

/-- If `i` is in the group and strictly dominates every other group member,
pandas' first-of-max `idxmax` picks exactly `i`. -/
theorem idxmaxFrom_eq_of_strict_max (scores : List ℚ) (idxs : List ℕ)
    (i : ℕ) (hi : i ∈ idxs)
    (hmax : ∀ j ∈ idxs, j ≠ i → scores.getD j 0 < scores.getD i 0) :
    idxmaxFrom scores idxs = some i := by
  have hne : idxs ≠ [] := by rintro rfl; simp at hi
  have hsome : (idxmaxFrom scores idxs).isSome := by
    rw [idxmaxFrom]
    cases idxs with
    | nil => exact absurd rfl hne
    | cons a rest =>
        rw [List.foldl_cons, idxmaxStep_none]
        exact idxmax_fold_isSome scores rest (some a) rfl
  obtain ⟨r, hr⟩ := Option.isSome_iff_exists.mp hsome
  obtain ⟨hmem, hge, -⟩ := idxmax_fold_spec scores idxs none r hr
  have hrmem : r ∈ idxs := by
    rcases hmem with h | h
    · exact h
    · simp at h
  rcases eq_or_ne r i with rfl | hne'
  · exact hr
  · exact absurd (hge i hi) (not_le_of_lt (hmax r hrmem hne'))

theorem emitStep_some (b2f : ℕ → Option ℕ) (st : List (ℕ × ℕ) × Option ℕ)
    (k fi : ℕ) (hb : b2f k = some fi) :
    emitStep b2f st k =
      if st.2 = some fi then st else (st.1 ++ [(k, fi)], some fi) := by
  rw [emitStep, hb]

theorem emitStep_noneCase (b2f : ℕ → Option ℕ)
    (st : List (ℕ × ℕ) × Option ℕ) (k : ℕ) (hb : b2f k = none) :
    emitStep b2f st k = st := by
  rw [emitStep, hb]

/-- The emission loop only ever appends to the emitted list. -/
theorem emitFold_prefix (b2f : ℕ → Option ℕ) :
    ∀ (bins : List ℕ) (st : List (ℕ × ℕ) × Option ℕ),
      ∃ suffix, (bins.foldl (emitStep b2f) st).1 = st.1 ++ suffix := by
  intro bins
  induction bins with
  | nil => intro st; exact ⟨[], by simp⟩
  | cons b rest ih =>
      intro st
      rw [List.foldl_cons]
      rcases hb : b2f b with - | fb
      · obtain ⟨suf, hsuf⟩ := ih st
        exact ⟨suf, by rw [emitStep_noneCase b2f st b hb, hsuf]⟩
      · by_cases heq : st.2 = some fb
        · obtain ⟨suf, hsuf⟩ := ih st
          refine ⟨suf, ?_⟩
          rw [emitStep_some b2f st b fb hb, if_pos heq, hsuf]
        · obtain ⟨suf, hsuf⟩ := ih (st.1 ++ [(b, fb)], some fb)
          refine ⟨(b, fb) :: suf, ?_⟩
          rw [emitStep_some b2f st b fb hb, if_neg heq, hsuf,
            List.append_assoc]
          rfl

/-- If bin `k` maps to frame `i` and no other bin maps to `i`, the emission
loop emits the pair `(k, i)`. -/
theorem emitFold_mem (b2f : ℕ → Option ℕ) (k i : ℕ) (hb : b2f k = some i)
    (huniq : ∀ k', b2f k' = some i → k' = k) :
    ∀ (bins : List ℕ) (st : List (ℕ × ℕ) × Option ℕ), k ∈ bins →
      bins.Nodup →
      (st.2 = none ∨ ∃ k₀, k₀ ∉ bins ∧ b2f k₀ = st.2) →
      (k, i) ∈ (bins.foldl (emitStep b2f) st).1 := by
  intro bins
  induction bins with
  | nil => intro st hk; simp at hk
  | cons b rest ih =>
      intro st hk hnd hst2
      rw [List.nodup_cons] at hnd
      rw [List.foldl_cons]
      rcases eq_or_ne b k with rfl | hbk
      · -- processing bin k now; the accumulator cannot hold i
        have hne : st.2 ≠ some i := by
          intro habs
          rcases hst2 with h | ⟨k₀, hk₀, hbk₀⟩
          · rw [h] at habs; exact Option.noConfusion habs
          · rw [habs] at hbk₀
            exact hk₀ (huniq k₀ hbk₀ ▸ List.mem_cons_self _ _)
        have hstep : emitStep b2f st b = (st.1 ++ [(b, i)], some i) := by
          rw [emitStep_some b2f st b i hb, if_neg hne]
        rw [hstep]
        obtain ⟨suf, hsuf⟩ := emitFold_prefix b2f rest (st.1 ++ [(b, i)], some i)
        rw [hsuf]
        simp
      · have hk' : k ∈ rest := by
          rcases List.mem_cons.mp hk with h | h
          · exact absurd h.symm hbk
          · exact h
        have hst2' : (emitStep b2f st b).2 = none ∨
            ∃ k₀, k₀ ∉ rest ∧ b2f k₀ = (emitStep b2f st b).2 := by
          rcases hbb : b2f b with - | fb
          · rw [emitStep_noneCase b2f st b hbb]
            rcases hst2 with h | ⟨k₀, hk₀, hbk₀⟩
            · exact Or.inl h
            · exact Or.inr ⟨k₀, fun hm => hk₀ (List.mem_cons_of_mem _ hm), hbk₀⟩
          · rw [emitStep_some b2f st b fb hbb]
            by_cases heq : st.2 = some fb
            · rw [if_pos heq]
              rcases hst2 with h | ⟨k₀, hk₀, hbk₀⟩
              · exact Or.inl h
              · exact Or.inr ⟨k₀, fun hm => hk₀ (List.mem_cons_of_mem _ hm), hbk₀⟩
            · rw [if_neg heq]
              exact Or.inr ⟨b, hnd.1, hbb⟩
        exact ih (emitStep b2f st b) hk' hnd.2 hst2'

/-- Inverting a `some` result of `pd.cut`. -/
theorem cutBin_some_spec (edges : List ℚ) (numBins : ℕ) (t : ℚ) (k : ℕ)
    (h : cutBin edges numBins t = some k) :
    edges.countP (fun e => e ≤ t) ≠ 0
    ∧ edges.countP (fun e => e ≤ t) ≤ numBins
    ∧ k = edges.countP (fun e => e ≤ t) - 1 := by
  rw [cutBin] at h
  split_ifs at h with hc
  push_neg at hc
  exact ⟨hc.1, hc.2, (Option.some.inj h).symm⟩

/-- A cut bin index is always below the bin count. -/
theorem cutBin_some_lt (edges : List ℚ) (numBins : ℕ) (t : ℚ) (k : ℕ)
    (h : cutBin edges numBins t = some k) : k < numBins := by
  obtain ⟨h1, h2, h3⟩ := cutBin_some_spec edges numBins t k h
  omega

/-- The core-aggregation branch of `_aggregate_data`, fully reduced, once
the emitted row list is known to be nonempty. -/
theorem aggregateData_binned_eq (sqrtFn : ℚ → ℚ) (dfv full : List Keyframe)
    (numBins : ℕ) (r : Keyframe) (rs : List Keyframe)
    (hne : dfv ≠ []) (hnb : numBins ≠ 0) (hnotraw : ¬ dfv.length ≤ numBins)
    (hmm : ¬ pandasMax (dfv.map Keyframe.frame_time_ms) ≤
      pandasMin (dfv.map Keyframe.frame_time_ms))
    (hrows : (emitBins (binToFrame (importanceScores sqrtFn dfv)
        (dfv.map Keyframe.frame_time_ms)
        (linspace (pandasMin (dfv.map Keyframe.frame_time_ms))
          (pandasMax (dfv.map Keyframe.frame_time_ms)) numBins) numBins)
        numBins).map
        (fun p => { kfAt dfv p.2 with frame_time_ms :=
          (linspace (pandasMin (dfv.map Keyframe.frame_time_ms))
            (pandasMax (dfv.map Keyframe.frame_time_ms)) numBins).getD p.1 0 })
        = r :: rs) :
    aggregateData sqrtFn dfv numBins full =
      .blocks (mkBlocks (r :: rs)
        (pandasMax (dfv.map Keyframe.frame_time_ms) -
          ((r :: rs).map Keyframe.frame_time_ms).getLastD 0)) false := by
  rw [aggregateData, if_neg (by simp [List.isEmpty_iff, hne, hnb]),
    if_neg hnotraw]
  simp only []
  rw [if_neg hmm, hrows]

/-!
### Claim C2 — blackout frames survive aggregation
-/

/-- Claim C2, amended: a blackout keyframe of the visible slice is kept in
the aggregated output in raw mode always, and in binned mode provided it is
assigned a bin at all — i.e. its timestamp is strictly below the maximum of
the slice, since `pd.cut` with right-open bins drops the frame sitting
exactly at `max_time` — and no other frame of the same bin scores at least
as much. -/
theorem C2_blackout_retention_amended (sqrtFn : ℚ → ℚ)
    (dfv full : List Keyframe) (numBins : ℕ) (i : ℕ)
    (hi : i < dfv.length) (hnb : 1 ≤ numBins) (hb : tbAt dfv i = 0)
    (hbin : dfv.length ≤ numBins ∨
      (¬ pandasMax (dfv.map Keyframe.frame_time_ms) ≤
          pandasMin (dfv.map Keyframe.frame_time_ms)
        ∧ ∃ k, cutBin (linspace (pandasMin (dfv.map Keyframe.frame_time_ms))
            (pandasMax (dfv.map Keyframe.frame_time_ms)) numBins) numBins
            ((dfv.map Keyframe.frame_time_ms).getD i 0) = some k
          ∧ ∀ j, j < dfv.length → j ≠ i →
              cutBin (linspace (pandasMin (dfv.map Keyframe.frame_time_ms))
                (pandasMax (dfv.map Keyframe.frame_time_ms)) numBins) numBins
                ((dfv.map Keyframe.frame_time_ms).getD j 0) = some k →
              scoreAt sqrtFn dfv j < scoreAt sqrtFn dfv i)) :
    ∃ bs isRaw, aggregateData sqrtFn dfv numBins full =
        AggResult.blocks bs isRaw
      ∧ ∃ m, m < bs.length ∧
          ((bs.getD m default).kf).chans = (dfv.getD i default).chans := by
  have hne : dfv ≠ [] := by
    intro h
    rw [h] at hi
    simp at hi
  by_cases hraw : dfv.length ≤ numBins
  · obtain ⟨bs, hagg, hlen, hkf, -, -, -, -⟩ :=
      aggregateData_raw_spec sqrtFn dfv full numBins hne hraw
    exact ⟨bs, true, hagg, i, by rw [hlen]; exact hi, by rw [hkf i hi]⟩
  · rcases hbin with h | ⟨hmm, k, hcut, hscores⟩
    · exact absurd h hraw
    -- shorthands
    have hts_len : (dfv.map Keyframe.frame_time_ms).length = dfv.length :=
      List.length_map _ _
    set ts := dfv.map Keyframe.frame_time_ms with hts
    set minT := pandasMin ts with hminT
    set maxT := pandasMax ts with hmaxT
    set edges := linspace minT maxT numBins with hedges
    set scores := importanceScores sqrtFn dfv with hscoresDef
    set b2f := binToFrame scores ts edges numBins with hb2f
    -- bin k's idxmax is the blackout frame
    have hfilter_mem : i ∈ (List.range ts.length).filter
        (fun j => cutBin edges numBins (ts.getD j 0) = some k) := by
      refine List.mem_filter.mpr ⟨List.mem_range.mpr (by omega), ?_⟩
      simpa using hcut
    have hb2fk : b2f k = some i := by
      rw [hb2f, binToFrame]
      refine idxmaxFrom_eq_of_strict_max scores _ i hfilter_mem ?_
      intro j hj hji
      obtain ⟨hjr, hjc⟩ := List.mem_filter.mp hj
      rw [List.mem_range, hts_len] at hjr
      simp only [decide_eq_true_eq] at hjc
      exact hscores j hjr hji hjc
    -- no other bin maps to the blackout frame
    have huniq : ∀ k', b2f k' = some i → k' = k := by
      intro k' hk'
      rw [hb2f, binToFrame, idxmaxFrom] at hk'
      obtain ⟨hmem, -, -⟩ := idxmax_fold_spec scores _ none i hk'
      have hmem' : i ∈ (List.range ts.length).filter
          (fun j => cutBin edges numBins (ts.getD j 0) = some k') := by
        rcases hmem with h | h
        · exact h
        · simp at h
      obtain ⟨-, hc⟩ := List.mem_filter.mp hmem'
      simp only [decide_eq_true_eq] at hc
      have := hcut.symm.trans hc
      exact (Option.some.inj this).symm
    -- the emission loop emits (k, i)
    have hkmem : (k, i) ∈ emitBins b2f numBins := by
      rw [emitBins]
      exact emitFold_mem b2f k i hb2fk huniq (List.range numBins) ([], none)
        (List.mem_range.mpr (cutBin_some_lt _ _ _ _ hcut)) (List.nodup_range _)
        (Or.inl rfl)
    -- hence the mapped row list is nonempty
    obtain ⟨n, hn, hnk⟩ := List.getElem_of_mem hkmem
    set rowsExpr := (emitBins b2f numBins).map
      (fun p => { kfAt dfv p.2 with frame_time_ms := edges.getD p.1 0 })
      with hrowsExpr
    have hrowslen : rowsExpr.length = (emitBins b2f numBins).length :=
      List.length_map _ _
    have hrne : rowsExpr ≠ [] := by
      intro h
      rw [h] at hrowslen
      simp only [List.length_nil] at hrowslen
      omega
    rcases hrows : rowsExpr with - | ⟨r, rs⟩
    · exact absurd hrows hrne
    have hagg := aggregateData_binned_eq sqrtFn dfv full numBins r rs hne
      (by omega) hraw hmm (by rw [← hrows, hrowsExpr, hb2f, hscoresDef, hts,
        hedges, hminT, hmaxT])
    have hlen2 : (r :: rs).length = (emitBins b2f numBins).length := by
      rw [← hrows]
      exact hrowslen
    refine ⟨_, false, hagg, n, ?_, ?_⟩
    · rw [mkBlocks_length _ _ (by simp), hlen2]
      exact hn
    · have hn' : n < (r :: rs).length := by
        rw [hlen2]
        exact hn
      rw [mkBlocks_getD _ _ _ hn']
      have hrget : (r :: rs).getD n default =
          { kfAt dfv i with frame_time_ms := edges.getD k 0 } := by
        rw [← hrows, hrowsExpr,
          getD_of_lt _ _ _ (by rw [List.length_map]; exact hn),
          List.getElem_map, hnk]
      rw [hrget]
      rfl

theorem qSqrt_0 : qSqrt 0 = 0 := by
  rw [qSqrt]
  norm_num

/-- Channel-uniform color distance: ten equal per-channel roots. -/
theorem colorDistTo_const (sqrtFn : ℚ → ℚ) (f g : Keyframe) (v : ℚ)
    (h : ∀ ch : Fin 10, sqrtFn ((((f.chans ch).1 - (g.chans ch).1) ^ 2
      + ((f.chans ch).2.1 - (g.chans ch).2.1) ^ 2
      + ((f.chans ch).2.2 - (g.chans ch).2.2) ^ 2 : ℤ) : ℚ) = v) :
    colorDistTo sqrtFn f g = 10 * v := by
  rw [colorDistTo]
  simp only [h]
  simp only [List.ofFn_succ, List.ofFn_zero, List.sum_cons, List.sum_nil,
    Fin.isValue]
  ring

/-- Score evaluation from explicitly supplied components. -/
theorem scoreAt_eval (sqrtFn : ℚ → ℚ) (frames : List Keyframe) (i : ℕ)
    (hi : i < frames.length) (tb prev next : ℤ) (cdp cdn : ℚ)
    (htb : tbAt frames i = tb) (hj1 : prevTb frames i = prev)
    (hj2 : nextTb frames i = next)
    (hc1 : colorDistPrev sqrtFn frames i = cdp)
    (hc2 : colorDistNext sqrtFn frames i = cdn) :
    scoreAt sqrtFn frames i =
      (if tb = 0 then (1000 : ℚ) else min 99 ((tb : ℚ) / 4.5))
      + min 100 (((max (tb - prev).natAbs (tb - next).natAbs : ℕ) : ℚ) / 4.5)
      + min 500 (max cdp cdn * 2) := by
  rw [scoreAt_closed_form sqrtFn frames i hi, baseBrightnessScore,
    brightnessJumpScore, colorChangeScore, colorDistPrev, colorDistNext]
    <;> rw [htb, hj1, hj2] <;> rw [← colorDistPrev, ← colorDistNext, hc1, hc2]

/-- The distance root between two all-`(0,0,9)` rows is 0 per channel. -/
theorem exDist_same (ch : Fin 10) :
    qSqrt ((((exNavy.chans ch).1 - (exB2.chans ch).1) ^ 2
      + ((exNavy.chans ch).2.1 - (exB2.chans ch).2.1) ^ 2
      + ((exNavy.chans ch).2.2 - (exB2.chans ch).2.2) ^ 2 : ℤ) : ℚ) = 0 := by
  norm_num [exNavy, exB2, qSqrt_0]

theorem exDist_same' (ch : Fin 10) :
    qSqrt ((((exB2.chans ch).1 - (exNavy.chans ch).1) ^ 2
      + ((exB2.chans ch).2.1 - (exNavy.chans ch).2.1) ^ 2
      + ((exB2.chans ch).2.2 - (exNavy.chans ch).2.2) ^ 2 : ℤ) : ℚ) = 0 := by
  norm_num [exNavy, exB2, qSqrt_0]

theorem exDist_B2C2 (ch : Fin 10) :
    qSqrt ((((exB2.chans ch).1 - (exC2.chans ch).1) ^ 2
      + ((exB2.chans ch).2.1 - (exC2.chans ch).2.1) ^ 2
      + ((exB2.chans ch).2.2 - (exC2.chans ch).2.2) ^ 2 : ℤ) : ℚ) = 9 := by
  norm_num [exB2, exC2, qSqrt_81]

theorem exDist_C2B2 (ch : Fin 10) :
    qSqrt ((((exC2.chans ch).1 - (exB2.chans ch).1) ^ 2
      + ((exC2.chans ch).2.1 - (exB2.chans ch).2.1) ^ 2
      + ((exC2.chans ch).2.2 - (exB2.chans ch).2.2) ^ 2 : ℤ) : ℚ) = 9 := by
  norm_num [exB2, exC2, qSqrt_81]

theorem exDist_navyMid (ch : Fin 10) :
    qSqrt ((((exNavy.chans ch).1 - (exMid.chans ch).1) ^ 2
      + ((exNavy.chans ch).2.1 - (exMid.chans ch).2.1) ^ 2
      + ((exNavy.chans ch).2.2 - (exMid.chans ch).2.2) ^ 2 : ℤ) : ℚ) = 9 := by
  norm_num [exNavy, exMid, qSqrt_81]

theorem exDist_midNavy (ch : Fin 10) :
    qSqrt ((((exMid.chans ch).1 - (exNavy.chans ch).1) ^ 2
      + ((exMid.chans ch).2.1 - (exNavy.chans ch).2.1) ^ 2
      + ((exMid.chans ch).2.2 - (exNavy.chans ch).2.2) ^ 2 : ℤ) : ℚ) = 9 := by
  norm_num [exNavy, exMid, qSqrt_81]

theorem exDist_midEnd (ch : Fin 10) :
    qSqrt ((((exMid.chans ch).1 - (exEnd.chans ch).1) ^ 2
      + ((exMid.chans ch).2.1 - (exEnd.chans ch).2.1) ^ 2
      + ((exMid.chans ch).2.2 - (exEnd.chans ch).2.2) ^ 2 : ℤ) : ℚ) = 9 := by
  norm_num [exMid, exEnd, qSqrt_81]

theorem exDist_endMid (ch : Fin 10) :
    qSqrt ((((exEnd.chans ch).1 - (exMid.chans ch).1) ^ 2
      + ((exEnd.chans ch).2.1 - (exMid.chans ch).2.1) ^ 2
      + ((exEnd.chans ch).2.2 - (exMid.chans ch).2.2) ^ 2 : ℤ) : ℚ) = 9 := by
  norm_num [exMid, exEnd, qSqrt_81]

/-- Scores over `exTriple`: the lit frames score 20 and 220, the final
blackout 1200. -/
theorem exTriple_scores :
    scoreAt qSqrt exTriple 0 = 20 ∧ scoreAt qSqrt exTriple 1 = 220
    ∧ scoreAt qSqrt exTriple 2 = 1200 := by
  have hcdn0 : colorDistNext qSqrt exTriple 0 = 0 := by
    rw [colorDistNext, if_neg (by norm_num [exTriple])]
    rw [show kfAt exTriple 0 = exNavy from rfl,
      show kfAt exTriple 1 = exB2 from rfl,
      colorDistTo_const qSqrt exNavy exB2 0 exDist_same]
    norm_num
  have hcdp1 : colorDistPrev qSqrt exTriple 1 = 0 := by
    rw [colorDistPrev, if_neg (by norm_num)]
    rw [show kfAt exTriple 1 = exB2 from rfl,
      show kfAt exTriple 0 = exNavy from rfl,
      colorDistTo_const qSqrt exB2 exNavy 0 exDist_same']
    norm_num
  have hcdn1 : colorDistNext qSqrt exTriple 1 = 90 := by
    rw [colorDistNext, if_neg (by norm_num [exTriple])]
    rw [show kfAt exTriple 1 = exB2 from rfl,
      show kfAt exTriple 2 = exC2 from rfl,
      colorDistTo_const qSqrt exB2 exC2 9 exDist_B2C2]
    norm_num
  have hcdp2 : colorDistPrev qSqrt exTriple 2 = 90 := by
    rw [colorDistPrev, if_neg (by norm_num)]
    rw [show kfAt exTriple 2 = exC2 from rfl,
      show kfAt exTriple 1 = exB2 from rfl,
      colorDistTo_const qSqrt exC2 exB2 9 exDist_C2B2]
    norm_num
  have hcdn2 : colorDistNext qSqrt exTriple 2 = 0 := by
    rw [colorDistNext, if_pos (by norm_num [exTriple])]
  have hcdp0 : colorDistPrev qSqrt exTriple 0 = 0 := by
    rw [colorDistPrev, if_pos rfl]
  refine ⟨?_, ?_, ?_⟩
  · rw [scoreAt_eval qSqrt exTriple 0 (by norm_num [exTriple]) 90 90 90 0 0
      (by decide) (by decide) (by decide) hcdp0 hcdn0]
    norm_num
  · rw [scoreAt_eval qSqrt exTriple 1 (by norm_num [exTriple]) 90 90 0 0 90
      (by decide) (by decide) (by decide) hcdp1 hcdn1]
    norm_num
  · rw [scoreAt_eval qSqrt exTriple 2 (by norm_num [exTriple]) 0 90 0 90 0
      (by decide) (by decide) (by decide) hcdp2 hcdn2]
    norm_num

/-- Scores over the spec scenario `exScenario`: 220, 1200, 220. -/
theorem exScenario_scores :
    scoreAt qSqrt exScenario 0 = 220 ∧ scoreAt qSqrt exScenario 1 = 1200
    ∧ scoreAt qSqrt exScenario 2 = 220 := by
  have hcdp0 : colorDistPrev qSqrt exScenario 0 = 0 := by
    rw [colorDistPrev, if_pos rfl]
  have hcdn0 : colorDistNext qSqrt exScenario 0 = 90 := by
    rw [colorDistNext, if_neg (by norm_num [exScenario])]
    rw [show kfAt exScenario 0 = exNavy from rfl,
      show kfAt exScenario 1 = exMid from rfl,
      colorDistTo_const qSqrt exNavy exMid 9 exDist_navyMid]
    norm_num
  have hcdp1 : colorDistPrev qSqrt exScenario 1 = 90 := by
    rw [colorDistPrev, if_neg (by norm_num)]
    rw [show kfAt exScenario 1 = exMid from rfl,
      show kfAt exScenario 0 = exNavy from rfl,
      colorDistTo_const qSqrt exMid exNavy 9 exDist_midNavy]
    norm_num
  have hcdn1 : colorDistNext qSqrt exScenario 1 = 90 := by
    rw [colorDistNext, if_neg (by norm_num [exScenario])]
    rw [show kfAt exScenario 1 = exMid from rfl,
      show kfAt exScenario 2 = exEnd from rfl,
      colorDistTo_const qSqrt exMid exEnd 9 exDist_midEnd]
    norm_num
  have hcdp2 : colorDistPrev qSqrt exScenario 2 = 90 := by
    rw [colorDistPrev, if_neg (by norm_num)]
    rw [show kfAt exScenario 2 = exEnd from rfl,
      show kfAt exScenario 1 = exMid from rfl,
      colorDistTo_const qSqrt exEnd exMid 9 exDist_endMid]
    norm_num
  have hcdn2 : colorDistNext qSqrt exScenario 2 = 0 := by
    rw [colorDistNext, if_pos (by norm_num [exScenario])]
  refine ⟨?_, ?_, ?_⟩
  · rw [scoreAt_eval qSqrt exScenario 0 (by norm_num [exScenario]) 90 90 0 0 90
      (by decide) (by decide) (by decide) hcdp0 hcdn0]
    norm_num
  · rw [scoreAt_eval qSqrt exScenario 1 (by norm_num [exScenario]) 0 90 90 90 90
      (by decide) (by decide) (by decide) hcdp1 hcdn1]
    norm_num
  · rw [scoreAt_eval qSqrt exScenario 2 (by norm_num [exScenario]) 90 0 90 90 0
      (by decide) (by decide) (by decide) hcdp2 hcdn2]
    norm_num

/-- Counterexample to claim C2 as stated: in `exTriple` the final keyframe
(`t = 2 = max_time`) is a blackout and every other frame scores strictly
less — so no frame with a higher or equal score shares (or could share) its
bin — yet the aggregated output with `target_bin_count = 2` consists of two
blocks both carrying lit rows (total brightness 90): the blackout is
dropped, because `pd.cut`'s right-open bins assign no bin to the frame
sitting exactly at `max_time`. -/
theorem C2_blackout_counterexample :
    tbAt exTriple 2 = 0
    ∧ (∀ j, j < exTriple.length → j ≠ 2 →
        scoreAt qSqrt exTriple j < scoreAt qSqrt exTriple 2)
    ∧ ∃ bs, aggregateData qSqrt exTriple 2 exTriple =
        AggResult.blocks bs false
      ∧ bs.length = 2
      ∧ (∀ m, m < bs.length →
          totalBrightness ((bs.getD m default).kf) = 90) := by
  obtain ⟨hs0, hs1, hs2⟩ := exTriple_scores
  refine ⟨by decide, ?_, ?_⟩
  · intro j hj hne
    have hj3 : j < 3 := by simpa [exTriple] using hj
    interval_cases j
    · rw [hs0, hs2]; norm_num
    · rw [hs1, hs2]; norm_num
    · exact absurd rfl hne
  · -- evaluate the binned aggregation
    have hts : exTriple.map Keyframe.frame_time_ms = [0, 1, 2] := rfl
    have hmin : pandasMin ([0, 1, 2] : List ℚ) = 0 := by
      norm_num [pandasMin, List.foldl_cons, List.foldl_nil, min_def]
    have hmax : pandasMax ([0, 1, 2] : List ℚ) = 2 := by
      norm_num [pandasMax, List.foldl_cons, List.foldl_nil, max_def]
    have hedges : linspace 0 2 2 = [0, 1, 2] := by
      norm_num [linspace, List.range_succ, List.range_zero]
    have hcut0 : cutBin [0, 1, 2] 2 (0 : ℚ) = some 0 := by
      norm_num [cutBin, List.countP_cons, List.countP_nil]
    have hcut1 : cutBin [0, 1, 2] 2 (1 : ℚ) = some 1 := by
      norm_num [cutBin, List.countP_cons, List.countP_nil]
    have hcut2 : cutBin [0, 1, 2] 2 (2 : ℚ) = none := by
      norm_num [cutBin, List.countP_cons, List.countP_nil]
    have hb2f0 : binToFrame (importanceScores qSqrt exTriple)
        [0, 1, 2] [0, 1, 2] 2 0 = some 0 := by
      rw [binToFrame]
      have hfil : (List.range ([0, 1, 2] : List ℚ).length).filter
          (fun i => cutBin [0, 1, 2] 2 (([0, 1, 2] : List ℚ).getD i 0)
            = some 0) = [0] := by
        rw [show List.range ([0, 1, 2] : List ℚ).length = [0, 1, 2] from rfl]
        simp [List.filter_cons, hcut0, hcut1, hcut2]
      rw [hfil]
      rfl
    have hb2f1 : binToFrame (importanceScores qSqrt exTriple)
        [0, 1, 2] [0, 1, 2] 2 1 = some 1 := by
      rw [binToFrame]
      have hfil : (List.range ([0, 1, 2] : List ℚ).length).filter
          (fun i => cutBin [0, 1, 2] 2 (([0, 1, 2] : List ℚ).getD i 0)
            = some 1) = [1] := by
        rw [show List.range ([0, 1, 2] : List ℚ).length = [0, 1, 2] from rfl]
        simp [List.filter_cons, hcut0, hcut1, hcut2]
      rw [hfil]
      rfl
    have hemit : emitBins (binToFrame (importanceScores qSqrt exTriple)
        [0, 1, 2] [0, 1, 2] 2) 2 = [(0, 0), (1, 1)] := by
      rw [emitBins, show List.range 2 = [0, 1] from rfl, List.foldl_cons,
        emitStep_some _ _ _ _ hb2f0, if_neg (by simp), List.foldl_cons,
        emitStep_some _ _ _ _ hb2f1, if_neg (by simp), List.foldl_nil]
      rfl
    have hrows0 : (emitBins (binToFrame (importanceScores qSqrt exTriple)
        (exTriple.map Keyframe.frame_time_ms)
        (linspace (pandasMin (exTriple.map Keyframe.frame_time_ms))
          (pandasMax (exTriple.map Keyframe.frame_time_ms)) 2) 2) 2).map
        (fun p => { kfAt exTriple p.2 with frame_time_ms :=
          (linspace (pandasMin (exTriple.map Keyframe.frame_time_ms))
            (pandasMax (exTriple.map Keyframe.frame_time_ms)) 2).getD p.1 0 })
        = { kfAt exTriple 0 with frame_time_ms := ([0, 1, 2] : List ℚ).getD 0 0 }
          :: [{ kfAt exTriple 1 with
                frame_time_ms := ([0, 1, 2] : List ℚ).getD 1 0 }] := by
      rw [hts, hmin, hmax, hedges, hemit]
      rfl
    have hagg := aggregateData_binned_eq qSqrt exTriple exTriple 2 _ _
      (by simp [exTriple]) (by norm_num) (by norm_num [exTriple])
      (by rw [hts, hmin, hmax]; norm_num) hrows0
    refine ⟨_, hagg, ?_, ?_⟩
    · rw [mkBlocks_length _ _ (by simp)]
      rfl
    · intro m hm
      rw [mkBlocks_length _ _ (by simp)] at hm
      have hm2 : m < 2 := by simpa using hm
      interval_cases m
      · rw [mkBlocks_getD _ _ _ (by simp)]
        decide
      · rw [mkBlocks_getD _ _ _ (by simp)]
        decide

/-- Concrete witness for the amended C2: the spec's end-to-end scenario.
Keyframes at `t = 0, 5000, 5001`, all-zero at `t = 5000`, aggregated with
`target_bin_count = 1` over the slice: the blackout (score 1200, strictly
above its bin-mate's 220) is kept in the output. -/
theorem C2_blackout_retention_amended_witness :
    (1 < exScenario.length ∧ tbAt exScenario 1 = 0 ∧ (1 : ℕ) ≤ 1)
    ∧ ∃ bs isRaw, aggregateData qSqrt exScenario 1 exScenario =
        AggResult.blocks bs isRaw
      ∧ ∃ m, m < bs.length ∧
          ((bs.getD m default).kf).chans = (exScenario.getD 1 default).chans := by
  obtain ⟨hs0, hs1, hs2⟩ := exScenario_scores
  have hts : exScenario.map Keyframe.frame_time_ms = [0, 5000, 5001] := rfl
  have hmin : pandasMin ([0, 5000, 5001] : List ℚ) = 0 := by
    norm_num [pandasMin, List.foldl_cons, List.foldl_nil, min_def]
  have hmax : pandasMax ([0, 5000, 5001] : List ℚ) = 5001 := by
    norm_num [pandasMax, List.foldl_cons, List.foldl_nil, max_def]
  have hedges : linspace 0 5001 1 = [0, 5001] := by
    norm_num [linspace, List.range_succ, List.range_zero]
  have hcut : cutBin (linspace (pandasMin (exScenario.map
      Keyframe.frame_time_ms)) (pandasMax (exScenario.map
      Keyframe.frame_time_ms)) 1) 1
      ((exScenario.map Keyframe.frame_time_ms).getD 1 0) = some 0 := by
    rw [hts, hmin, hmax, hedges]
    norm_num [cutBin, List.countP_cons, List.countP_nil]
  refine ⟨⟨by decide, by decide, le_refl 1⟩, ?_⟩
  refine C2_blackout_retention_amended qSqrt exScenario exScenario 1 1
    (by decide) (le_refl 1) (by decide) (Or.inr ⟨?_, 0, hcut, ?_⟩)
  · rw [hts, hmin, hmax]
    norm_num
  · intro j hj hne hcutj
    have hj3 : j < 3 := by simpa [exScenario] using hj
    interval_cases j
    · rw [hs0, hs1]; norm_num
    · exact absurd rfl hne
    · rw [hs2, hs1]; norm_num

/-!
### Sorted-axis and last-width lemmas (for C7)
-/

/-- On a strictly sorted axis, every index below `searchsorted(x, 'right')`
holds a value at most `x`. -/
theorem sorted_getD_le_of_lt_countP (ts : List ℚ) (x : ℚ)
    (hs : ts.Pairwise (· < ·)) :
    ∀ i, i < ts.countP (fun t => t ≤ x) → ts.getD i 0 ≤ x := by
  induction ts with
  | nil => intro i hi; simp [List.countP_nil] at hi
  | cons t rest ih =>
      intro i hi
      rw [List.pairwise_cons] at hs
      rw [List.countP_cons] at hi
      by_cases ht : t ≤ x
      · cases i with
        | zero => simpa using ht
        | succ j =>
            simp only [decide_eq_true_eq, ht, if_pos] at hi
            rw [List.getD_cons_succ]
            exact ih hs.2 j (by omega)
      · have hzero : rest.countP (fun t => t ≤ x) = 0 := by
          rw [List.countP_eq_zero]
          intro y hy
          simp only [decide_eq_true_eq]
          intro hyx
          exact ht (le_trans (le_of_lt (hs.1 y hy)) hyx)
        simp [hzero, ht] at hi

/-- On a strictly sorted axis, every in-range index at or beyond
`searchsorted(x, 'right')` holds a value strictly above `x`. -/
theorem sorted_lt_getD_of_countP_le (ts : List ℚ) (x : ℚ)
    (hs : ts.Pairwise (· < ·)) :
    ∀ i, ts.countP (fun t => t ≤ x) ≤ i → i < ts.length → x < ts.getD i 0 := by
  induction ts with
  | nil => intro i h1 h2; simp at h2
  | cons t rest ih =>
      intro i h1 h2
      rw [List.pairwise_cons] at hs
      rw [List.countP_cons] at h1
      by_cases ht : t ≤ x
      · simp only [decide_eq_true_eq, ht, if_pos] at h1
        cases i with
        | zero => omega
        | succ j =>
            rw [List.getD_cons_succ]
            exact ih hs.2 j (by omega) (by simpa using h2)
      · push_neg at ht
        cases i with
        | zero => simpa using ht
        | succ j =>
            rw [List.getD_cons_succ]
            have hj : j < rest.length := by simpa using h2
            have hmem : rest.getD j 0 ∈ rest := by
              rw [getD_of_lt _ _ _ hj]
              exact List.getElem_mem _
            exact lt_trans ht (hs.1 _ hmem)

theorem foldl_min_of_le (x : ℚ) (l : List ℚ) (h : ∀ y ∈ l, x ≤ y) :
    l.foldl min x = x := by
  induction l generalizing x with
  | nil => rfl
  | cons y ys ih =>
      rw [List.foldl_cons, min_eq_left (h y (List.mem_cons_self _ _))]
      exact ih x (fun z hz => h z (List.mem_cons_of_mem _ hz))

theorem getLastD_irrel {α : Type} (l : List α) (h : l ≠ []) (d₁ d₂ : α) :
    l.getLastD d₁ = l.getLastD d₂ := by
  rw [List.getLastD_eq_getLast?, List.getLastD_eq_getLast?]
  obtain ⟨a, ha⟩ := Option.isSome_iff_exists.mp (List.getLast?_isSome.mpr h)
  rw [ha]
  rfl

/-- `pandas.Series.min` of a strictly sorted nonempty column is its first
entry. -/
theorem pandasMin_sorted (ts : List ℚ) (hs : ts.Pairwise (· < ·))
    (hne : ts ≠ []) : pandasMin ts = ts.getD 0 0 := by
  cases ts with
  | nil => exact absurd rfl hne
  | cons t rest =>
      rw [List.pairwise_cons] at hs
      rw [pandasMin, List.getD_cons_zero]
      exact foldl_min_of_le t rest (fun y hy => le_of_lt (hs.1 y hy))

theorem foldl_max_sorted (t : ℚ) (ts : List ℚ)
    (hs : (t :: ts).Pairwise (· < ·)) :
    ts.foldl max t = (t :: ts).getLastD 0 := by
  induction ts generalizing t with
  | nil => rfl
  | cons y ys ih =>
      rw [List.pairwise_cons] at hs
      rw [List.foldl_cons,
        max_eq_right (le_of_lt (hs.1 y (List.mem_cons_self _ _))),
        List.getLastD_cons, ih y hs.2]
      exact getLastD_irrel (y :: ys) (by simp) 0 t

/-- `pandas.Series.max` of a strictly sorted nonempty column is its last
entry. -/
theorem pandasMax_sorted (ts : List ℚ) (hs : ts.Pairwise (· < ·))
    (hne : ts ≠ []) : pandasMax ts = ts.getLastD 0 := by
  cases ts with
  | nil => exact absurd rfl hne
  | cons t rest =>
      rw [pandasMax, foldl_max_sorted t rest hs]

theorem setLastWidth_length (bs : List RenderBlock) (w : ℚ) (h : bs ≠ []) :
    (setLastWidth bs w).length = bs.length := by
  cases bs with
  | nil => exact absurd rfl h
  | cons b rest =>
      rw [setLastWidth, List.length_append, List.length_dropLast]
      simp

theorem setLastWidth_getD_lt (bs : List RenderBlock) (w : ℚ) (i : ℕ)
    (hi : i + 1 < bs.length) :
    (setLastWidth bs w).getD i default = bs.getD i default := by
  cases bs with
  | nil => simp at hi
  | cons b rest =>
      rw [setLastWidth]
      have hlt : i < (b :: rest).dropLast.length := by
        rw [List.length_dropLast]
        omega
      rw [List.getD_append _ _ _ _ hlt, getD_of_lt _ _ _ hlt,
        List.getElem_dropLast, getD_of_lt _ _ _ (by omega)]

theorem setLastWidth_getD_last (bs : List RenderBlock) (w : ℚ) (h : bs ≠ []) :
    (setLastWidth bs w).getD (bs.length - 1) default =
      ⟨(bs.getLastD default).kf, w⟩ := by
  cases bs with
  | nil => exact absurd rfl h
  | cons b rest =>
      rw [setLastWidth]
      have hlen : (b :: rest).dropLast.length = (b :: rest).length - 1 := by
        rw [List.length_dropLast]
      rw [List.getD_append_right _ _ _ _ (by omega), hlen]
      simp

/-- The final block's displayed start time, as used by step 4. -/
theorem map_blockStart_getLastD (bs : List RenderBlock) (h : bs ≠ []) :
    (bs.map blockStart).getLastD 0 =
      blockStart (bs.getD (bs.length - 1) default) := by
  have hpos := List.length_pos.mpr h
  rw [getLastD_eq_getD, List.length_map,
    getD_of_lt _ _ _ (by rw [List.length_map]; omega), List.getElem_map,
    getD_of_lt _ _ _ (by omega)]

theorem map_width_getLastD (bs : List RenderBlock) (h : bs ≠ []) :
    (bs.map RenderBlock.width).getLastD 0 =
      (bs.getD (bs.length - 1) default).width := by
  have hpos := List.length_pos.mpr h
  rw [getLastD_eq_getD, List.length_map,
    getD_of_lt _ _ _ (by rw [List.length_map]; omega), List.getElem_map,
    getD_of_lt _ _ _ (by omega)]

/-- Behaviour of step 4: length, interior blocks and the final start are
untouched; the final block ends at the next source keyframe after its start
when one exists, otherwise at or beyond the viewport's right edge. -/
theorem fixLastWidth_spec (times : List ℚ) (xMax : ℚ)
    (bs : List RenderBlock) (h : bs ≠ []) :
    (fixLastWidth times xMax bs).length = bs.length
    ∧ (∀ i, i + 1 < bs.length →
        (fixLastWidth times xMax bs).getD i default = bs.getD i default)
    ∧ blockStart ((fixLastWidth times xMax bs).getD (bs.length - 1) default)
      = blockStart (bs.getD (bs.length - 1) default)
    ∧ (searchsortedRight times
          (blockStart (bs.getD (bs.length - 1) default)) < times.length →
        blockStart ((fixLastWidth times xMax bs).getD (bs.length - 1) default)
          + ((fixLastWidth times xMax bs).getD (bs.length - 1) default).width
          = times.getD (searchsortedRight times
              (blockStart (bs.getD (bs.length - 1) default))) 0)
    ∧ (times.length ≤ searchsortedRight times
          (blockStart (bs.getD (bs.length - 1) default)) →
        xMax ≤ blockStart ((fixLastWidth times xMax bs).getD
            (bs.length - 1) default)
          + ((fixLastWidth times xMax bs).getD (bs.length - 1) default).width) := by
  have hls : (bs.map blockStart).getLastD 0 =
      blockStart (bs.getD (bs.length - 1) default) :=
    map_blockStart_getLastD bs h
  have hlw : (bs.map RenderBlock.width).getLastD 0 =
      (bs.getD (bs.length - 1) default).width := map_width_getLastD bs h
  have hkf : (bs.getLastD default).kf = (bs.getD (bs.length - 1) default).kf := by
    rw [getLastD_eq_getD]
  rw [fixLastWidth, hls, hlw]
  split_ifs with h1 h2
  · refine ⟨setLastWidth_length bs _ h,
      fun i hi => setLastWidth_getD_lt bs _ i hi, ?_, ?_, ?_⟩
    · rw [setLastWidth_getD_last bs _ h, blockStart, blockStart]
      rw [hkf]
    · intro h1'
      rw [setLastWidth_getD_last bs _ h]
      show ((⟨(bs.getLastD default).kf, _⟩ : RenderBlock)).kf.frame_time_ms
          + _ = _
      rw [hkf]
      show (bs.getD (bs.length - 1) default).kf.frame_time_ms +
        (times.getD (searchsortedRight times
          (blockStart (bs.getD (bs.length - 1) default))) 0
          - blockStart (bs.getD (bs.length - 1) default)) = _
      rw [blockStart]
      ring
    · intro h1'
      omega
  · refine ⟨setLastWidth_length bs _ h,
      fun i hi => setLastWidth_getD_lt bs _ i hi, ?_, ?_, ?_⟩
    · rw [setLastWidth_getD_last bs _ h, blockStart, blockStart]
      rw [hkf]
    · intro h1'
      exact absurd h1' h1
    · intro h1'
      rw [setLastWidth_getD_last bs _ h]
      show xMax ≤ ((⟨(bs.getLastD default).kf, _⟩ : RenderBlock)).kf.frame_time_ms + _
      rw [hkf]
      show xMax ≤ (bs.getD (bs.length - 1) default).kf.frame_time_ms +
        (xMax - blockStart (bs.getD (bs.length - 1) default))
      rw [blockStart]
      ring_nf
      exact le_refl xMax
  · refine ⟨rfl, fun i hi => rfl, rfl, ?_, ?_⟩
    · intro h1'
      exact absurd h1' h1
    · intro h1'
      push_neg at h2
      linarith [h2]

/-- `searchsorted` counts are monotone in the threshold. -/
theorem countP_le_mono (l : List ℚ) (x y : ℚ) (hxy : x ≤ y) :
    l.countP (fun t => t ≤ x) ≤ l.countP (fun t => t ≤ y) :=
  List.countP_mono_left (fun a _ ha => by
    simp only [decide_eq_true_eq] at ha ⊢
    exact le_trans ha hxy)

/-- Steps 1–3 of `process_data` on a strictly sorted axis with a lead-in
keyframe at or before the viewport: the clamped visible slice is nonempty,
its time column is still strictly sorted, and its first displayed time is
at or before `x_min`. -/
theorem slice_clamp_spec (df : List Keyframe) (xMin xMax : ℚ)
    (hsorted : (df.map Keyframe.frame_time_ms).Pairwise (· < ·))
    (hlead : ∃ f ∈ df, f.frame_time_ms ≤ xMin) (hx : xMin ≤ xMax) :
    clampHead (sliceVisible df xMin xMax) xMin ≠ []
    ∧ ((clampHead (sliceVisible df xMin xMax) xMin).map
        Keyframe.frame_time_ms).Pairwise (· < ·)
    ∧ ((clampHead (sliceVisible df xMin xMax) xMin).map
        Keyframe.frame_time_ms).getD 0 0 ≤ xMin := by
  obtain ⟨f, hf, hfx⟩ := hlead
  set ts := df.map Keyframe.frame_time_ms with hts
  have hcount : ts.countP (fun t => t ≤ xMin) = searchsortedRight ts xMin := by
    rw [searchsortedRight]
  have hs1 : 1 ≤ searchsortedRight ts xMin := by
    rw [← hcount]
    have hpos : 0 < ts.countP (fun t => t ≤ xMin) := by
      rw [List.countP_pos_iff]
      exact ⟨f.frame_time_ms, List.mem_map_of_mem _ hf, by simpa using hfx⟩
    omega
  have hsle : searchsortedRight ts xMin ≤ ts.length := List.countP_le_length _
  have hmono : searchsortedRight ts xMin ≤ searchsortedRight ts xMax :=
    countP_le_mono ts xMin xMax hx
  set s := searchsortedRight ts xMin with hsdef
  set e := min (searchsortedRight ts xMax + 1) ts.length with hedef
  have hse : s - 1 < e := by
    rw [hedef]
    exact lt_min (by omega) (by omega)
  have hel : e ≤ ts.length := min_le_right _ _
  have hdflen : ts.length = df.length := by rw [hts, List.length_map]
  have hslice : sliceVisible df xMin xMax =
      (df.drop (s - 1)).take (e - (s - 1)) := by
    rw [sliceVisible, ← hts, ← hsdef, ← hedef]
  have hslen : (sliceVisible df xMin xMax).length = e - (s - 1) := by
    rw [hslice, List.length_take, List.length_drop,
      min_eq_left (by omega)]
  have hslice_ne : sliceVisible df xMin xMax ≠ [] := by
    intro h
    rw [h] at hslen
    simp at hslen
    omega
  have hslicemap : (sliceVisible df xMin xMax).map Keyframe.frame_time_ms =
      (ts.drop (s - 1)).take (e - (s - 1)) := by
    rw [hslice, List.map_take, List.map_drop, ← hts]
  have hslicesorted : ((sliceVisible df xMin xMax).map
      Keyframe.frame_time_ms).Pairwise (· < ·) := by
    rw [hslicemap]
    exact hsorted.sublist
      (List.Sublist.trans (List.take_sublist _ _) (List.drop_sublist _ _))
  have hidx : ∀ i, i < e - (s - 1) →
      ((sliceVisible df xMin xMax).map Keyframe.frame_time_ms).getD i 0 =
        ts.getD (s - 1 + i) 0 := by
    intro i hi
    have hlt : s - 1 + i < ts.length := by omega
    have h1 : i < ((ts.drop (s - 1)).take (e - (s - 1))).length := by
      rw [List.length_take, List.length_drop]
      omega
    rw [hslicemap, getD_of_lt _ _ _ h1, List.getElem_take, List.getElem_drop,
      getD_of_lt _ _ _ hlt]
  have hhead : ((sliceVisible df xMin xMax).map
      Keyframe.frame_time_ms).getD 0 0 ≤ xMin := by
    rw [hidx 0 (by omega)]
    exact sorted_getD_le_of_lt_countP ts xMin hsorted (s - 1 + 0)
      (by rw [hcount]; omega)
  obtain ⟨g, rest, hcons⟩ :
      ∃ g rest, sliceVisible df xMin xMax = g :: rest := by
    cases hsv : sliceVisible df xMin xMax with
    | nil => exact absurd hsv hslice_ne
    | cons g rest => exact ⟨g, rest, rfl⟩
  have hslen' : rest.length + 1 = e - (s - 1) := by
    rw [hcons] at hslen
    simpa using hslen
  have hg0 : g.frame_time_ms ≤ xMin := by
    rw [hcons, List.map_cons, List.getD_cons_zero] at hhead
    exact hhead
  have hresty : ∀ y ∈ rest.map Keyframe.frame_time_ms, xMin < y := by
    intro y hy
    obtain ⟨j, hj, hjy⟩ := List.getElem_of_mem hy
    have hj' : j + 1 < e - (s - 1) := by
      rw [List.length_map] at hj
      omega
    have hy' : ((sliceVisible df xMin xMax).map
        Keyframe.frame_time_ms).getD (j + 1) 0 = y := by
      rw [hcons, List.map_cons, List.getD_cons_succ, getD_of_lt _ _ _ hj, hjy]
    rw [← hy', hidx (j + 1) hj']
    exact sorted_lt_getD_of_countP_le ts xMin hsorted (s - 1 + (j + 1))
      (by rw [hcount]; omega) (by omega)
  refine ⟨?_, ?_, ?_⟩
  · rw [hcons]
    simp [clampHead]
  · rw [hcons] at hslicesorted ⊢
    rw [List.map_cons, List.pairwise_cons] at hslicesorted
    simp only [clampHead, List.map_cons]
    rw [List.pairwise_cons]
    refine ⟨?_, hslicesorted.2⟩
    intro y hy
    have hxy := hresty y hy
    split_ifs with hg
    · simpa using hxy
    · exact lt_of_le_of_lt hg0 hxy
  · rw [hcons]
    simp only [clampHead, List.map_cons, List.getD_cons_zero]
    split_ifs with hg
    · simp
    · exact hg0

/-- A boolean predicate over `0, …, n` that holds exactly at `0` is counted
once. -/
theorem countP_range_eq_one (p : ℕ → Bool) (n : ℕ) (h0 : p 0 = true)
    (h : ∀ j, 1 ≤ j → p j = false) :
    (List.range (n + 1)).countP p = 1 := by
  induction n with
  | zero =>
      rw [show List.range 1 = [0] from rfl]
      simp [List.countP_cons, h0]
  | succ m ih =>
      rw [List.range_succ, List.countP_append, ih]
      simp [List.countP_cons, h (m + 1) (by omega)]

/-- Only the left endpoint of a nondegenerate `linspace` lies at or below
its left endpoint. -/
theorem linspace_countP_left (a b : ℚ) (n : ℕ) (hab : a < b) (hn : n ≠ 0) :
    (linspace a b n).countP (fun e => e ≤ a) = 1 := by
  rw [linspace, List.countP_map]
  apply countP_range_eq_one
  · norm_num [Function.comp]
  intro j hj
  simp only [Function.comp_apply, decide_eq_false_iff_not, not_le]
  have hn' : (0 : ℚ) < (n : ℚ) := by
    exact_mod_cast Nat.pos_of_ne_zero hn
  have hj' : (1 : ℚ) ≤ (j : ℚ) := by exact_mod_cast hj
  have hpos : 0 < (b - a) * (j : ℚ) / (n : ℚ) :=
    div_pos (mul_pos (by linarith) (by linarith)) hn'
  linarith

/-- `linspace` starts at its left endpoint. -/
theorem linspace_getD_zero (a b : ℚ) (n : ℕ) :
    (linspace a b n).getD 0 0 = a := by
  have h0 : 0 < (linspace a b n).length := by
    rw [linspace, List.length_map, List.length_range]
    omega
  rw [getD_of_lt _ _ _ h0]
  simp only [linspace, List.getElem_map, List.getElem_range]
  norm_num

/-- The left endpoint of the binning range always receives bin `0`. -/
theorem cutBin_min (a b : ℚ) (n : ℕ) (hab : a < b) (hn : 1 ≤ n) :
    cutBin (linspace a b n) n a = some 0 := by
  rw [cutBin, linspace_countP_left a b n hab (by omega)]
  rw [if_neg (by omega)]

/-- A bin holding at least one row is assigned a frame by `idxmax`. -/
theorem binToFrame_isSome_of_mem (scores ts edges : List ℚ)
    (numBins k j : ℕ) (hj : j < ts.length)
    (hcut : cutBin edges numBins (ts.getD j 0) = some k) :
    ∃ i, binToFrame scores ts edges numBins k = some i := by
  rw [binToFrame, idxmaxFrom]
  have hmem : j ∈ (List.range ts.length).filter
      (fun i => cutBin edges numBins (ts.getD i 0) = some k) := by
    rw [List.mem_filter]
    exact ⟨List.mem_range.mpr hj, by simpa using hcut⟩
  cases hfl : (List.range ts.length).filter
      (fun i => cutBin edges numBins (ts.getD i 0) = some k) with
  | nil =>
      rw [hfl] at hmem
      simp at hmem
  | cons a rest =>
      rw [List.foldl_cons, idxmaxStep_none]
      exact Option.isSome_iff_exists.mp
        (idxmax_fold_isSome scores rest (some a) rfl)

/-- When bin `0` is assigned a frame, the emission loop emits it first. -/
theorem emitBins_head (b2f : ℕ → Option ℕ) (numBins : ℕ) (i : ℕ)
    (hn : 1 ≤ numBins) (h0 : b2f 0 = some i) :
    ∃ tail, emitBins b2f numBins = (0, i) :: tail := by
  obtain ⟨m, rfl⟩ : ∃ m, numBins = m + 1 := ⟨numBins - 1, by omega⟩
  rw [emitBins, List.range_succ_eq_map, List.foldl_cons]
  have hstep : emitStep b2f ([], none) 0 = ([(0, i)], some i) := by
    rw [emitStep_some b2f ([], none) 0 i h0]
    simp
  rw [hstep]
  obtain ⟨suf, hsuf⟩ :=
    emitFold_prefix b2f ((List.range m).map Nat.succ) ([(0, i)], some i)
  exact ⟨suf, by rw [hsuf]; rfl⟩

/-- Transfer of coverage facts through step 4 (`fixLastWidth`): a nonempty
block list whose first block starts at or before `x_min` and whose blocks
are interior-contiguous keeps all three properties, and its final block
ends at the next source keyframe after its start when one exists, else at
or beyond `x_max`. -/
theorem processData_blocks_spec (times : List ℚ) (xMax xMin : ℚ)
    (bs0 : List RenderBlock) (h : bs0 ≠ [])
    (hfirst : blockStart (bs0.getD 0 default) ≤ xMin)
    (hcontig : ∀ i, i + 1 < bs0.length →
      blockStart (bs0.getD i default) + (bs0.getD i default).width
        = blockStart (bs0.getD (i + 1) default)) :
    fixLastWidth times xMax bs0 ≠ []
    ∧ blockStart ((fixLastWidth times xMax bs0).getD 0 default) ≤ xMin
    ∧ (∀ i, i + 1 < (fixLastWidth times xMax bs0).length →
        blockStart ((fixLastWidth times xMax bs0).getD i default)
          + ((fixLastWidth times xMax bs0).getD i default).width
          = blockStart ((fixLastWidth times xMax bs0).getD (i + 1) default))
    ∧ (searchsortedRight times
          (blockStart ((fixLastWidth times xMax bs0).getD
            ((fixLastWidth times xMax bs0).length - 1) default))
          < times.length →
        blockStart ((fixLastWidth times xMax bs0).getD
            ((fixLastWidth times xMax bs0).length - 1) default)
          + ((fixLastWidth times xMax bs0).getD
              ((fixLastWidth times xMax bs0).length - 1) default).width
          = times.getD (searchsortedRight times
              (blockStart ((fixLastWidth times xMax bs0).getD
                ((fixLastWidth times xMax bs0).length - 1) default))) 0)
    ∧ (times.length ≤ searchsortedRight times
          (blockStart ((fixLastWidth times xMax bs0).getD
            ((fixLastWidth times xMax bs0).length - 1) default)) →
        xMax ≤ blockStart ((fixLastWidth times xMax bs0).getD
            ((fixLastWidth times xMax bs0).length - 1) default)
          + ((fixLastWidth times xMax bs0).getD
              ((fixLastWidth times xMax bs0).length - 1) default).width) := by
  obtain ⟨hlen, hint, hlaststart, hnext, hbeyond⟩ :=
    fixLastWidth_spec times xMax bs0 h
  have hpos : 0 < bs0.length := List.length_pos.mpr h
  refine ⟨?_, ?_, ?_, ?_, ?_⟩
  · intro habs
    rw [habs] at hlen
    simp at hlen
    omega
  · rcases Nat.lt_or_ge 1 bs0.length with h2 | h2
    · rw [hint 0 (by omega)]
      exact hfirst
    · have h1 : bs0.length - 1 = 0 := by omega
      rw [← h1, hlaststart, h1]
      exact hfirst
  · intro i hi
    rw [hlen] at hi
    rcases Nat.lt_or_ge (i + 2) bs0.length with h2 | h2
    · rw [hint i (by omega), hint (i + 1) (by omega)]
      exact hcontig i hi
    · have h1 : i + 1 = bs0.length - 1 := by omega
      rw [hint i (by omega), h1, hlaststart, ← h1]
      exact hcontig i hi
  · rw [hlen, hlaststart]
    intro h5
    have h6 := hnext h5
    rw [hlaststart] at h6
    exact h6
  · rw [hlen, hlaststart]
    intro h5
    have h6 := hbeyond h5
    rw [hlaststart] at h6
    exact h6

/-- Claim C7, amended: on a strictly sorted keyframe axis with at least one
keyframe at or before the viewport start, `process_data` emits a nonempty
block list whose first block starts at or before `visible_start_ms` and
whose blocks are contiguous (each block ends exactly where the next
starts); but the final block ends at the first source keyframe strictly
after its start when one exists — which can fall well short of
`visible_end_ms` — and only when no such keyframe exists is it extended to
at least `visible_end_ms`. -/
theorem C7_coverage_amended (sqrtFn : ℚ → ℚ) (df : List Keyframe)
    (xMin xMax px : ℚ) (bs : List RenderBlock) (isRaw : Bool)
    (hsorted : (df.map Keyframe.frame_time_ms).Pairwise (· < ·))
    (hlead : ∃ f ∈ df, f.frame_time_ms ≤ xMin)
    (hx : xMin ≤ xMax) (hpx : 6 ≤ px)
    (hrun : processData sqrtFn df xMin xMax px = (bs, isRaw)) :
    bs ≠ []
    ∧ blockStart (bs.getD 0 default) ≤ xMin
    ∧ (∀ i, i + 1 < bs.length →
        blockStart (bs.getD i default) + (bs.getD i default).width
          = blockStart (bs.getD (i + 1) default))
    ∧ (searchsortedRight (df.map Keyframe.frame_time_ms)
          (blockStart (bs.getD (bs.length - 1) default))
          < (df.map Keyframe.frame_time_ms).length →
        blockStart (bs.getD (bs.length - 1) default)
          + (bs.getD (bs.length - 1) default).width
          = (df.map Keyframe.frame_time_ms).getD
              (searchsortedRight (df.map Keyframe.frame_time_ms)
                (blockStart (bs.getD (bs.length - 1) default))) 0)
    ∧ ((df.map Keyframe.frame_time_ms).length ≤
          searchsortedRight (df.map Keyframe.frame_time_ms)
            (blockStart (bs.getD (bs.length - 1) default)) →
        xMax ≤ blockStart (bs.getD (bs.length - 1) default)
          + (bs.getD (bs.length - 1) default).width) := by
  obtain ⟨hne2, hsorted2, hhead2⟩ := slice_clamp_spec df xMin xMax hsorted hlead hx
  have hdfne : df ≠ [] := by
    obtain ⟨f, hf, -⟩ := hlead
    exact List.ne_nil_of_mem hf
  have hnbpos : 1 ≤ min ((clampHead (sliceVisible df xMin xMax) xMin).length : ℤ)
      (pyTrunc (px / 6)) := by
    refine le_min ?_ ?_
    · exact_mod_cast List.length_pos.mpr hne2
    · rw [pyTrunc, if_pos (by linarith)]
      exact Int.le_floor.mpr (by push_cast; linarith)
  rw [processData, if_neg (by simp [List.isEmpty_iff, hdfne])] at hrun
  simp only [] at hrun
  rw [if_neg (by simp [List.isEmpty_iff, hne2])] at hrun
  rw [if_neg (show ¬ (min ((clampHead (sliceVisible df xMin xMax) xMin).length : ℤ)
      (pyTrunc (px / 6)) ≤ 0) by omega)] at hrun
  set dfv2 := clampHead (sliceVisible df xMin xMax) xMin with hdfv2
  set N := (min (dfv2.length : ℤ) (pyTrunc (px / 6))).toNat with hN
  have hnb : N ≠ 0 := by omega
  have hN1 : 1 ≤ N := by omega
  by_cases hraw : dfv2.length ≤ N
  · -- raw mode
    have hagg : aggregateData sqrtFn dfv2 N df =
        .blocks (mkBlocks dfv2
          (rawLastWidth (df.map Keyframe.frame_time_ms)
            ((dfv2.map Keyframe.frame_time_ms).getLastD 0))) true := by
      rw [aggregateData, if_neg (by simp [List.isEmpty_iff, hne2, hnb]),
        if_pos hraw]
    rw [hagg] at hrun
    have hrun2 : (fixLastWidth (df.map Keyframe.frame_time_ms) xMax
        (mkBlocks dfv2
          (rawLastWidth (df.map Keyframe.frame_time_ms)
            ((dfv2.map Keyframe.frame_time_ms).getLastD 0))), true)
        = (bs, isRaw) := hrun
    have hbs : fixLastWidth (df.map Keyframe.frame_time_ms) xMax
        (mkBlocks dfv2
          (rawLastWidth (df.map Keyframe.frame_time_ms)
            ((dfv2.map Keyframe.frame_time_ms).getLastD 0))) = bs :=
      congrArg Prod.fst hrun2
    have hbs0ne : mkBlocks dfv2
        (rawLastWidth (df.map Keyframe.frame_time_ms)
          ((dfv2.map Keyframe.frame_time_ms).getLastD 0)) ≠ [] := by
      intro habs
      have hl := mkBlocks_length dfv2
        (rawLastWidth (df.map Keyframe.frame_time_ms)
          ((dfv2.map Keyframe.frame_time_ms).getLastD 0)) hne2
      rw [habs] at hl
      exact hne2 (List.length_eq_zero.mp hl.symm)
    have hfirst : blockStart ((mkBlocks dfv2
        (rawLastWidth (df.map Keyframe.frame_time_ms)
          ((dfv2.map Keyframe.frame_time_ms).getLastD 0))).getD 0 default)
        ≤ xMin := by
      rw [mkBlocks_getD _ _ 0 (List.length_pos.mpr hne2), blockStart,
        ← map_time_getD dfv2 0 (List.length_pos.mpr hne2)]
      exact hhead2
    rw [← hbs]
    refine processData_blocks_spec (df.map Keyframe.frame_time_ms) xMax xMin
      _ hbs0ne hfirst ?_
    intro i hi
    rw [mkBlocks_length _ _ hne2] at hi
    exact mkBlocks_contiguous dfv2 _ i hi
  · -- binned mode
    have hts2ne : dfv2.map Keyframe.frame_time_ms ≠ [] := by
      intro habs
      exact hne2 (List.map_eq_nil.mp habs)
    have hts2len : (dfv2.map Keyframe.frame_time_ms).length = dfv2.length :=
      List.length_map _ _
    have hlen2 : 2 ≤ dfv2.length := by omega
    have hminval : pandasMin (dfv2.map Keyframe.frame_time_ms) =
        (dfv2.map Keyframe.frame_time_ms).getD 0 0 :=
      pandasMin_sorted _ hsorted2 hts2ne
    have hmaxval : pandasMax (dfv2.map Keyframe.frame_time_ms) =
        (dfv2.map Keyframe.frame_time_ms).getD
          ((dfv2.map Keyframe.frame_time_ms).length - 1) 0 := by
      rw [pandasMax_sorted _ hsorted2 hts2ne, getLastD_eq_getD]
    have hlt : (dfv2.map Keyframe.frame_time_ms).getD 0 0 <
        (dfv2.map Keyframe.frame_time_ms).getD
          ((dfv2.map Keyframe.frame_time_ms).length - 1) 0 := by
      rw [getD_of_lt _ _ _ (by omega), getD_of_lt _ _ _ (by omega)]
      exact List.pairwise_iff_get.mp hsorted2 ⟨0, by omega⟩
        ⟨(dfv2.map Keyframe.frame_time_ms).length - 1, by omega⟩
        (Fin.mk_lt_mk.mpr (by omega))
    have hminmax : pandasMin (dfv2.map Keyframe.frame_time_ms) <
        pandasMax (dfv2.map Keyframe.frame_time_ms) := by
      rw [hminval, hmaxval]
      exact hlt
    have hmm : ¬ pandasMax (dfv2.map Keyframe.frame_time_ms) ≤
        pandasMin (dfv2.map Keyframe.frame_time_ms) := not_le_of_lt hminmax
    have hcut0 : cutBin (linspace (pandasMin (dfv2.map Keyframe.frame_time_ms))
        (pandasMax (dfv2.map Keyframe.frame_time_ms)) N) N
        ((dfv2.map Keyframe.frame_time_ms).getD 0 0) = some 0 := by
      rw [← hminval]
      exact cutBin_min _ _ N hminmax hN1
    obtain ⟨i₀, hb2f0⟩ := binToFrame_isSome_of_mem
      (importanceScores sqrtFn dfv2) (dfv2.map Keyframe.frame_time_ms)
      (linspace (pandasMin (dfv2.map Keyframe.frame_time_ms))
        (pandasMax (dfv2.map Keyframe.frame_time_ms)) N) N 0 0
      (by omega) hcut0
    obtain ⟨tail, hemit⟩ := emitBins_head
      (binToFrame (importanceScores sqrtFn dfv2)
        (dfv2.map Keyframe.frame_time_ms)
        (linspace (pandasMin (dfv2.map Keyframe.frame_time_ms))
          (pandasMax (dfv2.map Keyframe.frame_time_ms)) N) N) N i₀ hN1 hb2f0
    have hagg := aggregateData_binned_eq sqrtFn dfv2 df N
      ({ kfAt dfv2 i₀ with frame_time_ms :=
        (linspace (pandasMin (dfv2.map Keyframe.frame_time_ms))
          (pandasMax (dfv2.map Keyframe.frame_time_ms)) N).getD 0 0 })
      (tail.map (fun p => { kfAt dfv2 p.2 with frame_time_ms :=
        (linspace (pandasMin (dfv2.map Keyframe.frame_time_ms))
          (pandasMax (dfv2.map Keyframe.frame_time_ms)) N).getD p.1 0 }))
      hne2 hnb hraw hmm (by rw [hemit, List.map_cons])
    rw [hagg] at hrun
    have hrun2 : (fixLastWidth (df.map Keyframe.frame_time_ms) xMax
        (mkBlocks ({ kfAt dfv2 i₀ with frame_time_ms :=
            (linspace (pandasMin (dfv2.map Keyframe.frame_time_ms))
              (pandasMax (dfv2.map Keyframe.frame_time_ms)) N).getD 0 0 }
          :: tail.map (fun p => { kfAt dfv2 p.2 with frame_time_ms :=
            (linspace (pandasMin (dfv2.map Keyframe.frame_time_ms))
              (pandasMax (dfv2.map Keyframe.frame_time_ms)) N).getD p.1 0 }))
          (pandasMax (dfv2.map Keyframe.frame_time_ms) -
            (({ kfAt dfv2 i₀ with frame_time_ms :=
              (linspace (pandasMin (dfv2.map Keyframe.frame_time_ms))
                (pandasMax (dfv2.map Keyframe.frame_time_ms)) N).getD 0 0 }
              :: tail.map (fun p => { kfAt dfv2 p.2 with frame_time_ms :=
                (linspace (pandasMin (dfv2.map Keyframe.frame_time_ms))
                  (pandasMax (dfv2.map Keyframe.frame_time_ms)) N).getD p.1 0 })).map
                Keyframe.frame_time_ms).getLastD 0)), false)
        = (bs, isRaw) := hrun
    have hbs := congrArg Prod.fst hrun2
    simp only [] at hbs
    have hrowsne : ({ kfAt dfv2 i₀ with frame_time_ms :=
        (linspace (pandasMin (dfv2.map Keyframe.frame_time_ms))
          (pandasMax (dfv2.map Keyframe.frame_time_ms)) N).getD 0 0 }
        :: tail.map (fun p => { kfAt dfv2 p.2 with frame_time_ms :=
          (linspace (pandasMin (dfv2.map Keyframe.frame_time_ms))
            (pandasMax (dfv2.map Keyframe.frame_time_ms)) N).getD p.1 0 }))
        ≠ ([] : List Keyframe) := by simp
    have hbs0ne : mkBlocks ({ kfAt dfv2 i₀ with frame_time_ms :=
        (linspace (pandasMin (dfv2.map Keyframe.frame_time_ms))
          (pandasMax (dfv2.map Keyframe.frame_time_ms)) N).getD 0 0 }
        :: tail.map (fun p => { kfAt dfv2 p.2 with frame_time_ms :=
          (linspace (pandasMin (dfv2.map Keyframe.frame_time_ms))
            (pandasMax (dfv2.map Keyframe.frame_time_ms)) N).getD p.1 0 }))
        (pandasMax (dfv2.map Keyframe.frame_time_ms) -
          (({ kfAt dfv2 i₀ with frame_time_ms :=
            (linspace (pandasMin (dfv2.map Keyframe.frame_time_ms))
              (pandasMax (dfv2.map Keyframe.frame_time_ms)) N).getD 0 0 }
            :: tail.map (fun p => { kfAt dfv2 p.2 with frame_time_ms :=
              (linspace (pandasMin (dfv2.map Keyframe.frame_time_ms))
                (pandasMax (dfv2.map Keyframe.frame_time_ms)) N).getD p.1 0 })).map
              Keyframe.frame_time_ms).getLastD 0) ≠ [] := by
      intro habs
      have hl := mkBlocks_length _ (pandasMax (dfv2.map Keyframe.frame_time_ms) -
          (({ kfAt dfv2 i₀ with frame_time_ms :=
            (linspace (pandasMin (dfv2.map Keyframe.frame_time_ms))
              (pandasMax (dfv2.map Keyframe.frame_time_ms)) N).getD 0 0 }
            :: tail.map (fun p => { kfAt dfv2 p.2 with frame_time_ms :=
              (linspace (pandasMin (dfv2.map Keyframe.frame_time_ms))
                (pandasMax (dfv2.map Keyframe.frame_time_ms)) N).getD p.1 0 })).map
              Keyframe.frame_time_ms).getLastD 0) hrowsne
      rw [habs] at hl
      simp at hl
    have hfirst : blockStart ((mkBlocks ({ kfAt dfv2 i₀ with frame_time_ms :=
        (linspace (pandasMin (dfv2.map Keyframe.frame_time_ms))
          (pandasMax (dfv2.map Keyframe.frame_time_ms)) N).getD 0 0 }
        :: tail.map (fun p => { kfAt dfv2 p.2 with frame_time_ms :=
          (linspace (pandasMin (dfv2.map Keyframe.frame_time_ms))
            (pandasMax (dfv2.map Keyframe.frame_time_ms)) N).getD p.1 0 }))
        (pandasMax (dfv2.map Keyframe.frame_time_ms) -
          (({ kfAt dfv2 i₀ with frame_time_ms :=
            (linspace (pandasMin (dfv2.map Keyframe.frame_time_ms))
              (pandasMax (dfv2.map Keyframe.frame_time_ms)) N).getD 0 0 }
            :: tail.map (fun p => { kfAt dfv2 p.2 with frame_time_ms :=
              (linspace (pandasMin (dfv2.map Keyframe.frame_time_ms))
                (pandasMax (dfv2.map Keyframe.frame_time_ms)) N).getD p.1 0 })).map
              Keyframe.frame_time_ms).getLastD 0)).getD 0 default) ≤ xMin := by
      rw [mkBlocks_getD _ _ 0 (by simp), blockStart]
      simp only [List.getD_cons_zero]
      show (linspace (pandasMin (dfv2.map Keyframe.frame_time_ms))
        (pandasMax (dfv2.map Keyframe.frame_time_ms)) N).getD 0 0 ≤ xMin
      rw [linspace_getD_zero, hminval]
      exact hhead2
    rw [← hbs]
    refine processData_blocks_spec (df.map Keyframe.frame_time_ms) xMax xMin
      _ hbs0ne hfirst ?_
    intro i hi
    rw [mkBlocks_length _ _ hrowsne] at hi
    exact mkBlocks_contiguous _ _ i hi

/-- Distance root between `exB2` and `exFar` (equal colors). -/
theorem exDist_B2Far (ch : Fin 10) :
    qSqrt ((((exB2.chans ch).1 - (exFar.chans ch).1) ^ 2
      + ((exB2.chans ch).2.1 - (exFar.chans ch).2.1) ^ 2
      + ((exB2.chans ch).2.2 - (exFar.chans ch).2.2) ^ 2 : ℤ) : ℚ) = 0 := by
  norm_num [exB2, exFar, qSqrt_0]

/-- Distance root between `exFar` and `exB2` (equal colors). -/
theorem exDist_FarB2 (ch : Fin 10) :
    qSqrt ((((exFar.chans ch).1 - (exB2.chans ch).1) ^ 2
      + ((exFar.chans ch).2.1 - (exB2.chans ch).2.1) ^ 2
      + ((exFar.chans ch).2.2 - (exB2.chans ch).2.2) ^ 2 : ℤ) : ℚ) = 0 := by
  norm_num [exB2, exFar, qSqrt_0]

/-- Scores over `exTripleB`: all three frames tie at 20. -/
theorem exTripleB_scores :
    scoreAt qSqrt exTripleB 0 = 20 ∧ scoreAt qSqrt exTripleB 1 = 20
    ∧ scoreAt qSqrt exTripleB 2 = 20 := by
  have hcdp0 : colorDistPrev qSqrt exTripleB 0 = 0 := by
    rw [colorDistPrev, if_pos rfl]
  have hcdn0 : colorDistNext qSqrt exTripleB 0 = 0 := by
    rw [colorDistNext, if_neg (by norm_num [exTripleB])]
    rw [show kfAt exTripleB 0 = exNavy from rfl,
      show kfAt exTripleB 1 = exB2 from rfl,
      colorDistTo_const qSqrt exNavy exB2 0 exDist_same]
    norm_num
  have hcdp1 : colorDistPrev qSqrt exTripleB 1 = 0 := by
    rw [colorDistPrev, if_neg (by norm_num)]
    rw [show kfAt exTripleB 1 = exB2 from rfl,
      show kfAt exTripleB 0 = exNavy from rfl,
      colorDistTo_const qSqrt exB2 exNavy 0 exDist_same']
    norm_num
  have hcdn1 : colorDistNext qSqrt exTripleB 1 = 0 := by
    rw [colorDistNext, if_neg (by norm_num [exTripleB])]
    rw [show kfAt exTripleB 1 = exB2 from rfl,
      show kfAt exTripleB 2 = exFar from rfl,
      colorDistTo_const qSqrt exB2 exFar 0 exDist_B2Far]
    norm_num
  have hcdp2 : colorDistPrev qSqrt exTripleB 2 = 0 := by
    rw [colorDistPrev, if_neg (by norm_num)]
    rw [show kfAt exTripleB 2 = exFar from rfl,
      show kfAt exTripleB 1 = exB2 from rfl,
      colorDistTo_const qSqrt exFar exB2 0 exDist_FarB2]
    norm_num
  have hcdn2 : colorDistNext qSqrt exTripleB 2 = 0 := by
    rw [colorDistNext, if_pos (by norm_num [exTripleB])]
  refine ⟨?_, ?_, ?_⟩
  · rw [scoreAt_eval qSqrt exTripleB 0 (by norm_num [exTripleB]) 90 90 90 0 0
      (by decide) (by decide) (by decide) hcdp0 hcdn0]
    norm_num
  · rw [scoreAt_eval qSqrt exTripleB 1 (by norm_num [exTripleB]) 90 90 90 0 0
      (by decide) (by decide) (by decide) hcdp1 hcdn1]
    norm_num
  · rw [scoreAt_eval qSqrt exTripleB 2 (by norm_num [exTripleB]) 90 90 90 0 0
      (by decide) (by decide) (by decide) hcdp2 hcdn2]
    norm_num

/-- Counterexample to claim C7 as stated: three keyframes at
`t = 0, 1, 100`, identically colored, viewed over `[-50, 100]` at 12 px.
All scores tie, binning keeps only the frame at `t = 0`, and step 4 then
shrinks the single block's width to the gap to the next source keyframe:
the output is one block `[0, 1)`.  Its start (0) lies strictly after
`visible_start_ms = -50` and its end (1) strictly before
`visible_end_ms = 100`: the claimed full coverage of the visible range
fails on both sides. -/
theorem C7_coverage_counterexample :
    processData qSqrt exTripleB (-50) 100 12 = ([⟨exNavy, 1⟩], false)
    ∧ ¬ (blockStart ((processData qSqrt exTripleB (-50) 100 12).1.getD 0
          default) ≤ -50)
    ∧ ¬ ((100 : ℚ) ≤
          blockStart ((processData qSqrt exTripleB (-50) 100 12).1.getD 0
            default)
          + ((processData qSqrt exTripleB (-50) 100 12).1.getD 0
              default).width) := by
  obtain ⟨hsc0, hsc1, hsc2⟩ := exTripleB_scores
  have hts : exTripleB.map Keyframe.frame_time_ms = [0, 1, 100] := rfl
  have hs1 : searchsortedRight ([0, 1, 100] : List ℚ) (-50) = 0 := by
    norm_num [searchsortedRight, List.countP_cons, List.countP_nil]
  have hs2 : searchsortedRight ([0, 1, 100] : List ℚ) 100 = 3 := by
    norm_num [searchsortedRight, List.countP_cons, List.countP_nil]
  have hss0 : searchsortedRight ([0, 1, 100] : List ℚ) 0 = 1 := by
    norm_num [searchsortedRight, List.countP_cons, List.countP_nil]
  have hslice : sliceVisible exTripleB (-50) 100 = exTripleB := by
    rw [sliceVisible, hts, hs1, hs2]
    rfl
  have hclamp : clampHead exTripleB (-50) = exTripleB := by
    simp only [exTripleB, clampHead]
    rw [if_neg (by norm_num [exNavy])]
  have hmin : pandasMin ([0, 1, 100] : List ℚ) = 0 := by
    norm_num [pandasMin, List.foldl_cons, List.foldl_nil, min_def]
  have hmax : pandasMax ([0, 1, 100] : List ℚ) = 100 := by
    norm_num [pandasMax, List.foldl_cons, List.foldl_nil, max_def]
  have hedges : linspace 0 100 2 = [0, 50, 100] := by
    norm_num [linspace, List.range_succ, List.range_zero]
  have hcut0 : cutBin [0, 50, 100] 2 (0 : ℚ) = some 0 := by
    norm_num [cutBin, List.countP_cons, List.countP_nil]
  have hcut1 : cutBin [0, 50, 100] 2 (1 : ℚ) = some 0 := by
    norm_num [cutBin, List.countP_cons, List.countP_nil]
  have hcut100 : cutBin [0, 50, 100] 2 (100 : ℚ) = none := by
    norm_num [cutBin, List.countP_cons, List.countP_nil]
  have hb2f0 : binToFrame (importanceScores qSqrt exTripleB)
      [0, 1, 100] [0, 50, 100] 2 0 = some 0 := by
    rw [binToFrame]
    have hfil : (List.range ([0, 1, 100] : List ℚ).length).filter
        (fun i => cutBin [0, 50, 100] 2 (([0, 1, 100] : List ℚ).getD i 0)
          = some 0) = [0, 1] := by
      rw [show List.range ([0, 1, 100] : List ℚ).length = [0, 1, 2] from rfl]
      simp [List.filter_cons, hcut0, hcut1, hcut100]
    rw [hfil, idxmaxFrom, List.foldl_cons, idxmaxStep_none, List.foldl_cons,
      idxmaxStep_some,
      show (importanceScores qSqrt exTripleB).getD 0 0
        = scoreAt qSqrt exTripleB 0 from rfl,
      show (importanceScores qSqrt exTripleB).getD 1 0
        = scoreAt qSqrt exTripleB 1 from rfl,
      hsc0, hsc1, if_neg (by norm_num), List.foldl_nil]
  have hb2f1 : binToFrame (importanceScores qSqrt exTripleB)
      [0, 1, 100] [0, 50, 100] 2 1 = none := by
    rw [binToFrame]
    have hfil : (List.range ([0, 1, 100] : List ℚ).length).filter
        (fun i => cutBin [0, 50, 100] 2 (([0, 1, 100] : List ℚ).getD i 0)
          = some 1) = [] := by
      rw [show List.range ([0, 1, 100] : List ℚ).length = [0, 1, 2] from rfl]
      simp [List.filter_cons, hcut0, hcut1, hcut100]
    rw [hfil]
    rfl
  have hemit : emitBins (binToFrame (importanceScores qSqrt exTripleB)
      [0, 1, 100] [0, 50, 100] 2) 2 = [(0, 0)] := by
    rw [emitBins, show List.range 2 = [0, 1] from rfl, List.foldl_cons,
      emitStep_some _ _ _ _ hb2f0, if_neg (by simp), List.foldl_cons,
      emitStep_noneCase _ _ _ hb2f1, List.foldl_nil]
    rfl
  have hrows0 : (emitBins (binToFrame (importanceScores qSqrt exTripleB)
      (exTripleB.map Keyframe.frame_time_ms)
      (linspace (pandasMin (exTripleB.map Keyframe.frame_time_ms))
        (pandasMax (exTripleB.map Keyframe.frame_time_ms)) 2) 2) 2).map
      (fun p => { kfAt exTripleB p.2 with frame_time_ms :=
        (linspace (pandasMin (exTripleB.map Keyframe.frame_time_ms))
          (pandasMax (exTripleB.map Keyframe.frame_time_ms)) 2).getD p.1 0 })
      = { kfAt exTripleB 0 with
          frame_time_ms := ([0, 50, 100] : List ℚ).getD 0 0 } :: [] := by
    rw [hts, hmin, hmax, hedges, hemit]
    rfl
  have hagg := aggregateData_binned_eq qSqrt exTripleB exTripleB 2 _ _
    (by simp [exTripleB]) (by norm_num) (by norm_num [exTripleB])
    (by rw [hts, hmin, hmax]; norm_num) hrows0
  rw [show ({ kfAt exTripleB 0 with
        frame_time_ms := ([0, 50, 100] : List ℚ).getD 0 0 } : Keyframe)
      = exNavy from rfl] at hagg
  rw [hts, hmax] at hagg
  rw [show (((exNavy :: [] : List Keyframe)).map
      Keyframe.frame_time_ms).getLastD 0 = 0 from rfl] at hagg
  rw [show (100 : ℚ) - 0 = 100 from by norm_num] at hagg
  rw [show mkBlocks (exNavy :: []) 100 = [⟨exNavy, (100 : ℚ)⟩] from rfl]
    at hagg
  have hfix : fixLastWidth ([0, 1, 100] : List ℚ) 100 [⟨exNavy, 100⟩]
      = [⟨exNavy, 1⟩] := by
    rw [fixLastWidth,
      show (([⟨exNavy, (100 : ℚ)⟩] : List RenderBlock).map
        blockStart).getLastD 0 = 0 from rfl,
      hss0, if_pos (by norm_num)]
    rw [show (([0, 1, 100] : List ℚ)).getD 1 0 = 1 from rfl]
    rw [show (1 : ℚ) - 0 = 1 from by norm_num]
    rfl
  have hrun : processData qSqrt exTripleB (-50) 100 12
      = ([⟨exNavy, 1⟩], false) := by
    rw [processData, if_neg (by simp [exTripleB])]
    simp only []
    rw [hslice, hclamp]
    rw [if_neg (by simp [exTripleB])]
    rw [show min ((exTripleB.length : ℤ)) (pyTrunc ((12 : ℚ) / 6)) = 2 from
      by norm_num [pyTrunc, exTripleB]]
    rw [if_neg (by norm_num)]
    rw [show ((2 : ℤ)).toNat = 2 from rfl]
    rw [hagg]
    show (fixLastWidth (exTripleB.map Keyframe.frame_time_ms) 100
      [⟨exNavy, 100⟩], false) = ([⟨exNavy, 1⟩], false)
    rw [hts, hfix]
  refine ⟨hrun, ?_, ?_⟩
  · rw [hrun]
    norm_num [blockStart, exNavy]
  · rw [hrun]
    norm_num [blockStart, exNavy]

/-- Concrete witness for the amended C7: a single keyframe at `t = 0`
viewed over the degenerate viewport `[0, 0]` at 6 px yields the single raw
block `[0, 50)`; it is nonempty and its first block starts at or before the
viewport start. -/
theorem C7_coverage_amended_witness :
    ((([exNavy] : List Keyframe).map Keyframe.frame_time_ms).Pairwise
        (· < ·)
      ∧ exNavy.frame_time_ms ≤ 0 ∧ (0 : ℚ) ≤ 0 ∧ (6 : ℚ) ≤ 6)
    ∧ processData qSqrt [exNavy] 0 0 6 = ([⟨exNavy, 50⟩], true)
    ∧ ([⟨exNavy, (50 : ℚ)⟩] : List RenderBlock) ≠ []
    ∧ blockStart (([⟨exNavy, (50 : ℚ)⟩] : List RenderBlock).getD 0 default)
      ≤ 0 := by
  have hts1 : ([exNavy] : List Keyframe).map Keyframe.frame_time_ms
      = [0] := rfl
  have hss : searchsortedRight ([0] : List ℚ) 0 = 1 := by
    norm_num [searchsortedRight, List.countP_cons, List.countP_nil]
  have hslice1 : sliceVisible [exNavy] 0 0 = [exNavy] := by
    rw [sliceVisible, hts1, hss]
    rfl
  have hclamp1 : clampHead [exNavy] 0 = [exNavy] := by
    simp only [clampHead]
    rw [if_neg (by norm_num [exNavy])]
  have hfind : List.find? (fun t => decide ((0 : ℚ) < t)) ([0] : List ℚ)
      = none := by
    rw [List.find?_cons_of_neg, List.find?_nil]
    norm_num
  have hmed : medianDiff ([0] : List ℚ) = none := rfl
  have hrawW : rawLastWidth ([0] : List ℚ) 0 = 50 := by
    rw [rawLastWidth, hfind, hmed]
  have hagg1 : aggregateData qSqrt [exNavy] 1 [exNavy]
      = .blocks [⟨exNavy, 50⟩] true := by
    rw [aggregateData, if_neg (by norm_num), if_pos (by norm_num)]
    rw [hts1, show (([0] : List ℚ)).getLastD 0 = 0 from rfl, hrawW]
    rfl
  have hEval : processData qSqrt [exNavy] 0 0 6 = ([⟨exNavy, 50⟩], true) := by
    rw [processData, if_neg (by norm_num)]
    simp only []
    rw [hslice1, hclamp1]
    rw [if_neg (by norm_num)]
    rw [show min ((([exNavy] : List Keyframe).length : ℤ))
        (pyTrunc ((6 : ℚ) / 6)) = 1 from by norm_num [pyTrunc]]
    rw [if_neg (by norm_num)]
    rw [show ((1 : ℤ)).toNat = 1 from rfl]
    rw [hagg1]
    show (fixLastWidth (([exNavy] : List Keyframe).map Keyframe.frame_time_ms)
      0 [⟨exNavy, 50⟩], true) = ([⟨exNavy, 50⟩], true)
    rw [hts1]
    rw [fixLastWidth,
      show (([⟨exNavy, (50 : ℚ)⟩] : List RenderBlock).map
        blockStart).getLastD 0 = 0 from rfl,
      hss, if_neg (by norm_num)]
    rw [show (([⟨exNavy, (50 : ℚ)⟩] : List RenderBlock).map
      RenderBlock.width).getLastD 0 = 50 from rfl]
    rw [if_neg (by norm_num)]
  have h := C7_coverage_amended qSqrt [exNavy] 0 0 6 [⟨exNavy, 50⟩] true
    (by norm_num) ⟨exNavy, by simp, by norm_num [exNavy]⟩ (le_refl 0)
    (by norm_num) hEval
  exact ⟨⟨by norm_num, by norm_num [exNavy], le_refl 0, le_refl 6⟩,
    hEval, h.1, h.2.1⟩

theorem hread_halloc_self (h : Heap) (v : List Keyframe) :
    hread (halloc h v).1 (halloc h v).2 = v := by
  rw [halloc, hread]
  rw [List.getD_append_right _ _ _ _ (le_refl _)]
  simp

theorem hread_halloc_lt (h : Heap) (v : List Keyframe) (r : ℕ)
    (hr : r < h.length) : hread (halloc h v).1 r = hread h r := by
  rw [halloc, hread, hread, List.getD_append _ _ _ _ hr]

theorem halloc_ref_lt (h : Heap) (v : List Keyframe) :
    (halloc h v).2 < (halloc h v).1.length := by
  rw [halloc]
  simp

theorem hwrite_length (h : Heap) (r : ℕ) (v : List Keyframe) :
    (hwrite h r v).length = h.length := List.length_set h r v

theorem halloc_length (h : Heap) (v : List Keyframe) :
    (halloc h v).1.length = h.length + 1 := by
  rw [halloc]
  simp

theorem hread_hwrite_self (h : Heap) (r : ℕ) (v : List Keyframe)
    (hr : r < h.length) : hread (hwrite h r v) r = v := by
  rw [hwrite, hread, List.getD_eq_getElem?_getD, List.getElem?_set_self hr]
  rfl

theorem hread_hwrite_ne (h : Heap) (r r' : ℕ) (v : List Keyframe)
    (hne : r' ≠ r) : hread (hwrite h r' v) r = hread h r := by
  rw [hwrite, hread, hread, List.getD_eq_getElem?_getD,
    List.getElem?_set_ne hne, List.getD_eq_getElem?_getD]

/-- The clamp does not change emptiness. -/
theorem clampHead_isEmpty (l : List Keyframe) (x : ℚ) :
    (clampHead l x).isEmpty = l.isEmpty := by
  cases l <;> rfl

/-- The aggregator allocates and writes only fresh objects: every
pre-existing reference reads the same after the call. -/
theorem aggregateDataHeap_frame (sqrtFn : ℚ → ℚ) (h : Heap)
    (rdf rfull : ℕ) (numBins : ℕ) :
    ∀ r, r < h.length →
      hread (aggregateDataHeap sqrtFn h rdf rfull numBins).1 r = hread h r := by
  intro r hr
  rw [aggregateDataHeap]
  simp only []
  split_ifs with hc1 hc2 hc3
  · rfl
  · exact hread_halloc_lt h (hread h rdf) r hr
  · exact hread_halloc_lt h (hread h rdf) r hr
  · cases hrows : (emitBins (binToFrame (importanceScores sqrtFn
        (hread (halloc h (hread h rdf)).1 (halloc h (hread h rdf)).2))
        ((hread (halloc h (hread h rdf)).1
          (halloc h (hread h rdf)).2).map Keyframe.frame_time_ms)
        (linspace (pandasMin ((hread (halloc h (hread h rdf)).1
            (halloc h (hread h rdf)).2).map Keyframe.frame_time_ms))
          (pandasMax ((hread (halloc h (hread h rdf)).1
            (halloc h (hread h rdf)).2).map Keyframe.frame_time_ms))
          numBins) numBins) numBins).map
        (fun p => { kfAt (hread (halloc h (hread h rdf)).1
            (halloc h (hread h rdf)).2) p.2 with
          frame_time_ms := (linspace (pandasMin ((hread
              (halloc h (hread h rdf)).1
              (halloc h (hread h rdf)).2).map Keyframe.frame_time_ms))
            (pandasMax ((hread (halloc h (hread h rdf)).1
              (halloc h (hread h rdf)).2).map Keyframe.frame_time_ms))
            numBins).getD p.1 0 }) with
    | nil =>
        cases hfilt : hread (hwrite (halloc h (hread h rdf)).1
            (halloc h (hread h rdf)).2
            ((hread (halloc h (hread h rdf)).1
              (halloc h (hread h rdf)).2).filter
              (fun f => (cutBin (linspace
                  (pandasMin ((hread (halloc h (hread h rdf)).1
                    (halloc h (hread h rdf)).2).map Keyframe.frame_time_ms))
                  (pandasMax ((hread (halloc h (hread h rdf)).1
                    (halloc h (hread h rdf)).2).map Keyframe.frame_time_ms))
                  numBins) numBins f.frame_time_ms).isSome)))
            (halloc h (hread h rdf)).2 with
        | nil =>
            show hread (hwrite (halloc h (hread h rdf)).1
              (halloc h (hread h rdf)).2 _) r = hread h r
            rw [hread_hwrite_ne _ _ _ _ (by
              rw [halloc]
              simp only []
              omega)]
            exact hread_halloc_lt h (hread h rdf) r hr
        | cons f fs =>
            show hread (hwrite (halloc h (hread h rdf)).1
              (halloc h (hread h rdf)).2 _) r = hread h r
            rw [hread_hwrite_ne _ _ _ _ (by
              rw [halloc]
              simp only []
              omega)]
            exact hread_halloc_lt h (hread h rdf) r hr
    | cons r0 rs0 =>
        show hread (hwrite (halloc h (hread h rdf)).1
          (halloc h (hread h rdf)).2 _) r = hread h r
        rw [hread_hwrite_ne _ _ _ _ (by
          rw [halloc]
          simp only []
          omega)]
        exact hread_halloc_lt h (hread h rdf) r hr

/-- The heap-level aggregator computes exactly the pure aggregation of the
objects its references point at. -/
theorem aggregateDataHeap_snd (sqrtFn : ℚ → ℚ) (h : Heap) (rdf rfull : ℕ)
    (numBins : ℕ) (hfull : rfull < h.length) :
    (aggregateDataHeap sqrtFn h rdf rfull numBins).2
      = aggregateData sqrtFn (hread h rdf) numBins (hread h rfull) := by
  rw [aggregateDataHeap, aggregateData]
  simp only []
  rw [hread_halloc_self h (hread h rdf)]
  rw [hread_halloc_lt h (hread h rdf) rfull hfull]
  rw [hread_hwrite_self _ _ _ (halloc_ref_lt h (hread h rdf))]
  split_ifs with hc1 hc2 hc3
  · rfl
  · rfl
  · rfl
  · cases hrows : (emitBins (binToFrame (importanceScores sqrtFn
        (hread h rdf)) ((hread h rdf).map Keyframe.frame_time_ms)
        (linspace (pandasMin ((hread h rdf).map Keyframe.frame_time_ms))
          (pandasMax ((hread h rdf).map Keyframe.frame_time_ms))
          numBins) numBins) numBins).map
        (fun p => { kfAt (hread h rdf) p.2 with
          frame_time_ms := (linspace
            (pandasMin ((hread h rdf).map Keyframe.frame_time_ms))
            (pandasMax ((hread h rdf).map Keyframe.frame_time_ms))
            numBins).getD p.1 0 }) with
    | nil =>
        cases hfilt : (hread h rdf).filter
            (fun f => (cutBin (linspace
                (pandasMin ((hread h rdf).map Keyframe.frame_time_ms))
                (pandasMax ((hread h rdf).map Keyframe.frame_time_ms))
                numBins) numBins f.frame_time_ms).isSome) with
        | nil => rfl
        | cons f fs => rfl
    | cons r0 rs0 => rfl

/-- Claim C9: the pipeline allocates copies for everything it mutates — the
visible slice is copied before the lead-in clamp writes to it, the
aggregator copies its input before adding columns or dropping rows, and the
final width extension writes to the aggregation's own result frame — so the
caller-supplied source object is unchanged (every pre-existing heap object
is); and the heap run computes exactly the pure `processData` of the source
sequence. -/
theorem C9_no_caller_mutation (sqrtFn : ℚ → ℚ) (h : Heap) (rsrc : ℕ)
    (xMin xMax px : ℚ) (hr : rsrc < h.length) :
    hread (processDataHeap sqrtFn h rsrc xMin xMax px).1 rsrc = hread h rsrc
    ∧ (∀ r, r < h.length →
        hread (processDataHeap sqrtFn h rsrc xMin xMax px).1 r = hread h r)
    ∧ (processDataHeap sqrtFn h rsrc xMin xMax px).2
        = processData sqrtFn (hread h rsrc) xMin xMax px := by
  have hframe : ∀ r, r < h.length →
      hread (processDataHeap sqrtFn h rsrc xMin xMax px).1 r = hread h r := by
    intro r hrl
    rw [processDataHeap]
    simp only []
    split_ifs with hc1 hc2 hc3
    · rfl
    · exact hread_halloc_lt h _ r hrl
    · rw [hread_hwrite_ne _ _ _ _ (by
        rw [halloc]
        simp only []
        omega)]
      exact hread_halloc_lt h _ r hrl
    · rcases hA : aggregateDataHeap sqrtFn
          (hwrite (halloc h (sliceVisible (hread h rsrc) xMin xMax)).1
            (halloc h (sliceVisible (hread h rsrc) xMin xMax)).2
            (clampHead (hread (halloc h (sliceVisible (hread h rsrc)
              xMin xMax)).1
              (halloc h (sliceVisible (hread h rsrc) xMin xMax)).2) xMin))
          (halloc h (sliceVisible (hread h rsrc) xMin xMax)).2 rsrc
          (min ((hread (hwrite (halloc h (sliceVisible (hread h rsrc)
              xMin xMax)).1
              (halloc h (sliceVisible (hread h rsrc) xMin xMax)).2
              (clampHead (hread (halloc h (sliceVisible (hread h rsrc)
                xMin xMax)).1
                (halloc h (sliceVisible (hread h rsrc) xMin xMax)).2)
                xMin))
              (halloc h (sliceVisible (hread h rsrc) xMin xMax)).2).length
              : ℤ)
            (pyTrunc (px / 6))).toNat with ⟨h3, res⟩
      have hA1 := congrArg Prod.fst hA
      have hframeA := aggregateDataHeap_frame sqrtFn
        (hwrite (halloc h (sliceVisible (hread h rsrc) xMin xMax)).1
          (halloc h (sliceVisible (hread h rsrc) xMin xMax)).2
          (clampHead (hread (halloc h (sliceVisible (hread h rsrc)
            xMin xMax)).1
            (halloc h (sliceVisible (hread h rsrc) xMin xMax)).2) xMin))
        (halloc h (sliceVisible (hread h rsrc) xMin xMax)).2 rsrc
        (min ((hread (hwrite (halloc h (sliceVisible (hread h rsrc)
            xMin xMax)).1
            (halloc h (sliceVisible (hread h rsrc) xMin xMax)).2
            (clampHead (hread (halloc h (sliceVisible (hread h rsrc)
              xMin xMax)).1
              (halloc h (sliceVisible (hread h rsrc) xMin xMax)).2)
              xMin))
            (halloc h (sliceVisible (hread h rsrc) xMin xMax)).2).length
            : ℤ)
          (pyTrunc (px / 6))).toNat r
        (by
          rw [hwrite_length, halloc_length]
          omega)
      rw [hA1] at hframeA
      have hcomp : hread (hwrite (halloc h (sliceVisible (hread h rsrc)
          xMin xMax)).1
          (halloc h (sliceVisible (hread h rsrc) xMin xMax)).2
          (clampHead (hread (halloc h (sliceVisible (hread h rsrc)
            xMin xMax)).1
            (halloc h (sliceVisible (hread h rsrc) xMin xMax)).2) xMin)) r
          = hread h r := by
        rw [hread_hwrite_ne _ _ _ _ (by
          rw [halloc]
          simp only []
          omega)]
        exact hread_halloc_lt h _ r hrl
      rw [hcomp] at hframeA
      rcases res with - | k | ⟨bs, isRaw⟩
      · exact hframeA
      · exact hframeA
      · exact hframeA
  refine ⟨hframe rsrc hr, hframe, ?_⟩
  rw [processDataHeap, processData]
  simp only []
  rw [hread_halloc_self h (sliceVisible (hread h rsrc) xMin xMax)]
  rw [hread_hwrite_self _ _ _ (halloc_ref_lt h
    (sliceVisible (hread h rsrc) xMin xMax))]
  rw [clampHead_isEmpty]
  split_ifs with hc1 hc2 hc3
  · rfl
  · rfl
  · rfl
  · have hsnd := aggregateDataHeap_snd sqrtFn
      (hwrite (halloc h (sliceVisible (hread h rsrc) xMin xMax)).1
        (halloc h (sliceVisible (hread h rsrc) xMin xMax)).2
        (clampHead (sliceVisible (hread h rsrc) xMin xMax) xMin))
      (halloc h (sliceVisible (hread h rsrc) xMin xMax)).2 rsrc
      (min ((clampHead (sliceVisible (hread h rsrc) xMin xMax)
          xMin).length : ℤ)
        (pyTrunc (px / 6))).toNat
      (by
        rw [hwrite_length, halloc_length]
        omega)
    rw [hread_hwrite_self _ _ _ (halloc_ref_lt h
      (sliceVisible (hread h rsrc) xMin xMax))] at hsnd
    rw [hread_hwrite_ne _ _ _ _ (by
        rw [halloc]
        simp only []
        omega),
      hread_halloc_lt h _ rsrc hr] at hsnd
    rcases hA : aggregateDataHeap sqrtFn
        (hwrite (halloc h (sliceVisible (hread h rsrc) xMin xMax)).1
          (halloc h (sliceVisible (hread h rsrc) xMin xMax)).2
          (clampHead (sliceVisible (hread h rsrc) xMin xMax) xMin))
        (halloc h (sliceVisible (hread h rsrc) xMin xMax)).2 rsrc
        (min ((clampHead (sliceVisible (hread h rsrc) xMin xMax)
            xMin).length : ℤ)
          (pyTrunc (px / 6))).toNat with ⟨h3, res⟩
    have hres : res = aggregateData sqrtFn
        (clampHead (sliceVisible (hread h rsrc) xMin xMax) xMin)
        (min ((clampHead (sliceVisible (hread h rsrc) xMin xMax)
            xMin).length : ℤ)
          (pyTrunc (px / 6))).toNat
        (hread h rsrc) := by
      rw [hA] at hsnd
      exact hsnd
    rw [← hres]
    rcases res with - | k | ⟨bs, isRaw⟩
    · rfl
    · rfl
    · rfl

/-- Concrete witness for C9: a one-object heap holding `exPair`; the run
leaves the object unchanged and returns the pure pipeline's result. -/
theorem C9_no_caller_mutation_witness :
    (0 < ([exPair] : Heap).length)
    ∧ hread (processDataHeap qSqrt [exPair] 0 0 10 12).1 0
        = hread [exPair] 0
    ∧ (processDataHeap qSqrt [exPair] 0 0 10 12).2
        = processData qSqrt (hread [exPair] 0) 0 10 12 := by
  have h := C9_no_caller_mutation qSqrt [exPair] 0 0 10 12 (by decide)
  exact ⟨by decide, h.1, h.2.2⟩

end LumaFlow
